import Mathlib

/-!
# Universal profile scraper: request building, response normalisation and the run loop

A shallow embedding of `src/background.js`.

* JavaScript values are the inductive `JSVal`: the JSON values a payload, a profile record or a
  configuration can hold, `undefined` (what a missing property reads as) and `native`, the
  built-in functions and the `Object.prototype` object that a property read can reach through
  the prototype chain of an object literal.
* Objects are association lists in property order.  A property read falls back to the prototype
  of the receiver; an assignment `o[k] = v` and a definition by an object literal or a spread are
  kept apart, because the key `__proto__` behaves differently in the two.
* Code that can throw returns `Except JSError _`.  A `forEach` whose callback mutates `result`
  returns the record as it stands when the loop is left, together with the completion.
* Numbers are integers (a JSON payload's fractions and exponents are not represented), strings
  are sequences of Unicode scalar values.  `toLowerCase` maps the ASCII capitals and the Kelvin
  sign U+212A, the characters whose lower case is an ASCII letter; the lower case of the other
  cased letters is not represented, which can only change the name of a column whose name is
  not ASCII.
* The fields of the class `UniversalProfileScraper` and the part of `chrome.storage.local` it
  reads are a record; each method is a function on that record.  What the `chrome` calls of an
  attempt answer is scripted by a list of `Attempt`s, and `Date.now()` is a parameter.  A
  storage write is taken to succeed; `broadcastStatus` is the `status` object it builds, and
  the sending of it and the export are left out.
* `scrapeProfile`, `mainLoop` and `startScraping` are the runs in which no other operation is
  called during an await.  The calls of the control operations between the awaits of
  `startScraping` are the events of `Machine`, one `LoopPoint` per call that is under way.
* The definitions come first, each named after the function or expression of the source it
  embeds; the definitions that follow the wording of the specification are collected under
  "Specification-side definitions".  The theorems follow, grouped by the claim they settle.
-/

namespace Scraper

/-! ## Values -/

/-- JavaScript values, as far as the scraper meets them. -/
inductive JSVal where
  | undefined
  | null
  | bool (b : Bool)
  | num (n : Int)
  | str (s : String)
  | arr (xs : List JSVal)
  | obj (props : List (String × JSVal))
  | native (name : String)
  deriving Inhabited

/-- The own properties of an object, in property order; a key occurs once. -/
abbrev Props := List (String × JSVal)

/-- The exceptions of the modelled code: a `TypeError` of the engine, or a `new Error(msg)`
that the code throws itself. -/
inductive JSError where
  | typeError (msg : String)
  | error (msg : String)
  deriving DecidableEq, Inhabited

namespace JSVal

/-- ToBoolean. -/
def truthy : JSVal → Bool
  | undefined => false
  | null => false
  | bool b => b
  | num n => n != 0
  | str s => s != ""
  | arr _ => true
  | obj _ => true
  | native _ => true

/-- The operator `a || b`. -/
def or (a b : JSVal) : JSVal := if a.truthy then a else b

/-- Whether the value is `null` or `undefined`. -/
def isNullish : JSVal → Bool
  | undefined => true
  | null => true
  | _ => false

/-- Whether `typeof v === 'object'`. -/
def typeofIsObject : JSVal → Bool
  | null => true
  | arr _ => true
  | obj _ => true
  | native name => name == "Object.prototype"
  | _ => false

/-- Whether `typeof v === 'string'`. -/
def typeofIsString : JSVal → Bool
  | str _ => true
  | _ => false

/-- Strict equality with a string literal, `v === lit`. -/
def strictEqStr (v : JSVal) (lit : String) : Bool :=
  match v with
  | str s => s == lit
  | _ => false

/-- The function `Array.isArray`. -/
def isArray : JSVal → Bool
  | arr _ => true
  | _ => false

end JSVal

/-! ## Own properties -/

namespace Props

/-- The value of the own property `k`, if there is one. -/
def lookup (k : String) : Props → Option JSVal
  | [] => none
  | (k', v) :: rest => if k' = k then some v else lookup k rest

/-- Whether `k` is an own property. -/
def has (k : String) (ps : Props) : Bool := (lookup k ps).isSome

/-- CreateDataProperty: what an object literal and a spread do for each key.  An existing key
keeps its position and takes the new value. -/
def define (k : String) (v : JSVal) : Props → Props
  | [] => [(k, v)]
  | (k', v') :: rest => if k' = k then (k', v) :: rest else (k', v') :: define k v rest

/-- The assignment `o[k] = v` on an object created by `{}`.  The key `__proto__` is the accessor
inherited from `Object.prototype`: the assignment goes to its setter and creates no own
property.  (The prototype that the setter installs is not tracked: the modelled code reads no
inherited property of `result` afterwards.) -/
def assign (k : String) (v : JSVal) (ps : Props) : Props :=
  if k = "__proto__" then ps else define k v ps

/-- Define every property of `src` on `dst`, in order. -/
def defineAll (src dst : Props) : Props :=
  src.foldl (fun acc kv => define kv.1 kv.2 acc) dst

end Props

/-! ## Prototypes -/

/-- The property names of `Object.prototype`. -/
def objectPrototypeNames : List String :=
  ["constructor", "__defineGetter__", "__defineSetter__", "hasOwnProperty", "__lookupGetter__",
   "__lookupSetter__", "isPrototypeOf", "propertyIsEnumerable", "toString", "valueOf",
   "__proto__", "toLocaleString"]

/-- The property names of `Array.prototype`. -/
def arrayPrototypeNames : List String :=
  ["at", "concat", "copyWithin", "entries", "every", "fill", "filter", "find", "findIndex",
   "findLast", "findLastIndex", "flat", "flatMap", "forEach", "includes", "indexOf", "join",
   "keys", "lastIndexOf", "map", "pop", "push", "reduce", "reduceRight", "reverse", "shift",
   "slice", "some", "sort", "splice", "toLocaleString", "toReversed", "toSorted", "toSpliced",
   "toString", "unshift", "values", "with", "constructor"]

/-- The property names of `String.prototype`. -/
def stringPrototypeNames : List String :=
  ["anchor", "at", "big", "blink", "bold", "charAt", "charCodeAt", "codePointAt", "concat",
   "endsWith", "fixed", "fontcolor", "fontsize", "includes", "indexOf", "isWellFormed",
   "italics", "lastIndexOf", "link", "localeCompare", "match", "matchAll", "normalize",
   "padEnd", "padStart", "repeat", "replace", "replaceAll", "search", "slice", "small", "split",
   "startsWith", "strike", "sub", "substr", "substring", "sup", "toLocaleLowerCase",
   "toLocaleUpperCase", "toLowerCase", "toString", "toUpperCase", "toWellFormed", "trim",
   "trimEnd", "trimLeft", "trimRight", "trimStart", "valueOf", "constructor"]

/-- The property names of `Number.prototype`. -/
def numberPrototypeNames : List String :=
  ["toExponential", "toFixed", "toLocaleString", "toPrecision", "toString", "valueOf",
   "constructor"]

/-- The property names of `Boolean.prototype`. -/
def boolPrototypeNames : List String := ["toString", "valueOf", "constructor"]

/-- A read of `k` that has reached `Object.prototype`: `constructor` is the function `Object`,
`__proto__` is the prototype object itself (the receiver's prototype, for an object literal),
the other names are built-in functions, and every other key is `undefined`. -/
def objectPrototypeGet (k : String) : JSVal :=
  if k = "constructor" then .native "Object"
  else if k = "__proto__" then .native "Object.prototype"
  else if k ∈ objectPrototypeNames then .native k
  else .undefined

/-- A read of `k` on a prototype that has the names `names`, then on `Object.prototype`. -/
def prototypeGet (names : List String) (k : String) : JSVal :=
  if k ∈ names then .native k else objectPrototypeGet k

/-- The number that a string of decimal digits spells, after the digits read so far. -/
def digitsValue : List Char → Nat → Option Nat
  | [], acc => some acc
  | c :: cs, acc => if c.isDigit then digitsValue cs (acc * 10 + (c.toNat - 48)) else none

/-- The canonical array index that the key `k` spells, if it spells one: `0`, or decimal digits
that do not start with `0`. -/
def arrayIndex (k : String) : Option Nat :=
  match k.data with
  | [] => none
  | [c] => digitsValue [c] 0
  | c :: cs => if c = '0' then none else digitsValue (c :: cs) 0

namespace JSVal

/-- The property read `v[k]` (`v.k`).  It throws on `null` and `undefined`. -/
def get (v : JSVal) (k : String) : Except JSError JSVal :=
  match v with
  | undefined => .error (.typeError ("Cannot read properties of undefined (reading " ++ k ++ ")"))
  | null => .error (.typeError ("Cannot read properties of null (reading " ++ k ++ ")"))
  | obj ps =>
      match Props.lookup k ps with
      | some x => .ok x
      | none => .ok (objectPrototypeGet k)
  | arr xs =>
      if k = "length" then .ok (num xs.length)
      else match arrayIndex k with
        | some i => (match xs.get? i with
            | some x => .ok x
            | none => .ok (prototypeGet arrayPrototypeNames k))
        | none => .ok (prototypeGet arrayPrototypeNames k)
  | str s =>
      if k = "length" then .ok (num s.length)
      else match arrayIndex k with
        | some i => (match s.data.get? i with
            | some c => .ok (str (String.singleton c))
            | none => .ok (prototypeGet stringPrototypeNames k))
        | none => .ok (prototypeGet stringPrototypeNames k)
  | num _ => .ok (prototypeGet numberPrototypeNames k)
  | bool _ => .ok (prototypeGet boolPrototypeNames k)
  | native _ => .ok (objectPrototypeGet k)

/-- The optional chain `v?.k`. -/
def getOpt (v : JSVal) (k : String) : JSVal :=
  match v.get k with
  | .ok x => x
  | .error _ => undefined

end JSVal

/-- The keys with which `xs` lists its elements: `0`, `1`, ... -/
def indexed (xs : List JSVal) : Props :=
  (List.range xs.length).zip xs |>.map (fun p => (toString p.1, p.2))

/-- The own enumerable properties that a spread `...v` copies. -/
def spreadProps : JSVal → Props
  | .obj ps => ps
  | .arr xs => indexed xs
  | .str s => indexed (s.data.map (fun c => JSVal.str (String.singleton c)))
  | _ => []

/-- The function `Object.keys`, on a value that is not nullish. -/
def objectKeys (v : JSVal) : List String := (spreadProps v).map Prod.fst

/-! ## Conversion to string -/

mutual
/-- ToString, as a template literal and a property key apply it.  An object that has an own,
hence not callable, `toString` cannot be converted. -/
def toStr : JSVal → Except JSError String
  | .undefined => .ok "undefined"
  | .null => .ok "null"
  | .bool b => .ok (if b then "true" else "false")
  | .num n => .ok (toString n)
  | .str s => .ok s
  | .arr xs => joinStr xs
  | .obj ps =>
      if ps.any (fun p => p.1 == "toString") then
        .error (.typeError "Cannot convert object to primitive value")
      else .ok "[object Object]"
  | .native name =>
      if name = "Object.prototype" then .ok "[object Object]"
      else .ok ("function " ++ name ++ "() \x7b [native code] \x7d")
termination_by structural v => v
/-- The method `Array.prototype.join` with the separator `,`: `null` and `undefined` elements
give the empty string. -/
def joinStr : List JSVal → Except JSError String
  | [] => .ok ""
  | x :: rest =>
      match (match x with
             | .undefined => Except.ok ""
             | .null => Except.ok ""
             | v => toStr v), joinStr rest with
      | .ok a, .ok b => .ok (if rest.isEmpty then a else a ++ "," ++ b)
      | .error e, _ => .error e
      | _, .error e => .error e
termination_by structural xs => xs
end

/-- The Kelvin sign U+212A, the one character outside ASCII whose lower case is an ASCII
letter (`k`). -/
def kelvinSign : Char := Char.ofNat 0x212A

/-- The lower case of a character: of an ASCII capital the small letter, of the Kelvin sign
`k`.  Every other character is kept. -/
def toLowerChar (c : Char) : Char := if c = kelvinSign then 'k' else c.toLower

/-- The method `String.prototype.toLowerCase`.  It is exact on the texts made of ASCII
characters and Kelvin signs.  The lower case of any other cased letter is not represented: it
holds a character outside ASCII, as the letter itself does, so the model and the code agree on
whether the lower case of a text is a given ASCII text, such as a platform or a column name. -/
def toLowerCase (s : String) : String := ⟨s.data.map toLowerChar⟩

/-- The call `v.toLowerCase()`: only a string has the method. -/
def callToLowerCase (v : JSVal) : Except JSError String :=
  match v with
  | .str s => .ok (toLowerCase s)
  | _ => .error (.typeError "toLowerCase is not a function")

/-! ## Request dispatcher (`makeUniversalApiCall`, `extractUserIdFromUrl`) -/

/-- The literal part of the pattern `/\/attendees\/([^?]+)/`. -/
def attendeesMarker : List Char := "/attendees/".data

/-- A match of the pattern that starts at the head of `cs`: the marker, then the longest run
of characters other than `?`, which must not be empty.  The result is the capture group. -/
def matchAttendeesHere (cs : List Char) : Option (List Char) :=
  if attendeesMarker.isPrefixOf cs then
    let run := (cs.drop attendeesMarker.length).takeWhile (fun c => c != '?')
    if run.isEmpty then none else some run
  else none

/-- The leftmost match of the pattern in `cs`, as `String.prototype.match` finds it. -/
def searchAttendees : List Char → Option (List Char)
  | [] => none
  | c :: cs =>
      match matchAttendeesHere (c :: cs) with
      | some run => some run
      | none => searchAttendees cs

/-- The function `extractUserIdFromUrl`. -/
def extractUserIdFromUrl (url : JSVal) : Except JSError JSVal :=
  if !url.truthy then .ok .null
  else match url with
    | .str s =>
        match searchAttendees s.data with
        | some run => .ok (.str ⟨run⟩)
        | none => .ok .null
    | _ => .error (.typeError "url.match is not a function")

/-- The user id of the REST branch:
`personData.UserId || personData.userId || extractUserIdFromUrl(personData.User_url)`. -/
def restUserId (personData : JSVal) : Except JSError JSVal := do
  let upper ← personData.get "UserId"
  if upper.truthy then pure upper
  else do
    let lower ← personData.get "userId"
    if lower.truthy then pure lower
    else do
      let url ← personData.get "User_url"
      extractUserIdFromUrl url

/-- The URL of the REST branch, the template string
`endpoint?userId=userId&eventPath=(config.eventPath || '')`. -/
def restUrl (config personData : JSVal) : Except JSError String := do
  let endpoint ← config.get "endpoint"
  let userId ← restUserId personData
  let endpointText ← toStr endpoint
  let userIdText ← toStr userId
  let eventPath ← config.get "eventPath"
  let eventPathText ← toStr (eventPath.or (.str ""))
  pure (endpointText ++ "?userId=" ++ userIdText ++ "&eventPath=" ++ eventPathText)

/-- The object literal of the GraphQL branch before the two spreads. -/
def baseVariables (config personData : JSVal) : Except JSError Props := do
  let personId ← personData.get "personId"
  let id ← personData.get "id"
  let userId ← personData.get "userId"
  let eventId ← config.get "eventId"
  pure [("personId", personId.or id), ("userId", userId), ("eventId", eventId),
        ("skipMeetings", .bool false), ("withEvent", .bool true)]

/-- The `variables` object of the GraphQL branch: the literal, then `...config.variables`,
then `...(config.dynamicParams || {})`. -/
def graphQLVariables (config personData : JSVal) : Except JSError Props := do
  let base ← baseVariables config personData
  let configVariables ← config.get "variables"
  let dynamicParams ← config.get "dynamicParams"
  pure (Props.defineAll (spreadProps (dynamicParams.or (.obj [])))
    (Props.defineAll (spreadProps configVariables) base))

/-- The value that the GraphQL branch hands to `JSON.stringify`: a one-element array.  The
serialisation itself leaves out the keys whose value is `undefined`. -/
def graphQLBody (config personData : JSVal) : Except JSError JSVal := do
  let vars ← graphQLVariables config personData
  let operationName ← config.get "operationName"
  let extensions ← config.get "extensions"
  let sha256Hash ← config.get "sha256Hash"
  pure (.arr [.obj [
    ("operationName", operationName.or (.str "EventPersonDetailsQuery")),
    ("variables", .obj vars),
    ("extensions", extensions.or (.obj [("persistedQuery",
        .obj [("version", .num 1), ("sha256Hash", sha256Hash)])]))]])

/-- What `makeUniversalApiCall` passes to `fetch`. -/
structure Request where
  url : JSVal
  method : JSVal
  headers : Props
  body : Option JSVal

/-- The headers every request starts from. -/
def defaultHeaders : Props :=
  [("accept", .str "application/json, text/plain, */*"),
   ("accept-language", .str "en-GB,en-US;q=0.9,en;q=0.8"),
   ("cache-control", .str "no-cache"),
   ("pragma", .str "no-cache"),
   ("sec-fetch-dest", .str "empty"),
   ("sec-fetch-mode", .str "cors"),
   ("sec-fetch-site", .str "same-origin")]

/-- The request that `makeUniversalApiCall` builds, up to the call of `fetch`.  A configuration
that has crossed `chrome.scripting.executeScript` holds no function, so a truthy `urlBuilder`
or `bodyBuilder` of the CUSTOM branch cannot be called. -/
def makeUniversalApiCall (config personData : JSVal) : Except JSError Request := do
  let apiType ← config.get "apiType"
  let endpoint ← config.get "endpoint"
  let headers ← config.get "headers"
  let methodRaw ← config.get "method"
  let method := match methodRaw with
    | .undefined => JSVal.str "GET"
    | m => m
  let headers0 := Props.defineAll (spreadProps headers) defaultHeaders
  if apiType.strictEqStr "REST" then
    let url ← restUrl config personData
    pure { url := .str url, method := method, headers := headers0, body := none }
  else if apiType.strictEqStr "GraphQL" then
    let headers1 := Props.assign "content-type" (.str "application/json") headers0
    let authToken ← config.get "authToken"
    let headers2 := if authToken.truthy then Props.assign "authorization" authToken headers1
      else headers1
    let sessionCookies ← config.get "sessionCookies"
    let headers3 := if sessionCookies.truthy then Props.assign "cookie" sessionCookies headers2
      else headers2
    let body ← graphQLBody config personData
    pure { url := endpoint, method := .str "POST", headers := headers3, body := some body }
  else if apiType.strictEqStr "CUSTOM" then
    let urlBuilder ← config.get "urlBuilder"
    if urlBuilder.truthy then
      throw (.typeError "config.urlBuilder is not a function")
    else do
      let bodyBuilder ← config.get "bodyBuilder"
      if bodyBuilder.truthy && !method.strictEqStr "GET" then
        throw (.typeError "config.bodyBuilder is not a function")
      else
        pure { url := endpoint, method := method, headers := headers0, body := none }
  else
    pure { url := endpoint, method := method, headers := headers0, body := none }

/-! ## Social link resolver (`processSocialNetworks`, `generateSocialUrl`) -/

/-- The table `socialPlatforms`: platform name and column name. -/
def socialPlatformTable : List (String × String) :=
  [("linkedin", "linkedinUrl"), ("facebook", "facebookUrl"), ("instagram", "instagramUrl"),
   ("twitter", "twitterUrl"), ("skype", "skypeUrl"), ("telegram", "telegramUrl"),
   ("youtube", "youtubeUrl"), ("tiktok", "tiktokUrl"), ("github", "githubUrl"),
   ("discord", "discordUrl"), ("whatsapp", "whatsappUrl"), ("snapchat", "snapchatUrl"),
   ("pinterest", "pinterestUrl"), ("reddit", "redditUrl"), ("tumblr", "tumblrUrl"),
   ("medium", "mediumUrl"), ("behance", "behanceUrl"), ("dribbble", "dribbbleUrl")]

/-- The object literal `socialPlatforms`. -/
def socialPlatforms : Props := socialPlatformTable.map (fun p => (p.1, JSVal.str p.2))

/-- The columns `Object.values(socialPlatforms)`. -/
def socialColumns : List String := socialPlatformTable.map Prod.snd

/-- The object literal `urlMappings`, with the profile already converted to text by the
template strings. -/
def urlMappings (profile : String) : Props :=
  [("linkedin", .str ("https://linkedin.com/in/" ++ profile)),
   ("facebook", .str ("https://facebook.com/" ++ profile)),
   ("instagram", .str ("https://instagram.com/" ++ profile)),
   ("twitter", .str ("https://twitter.com/" ++ profile)),
   ("skype", .str ("skype:" ++ profile ++ "?chat")),
   ("telegram", .str ("https://t.me/" ++ profile)),
   ("youtube", .str ("https://youtube.com/@" ++ profile)),
   ("tiktok", .str ("https://tiktok.com/@" ++ profile)),
   ("github", .str ("https://github.com/" ++ profile)),
   ("discord", .str ("discord:" ++ profile)),
   ("whatsapp", .str ("https://wa.me/" ++ profile)),
   ("snapchat", .str ("https://snapchat.com/add/" ++ profile)),
   ("pinterest", .str ("https://pinterest.com/" ++ profile)),
   ("reddit", .str ("https://reddit.com/u/" ++ profile)),
   ("tumblr", .str ("https://" ++ profile ++ ".tumblr.com")),
   ("medium", .str ("https://medium.com/@" ++ profile)),
   ("behance", .str ("https://behance.net/" ++ profile)),
   ("dribbble", .str ("https://dribbble.com/" ++ profile))]

/-- The function `generateSocialUrl`: `urlMappings[platform] || profile`. -/
def generateSocialUrl (platform : String) (profile : JSVal) : Except JSError JSVal := do
  let text ← toStr profile
  let mapped ← (JSVal.obj (urlMappings text)).get platform
  pure (mapped.or profile)

/-- The record when a `forEach` over it is left, and the exception that ended the loop, if
one did. -/
structure Outcome where
  result : Props
  thrown : Option JSError

/-- The method `Array.prototype.forEach` with a callback that mutates `result`: the elements are
visited in order, and an exception thrown by the callback ends the loop. -/
def forEach (callback : JSVal → Props → Except JSError Props) : List JSVal → Props → Outcome
  | [], result => ⟨result, none⟩
  | x :: rest, result =>
      match callback x result with
      | .ok result' => forEach callback rest result'
      | .error e => ⟨result, some e⟩

/-- What the caller of the loop gets: the exception if one was thrown, else the record. -/
def Outcome.toExcept (o : Outcome) : Except JSError Props :=
  match o.thrown with
  | some e => .error e
  | none => .ok o.result

/-- The callback of `socialNetworks.forEach(network => ...)`, for one entry. -/
def processNetwork (network : JSVal) (result : Props) : Except JSError Props := do
  let type ← network.get "type"
  if !type.truthy then pure result
  else do
    let profile ← network.get "profile"
    if !profile.truthy then pure result
    else do
      let platformKey ← callToLowerCase type
      let columnName ← (JSVal.obj socialPlatforms).get platformKey
      if columnName.truthy then do
        let url ← generateSocialUrl platformKey profile
        let key ← toStr columnName
        pure (Props.assign key url result)
      else
        pure (Props.assign (toLowerCase platformKey ++ "Url") profile result)

/-- The loop that sets every known column to `null`. -/
def initSocialColumns (result : Props) : Props :=
  socialColumns.foldl (fun r column => Props.assign column .null r) result

/-- The method `processSocialNetworks(socialNetworks, result)`. -/
def processSocialNetworks (socialNetworks : JSVal) (result : Props) : Outcome :=
  let result0 := initSocialColumns result
  if !socialNetworks.truthy || !socialNetworks.isArray then ⟨result0, none⟩
  else match socialNetworks with
    | .arr networks => forEach processNetwork networks result0
    | _ => ⟨result0, none⟩

/-! ## Event fields (`processEventFields`, `cleanFieldName`) -/

/-- The class `\w`. -/
def isWordChar (c : Char) : Bool := c.isAlphanum || c == '_'

/-- The class `\s`, which is also what `trim` removes. -/
def isJsWhitespace (c : Char) : Bool :=
  c.toNat ∈ [0x09, 0x0A, 0x0B, 0x0C, 0x0D, 0x20, 0xA0, 0x1680, 0x2000, 0x2001, 0x2002, 0x2003,
    0x2004, 0x2005, 0x2006, 0x2007, 0x2008, 0x2009, 0x200A, 0x2028, 0x2029, 0x202F, 0x205F,
    0x3000, 0xFEFF]

/-- The step `.replace(/[^\w\s-]/g, '')`. -/
def stripSpecial (cs : List Char) : List Char :=
  cs.filter (fun c => isWordChar c || isJsWhitespace c || c == '-')

/-- The step `.replace(/\s+/g, ' ')`; `inRun` says that the previous character was whitespace
and has already been replaced. -/
def collapseWhitespace : Bool → List Char → List Char
  | _, [] => []
  | inRun, c :: cs =>
      if isJsWhitespace c then
        if inRun then collapseWhitespace true cs else ' ' :: collapseWhitespace true cs
      else c :: collapseWhitespace false cs

/-- The method `String.prototype.trim`. -/
def trim (cs : List Char) : List Char :=
  ((cs.dropWhile isJsWhitespace).reverse.dropWhile isJsWhitespace).reverse

/-- The method `cleanFieldName` on a string. -/
def cleanFieldNameText (fieldName : String) : String :=
  ⟨trim (collapseWhitespace false (stripSpecial fieldName.data))⟩

/-- The method `cleanFieldName`: only a string has `replace`. -/
def cleanFieldName (fieldName : JSVal) : Except JSError String :=
  match fieldName with
  | .str s => .ok (cleanFieldNameText s)
  | _ => .error (.typeError "fieldName.replace is not a function")

/-- The step `.filter(v => v.text)`. -/
def filterByText : List JSVal → Except JSError (List JSVal)
  | [] => .ok []
  | v :: rest => do
      let text ← v.get "text"
      let kept ← filterByText rest
      pure (if text.truthy then v :: kept else kept)

/-- The step `.map(v => v.text)`. -/
def mapText : List JSVal → Except JSError (List JSVal)
  | [] => .ok []
  | v :: rest => do
      let text ← v.get "text"
      let texts ← mapText rest
      pure (text :: texts)

/-- The `switch (field.__typename)` of `processEventFields`: the value of `fieldValue` when the
switch is left. -/
def extractFieldValue (field : JSVal) : Except JSError JSVal := do
  let typename ← field.get "__typename"
  let value ← field.get "value"
  if typename.strictEqStr "Core_SelectField" then
    if value.truthy then do
      let text ← value.get "text"
      if text.truthy then pure text else pure .null
    else pure .null
  else if typename.strictEqStr "Core_MultipleSelectField" then do
    let values ← field.get "values"
    match values with
    | .arr vs => do
        let kept ← filterByText vs
        let texts ← mapText kept
        if texts.length = 0 then pure .null else pure (.arr texts)
    | _ => pure .null
  else if typename.strictEqStr "Core_TextField" then
    if value.truthy then do
      let text ← value.get "text"
      if text.truthy then pure text
      else if value.typeofIsString then pure value
      else pure .null
    else if value.typeofIsString then pure value
    else pure .null
  else if typename.strictEqStr "Core_NumberField" then
    if !value.isNullish then pure value else pure .null
  else if typename.strictEqStr "Core_BooleanField" then
    if !value.isNullish then pure value else pure .null
  else if typename.strictEqStr "Core_DateField" then
    if value.truthy then pure value else pure .null
  else
    if value.truthy then
      if value.typeofIsObject then do
        let text ← value.get "text"
        if text.truthy then pure text else pure .null
      else pure value
    else pure .null

/-- The callback of `fields.forEach(field => ...)`, for one field. -/
def processField (field : JSVal) (result : Props) : Except JSError Props := do
  let name ← field.get "name"
  if !name.truthy then pure result
  else do
    let isVisible ← field.get "isVisible"
    if !isVisible.truthy then pure result
    else do
      let fieldValue ← extractFieldValue field
      let column ← cleanFieldName name
      pure (Props.assign column fieldValue result)

/-- The method `processEventFields(fields, result)`. -/
def processEventFields (fields : JSVal) (result : Props) : Outcome :=
  match fields with
  | .arr fs => forEach processField fs result
  | _ => ⟨result, none⟩

/-! ## Response normaliser (`processApiResponse`) -/

/-- The fields that the GraphQL branch projects, `result.k = apiData.k || null`, in order. -/
def graphQLCoreFields : List String :=
  ["id", "userId", "firstName", "lastName", "jobTitle", "organization", "email", "websiteUrl",
   "mobilePhone", "landlinePhone", "photoUrl", "address"]

/-- The fields that the REST branch projects after `id`: the column, the key in `userProfile`
and the top-level key. -/
def restCoreFields : List (String × String × String) :=
  [("firstName", "firstName", "firstName"), ("lastName", "lastName", "lastName"),
   ("jobTitle", "jobTitle", "jobTitle"), ("organization", "company", "organization"),
   ("email", "email", "email"), ("websiteUrl", "website", "websiteUrl"),
   ("mobilePhone", "phone", "mobilePhone"), ("photoUrl", "avatar", "photoUrl")]

/-- The projection of the GraphQL branch. -/
def projectGraphQL (apiData : JSVal) : List String → Props → Except JSError Props
  | [], result => .ok result
  | k :: ks, result => do
      let v ← apiData.get k
      projectGraphQL apiData ks (Props.assign k (v.or .null) result)

/-- The optional chain `apiData.userProfile?.k`. -/
def optionalGet (userProfile : JSVal) (k : String) : Except JSError JSVal :=
  if userProfile.isNullish then .ok .undefined else userProfile.get k

/-- The projection of the REST branch after `id`:
`result.col = apiData.userProfile?.nested || apiData.flat || null`. -/
def projectRest (apiData userProfile : JSVal) :
    List (String × String × String) → Props → Except JSError Props
  | [], result => .ok result
  | (column, nested, flat) :: rest, result => do
      let a ← optionalGet userProfile nested
      let b ← apiData.get flat
      projectRest apiData userProfile rest (Props.assign column ((a.or b).or .null) result)

/-- The call `result.hasOwnProperty(key)`.  An own property of that name is a value copied from
the payload, which cannot be called. -/
def callHasOwnProperty (result : Props) (key : String) : Except JSError Bool :=
  match Props.lookup "hasOwnProperty" result with
  | some _ => .error (.typeError "result.hasOwnProperty is not a function")
  | none => .ok (Props.has key result)

/-- The loop `Object.keys(apiData.userProfile).forEach(key => ...)` of the REST branch. -/
def copyAdditional (userProfile : JSVal) : List String → Props → Except JSError Props
  | [], result => .ok result
  | key :: keys, result => do
      let own ← callHasOwnProperty result key
      if own then copyAdditional userProfile keys result
      else
        let v ← userProfile.get key
        if v.typeofIsObject then copyAdditional userProfile keys result
        else copyAdditional userProfile keys (Props.assign key v result)

/-- The method `processApiResponse(apiData, apiType)`. -/
def processApiResponse (apiData apiType : JSVal) : Except JSError Props :=
  if apiType.strictEqStr "GraphQL" && apiData.truthy then do
    let result ← projectGraphQL apiData graphQLCoreFields []
    let socialNetworks ← apiData.get "socialNetworks"
    let social ← (processSocialNetworks socialNetworks result).toExcept
    let withEvent ← apiData.get "withEvent"
    if withEvent.truthy then do
      let fields ← withEvent.get "fields"
      if fields.truthy then (processEventFields fields social).toExcept
      else pure social
    else pure social
  else if apiType.strictEqStr "REST" && apiData.truthy then do
    let userId ← apiData.get "userId"
    let id ← apiData.get "id"
    let userProfile ← apiData.get "userProfile"
    let result ← projectRest apiData userProfile restCoreFields
      (Props.assign "id" ((userId.or id).or .null) [])
    if userProfile.truthy then
      copyAdditional userProfile (objectKeys userProfile) result
    else pure result
  else .ok []

/-! ## Scrape orchestrator (`UniversalProfileScraper`) -/

/-- What `saveState` writes under the keys `profileData`, `currentIndex` and `results`. -/
structure Snapshot where
  profileData : List JSVal
  currentIndex : Nat
  results : List JSVal

/-- The part of `chrome.storage.local` that the scraper reads: the three keys of a snapshot
(`none` before the first `saveState`), and the keys `settings` and `apiConfig` (`undefined`
when absent). -/
structure Storage where
  run : Option Snapshot
  settings : JSVal
  apiConfig : JSVal

/-- The fields of the class `UniversalProfileScraper`, and the storage it persists to. -/
structure UniversalProfileScraper where
  profileData : List JSVal
  currentIndex : Nat
  results : List JSVal
  isRunning : Bool
  isPaused : Bool
  delayBetweenRequests : JSVal
  maxRetries : Nat
  batchSize : Nat
  rateLimitDelay : Nat
  apiConfig : JSVal
  storage : Storage

/-- The default `apiConfig` of the constructor. -/
def defaultApiConfig : JSVal :=
  .obj [("apiType", .str "REST"), ("endpoint", .str "https://sbcconnect.com/api/user/getById"),
        ("eventPath", .str "casinobeats-summit-2025"), ("headers", .obj []),
        ("targetDomain", .str "sbcconnect.com")]

/-- The constructor, for a given content of the storage. -/
def UniversalProfileScraper.constructor (storage : Storage) : UniversalProfileScraper :=
  { profileData := [], currentIndex := 0, results := [], isRunning := false, isPaused := false,
    delayBetweenRequests := .num 5000, maxRetries := 2, batchSize := 5, rateLimitDelay := 5000,
    apiConfig := defaultApiConfig, storage := storage }

/-- The method `saveState`: the storage takes the three fields and `apiConfig` as they are when
the method is called.  (The write is taken to succeed.) -/
def saveState (s : UniversalProfileScraper) : UniversalProfileScraper :=
  { s with storage := { s.storage with
      run := some ⟨s.profileData, s.currentIndex, s.results⟩, apiConfig := s.apiConfig } }

/-- The method `initialize`, once `chrome.storage.local.get` has answered. -/
def initializeState (s : UniversalProfileScraper) : UniversalProfileScraper :=
  { s with
    profileData := match s.storage.run with
      | some snap => snap.profileData
      | none => []
    currentIndex := match s.storage.run with
      | some snap => snap.currentIndex
      | none => 0
    results := match s.storage.run with
      | some snap => snap.results
      | none => []
    delayBetweenRequests :=
      if s.storage.settings.truthy then (s.storage.settings.getOpt "delay").or (.num 5000)
      else s.delayBetweenRequests
    apiConfig :=
      if s.storage.apiConfig.truthy then
        .obj (Props.defineAll (spreadProps s.storage.apiConfig) (spreadProps s.apiConfig))
      else s.apiConfig }

/-- The method `loadProfileData(data)`: the instance after the call, and the exception if the
call threw. -/
def loadProfileData (data : JSVal) (s : UniversalProfileScraper) :
    UniversalProfileScraper × Option JSError :=
  match data with
  | .arr profiles =>
      (saveState { s with profileData := profiles, currentIndex := 0, results := [] }, none)
  | _ =>
      match data.get "profiles" with
      | .error e => (s, some e)
      | .ok profiles =>
          match profiles with
          | .arr ps =>
              (saveState { s with profileData := ps, currentIndex := 0, results := [] }, none)
          | _ => (s, some (.error
              "Invalid profile data format. Expected array or object with profiles property."))

/-- The method `pauseScraping`. -/
def pauseScraping (s : UniversalProfileScraper) : UniversalProfileScraper :=
  saveState { s with isPaused := true }

/-- The method `stopScraping`. -/
def stopScraping (s : UniversalProfileScraper) : UniversalProfileScraper :=
  saveState { s with isRunning := false, isPaused := false }

/-! ### One item: `scrapeProfile` -/

/-- What one attempt of `scrapeProfile` gets from the `chrome` calls it awaits. -/
inductive Attempt where
  /-- A call of `chrome.tabs.query` or `chrome.scripting.executeScript` rejects. -/
  | rejected (message : String)
  /-- The call `chrome.tabs.query` finds no tab. -/
  | noTab
  /-- The call `executeScript` answers; `result` is the first element of its array, whose
  `result` property is what `makeUniversalApiCall` resolved with. -/
  | injected (result : JSVal)

/-- How an attempt ends inside the `try` block. -/
inductive Verdict where
  /-- The return of the flattened record. -/
  | success (cleanedData : Props)
  /-- The branch `data.rateLimited`; `message` is that of the `Error` thrown when no retry is
  left. -/
  | rateLimited (message : String)
  /-- An exception with this message reaches the `catch` block. -/
  | failed (message : String)

/-- The property `message` of a caught exception. -/
def JSError.message : JSError → String
  | .typeError msg => msg
  | .error msg => msg

/-- The message of `new Error(v)`, or of the `TypeError` that the conversion of `v` raises. -/
def thrownMessage (v : JSVal) : String :=
  match toStr v with
  | .ok text => text
  | .error e => e.message

/-- The `try` block of `scrapeProfile` for one attempt, up to the test of `retryCount`. -/
def attemptVerdict (apiConfig : JSVal) (attempt : Attempt) : Verdict :=
  match toStr (apiConfig.getOpt "targetDomain") with
  | .error e => .failed e.message
  | .ok targetDomain =>
    match attempt with
    | .rejected message => .failed message
    | .noTab => .failed ("No " ++ targetDomain ++ " tab found. Please ensure you have " ++
        targetDomain ++ " open in a tab.")
    | .injected result =>
      if result.truthy && (result.getOpt "result").truthy then
        let data := result.getOpt "result"
        if (data.getOpt "success").truthy then
          match processApiResponse (data.getOpt "response") (apiConfig.getOpt "apiType") with
          | .ok cleanedData => .success cleanedData
          | .error e => .failed e.message
        else if (data.getOpt "rateLimited").truthy then
          .rateLimited (thrownMessage ((data.getOpt "error").or (.str "Unknown error")))
        else .failed (thrownMessage ((data.getOpt "error").or (.str "Unknown error")))
      else .failed "No response from content script"

/-- The object `{...cleanedData, timestamp: Date.now(), index: this.currentIndex}`. -/
def successResult (cleanedData : Props) (now : Int) (index : Nat) : JSVal :=
  .obj (Props.define "index" (.num index) (Props.define "timestamp" (.num now) cleanedData))

/-- The object `{inputData: profileData, error: error.message, timestamp: Date.now(),
index: this.currentIndex}`. -/
def errorResult (profileData : JSVal) (message : String) (now : Int) (index : Nat) : JSVal :=
  .obj [("inputData", profileData), ("error", .str message), ("timestamp", .num now),
        ("index", .num index)]

/-- What a call of `scrapeProfile` resolves with, the number of attempts it made, the
durations of its sleeps, and the attempts of the script that it did not use. -/
structure ScrapeRun where
  result : JSVal
  attempts : Nat
  sleeps : List Nat
  rest : List Attempt

/-- One more attempt, after a sleep, in front of the run of the retry. -/
def ScrapeRun.after (delay : Nat) (run : ScrapeRun) : ScrapeRun :=
  { run with attempts := run.attempts + 1, sleeps := delay :: run.sleeps }

/-- The method `scrapeProfile(profileData, retryCount)`.  The list scripts what the successive
attempts get; `now` is the reading of `Date.now()` for the result.  With no attempt left in the
script the call does not resolve. -/
def scrapeProfile (s : UniversalProfileScraper) (now : Int) (profileData : JSVal) :
    List Attempt → Nat → Option ScrapeRun
  | [], _ => none
  | attempt :: rest, retryCount =>
      match attemptVerdict s.apiConfig attempt with
      | .success cleanedData =>
          some ⟨successResult cleanedData now s.currentIndex, 1, [], rest⟩
      | .rateLimited message =>
          if retryCount < s.maxRetries then
            (scrapeProfile s now profileData rest (retryCount + 1)).map
              (ScrapeRun.after s.rateLimitDelay)
          else some ⟨errorResult profileData message now s.currentIndex, 1, [], rest⟩
      | .failed message =>
          if retryCount < s.maxRetries then
            (scrapeProfile s now profileData rest (retryCount + 1)).map (ScrapeRun.after 2000)
          else some ⟨errorResult profileData message now s.currentIndex, 1, [], rest⟩

/-! ### The loop of `startScraping` -/

/-- The condition of the `while` loop. -/
def loopCondition (s : UniversalProfileScraper) : Bool :=
  decide (s.currentIndex < s.profileData.length) && s.isRunning && !s.isPaused

/-- The element `this.profileData[this.currentIndex]`. -/
def currentProfile (s : UniversalProfileScraper) : JSVal :=
  (s.profileData.get? s.currentIndex).getD .undefined

/-- The statements `this.results.push(result); this.currentIndex++`. -/
def pushResult (s : UniversalProfileScraper) (result : JSVal) : UniversalProfileScraper :=
  { s with results := s.results ++ [result], currentIndex := s.currentIndex + 1 }

/-- The body of the loop from the result of `scrapeProfile` on: the push, and the periodic
`saveState`. -/
def advance (s : UniversalProfileScraper) (result : JSVal) : UniversalProfileScraper :=
  let s1 := pushResult s result
  if s1.currentIndex % s1.batchSize = 0 then saveState s1 else s1

/-- The `while` loop when no other operation runs while it awaits: at most `fuel` iterations;
`clock` gives the reading of `Date.now()` for the result of each index. -/
def mainLoop (clock : Nat → Int) :
    Nat → UniversalProfileScraper → List Attempt → Option (UniversalProfileScraper × List Attempt)
  | 0, s, attempts => if loopCondition s then none else some (s, attempts)
  | fuel + 1, s, attempts =>
      if loopCondition s then
        match scrapeProfile s (clock s.currentIndex) (currentProfile s) attempts 0 with
        | none => none
        | some run => mainLoop clock fuel (advance s run.result) run.rest
      else some (s, attempts)

/-- The method `startScraping`, called while no earlier call of it is under way, when no other
operation runs while it awaits.  (The status broadcasts and the export of the results leave
the instance as it is.)  The calls that meet another call are the events of `Machine`. -/
def startScraping (clock : Nat → Int) (s : UniversalProfileScraper) (attempts : List Attempt) :
    Option (UniversalProfileScraper × List Attempt) :=
  if s.isRunning then some (s, attempts)
  else
    let s1 := initializeState s
    if s1.profileData.length = 0 then some (s1, attempts)
    else
      match mainLoop clock (s1.profileData.length - s1.currentIndex)
          { s1 with isRunning := true, isPaused := false } attempts with
      | none => none
      | some (s2, rest) => some ({ saveState s2 with isRunning := false }, rest)

/-! ### The control operations between the awaits of the loop -/

/-- Where a call of `startScraping` that has passed the test of `isRunning` is suspended. -/
inductive LoopPoint where
  /-- In `await this.initialize()`. -/
  | awaitInit
  /-- In `await this.scrapeProfile(profileData)`. -/
  | awaitScrape (profileData : JSVal)
  /-- In the `await this.saveState()` of the loop body. -/
  | awaitBatchSave
  /-- In `await this.sleep(delay)`. -/
  | awaitSleep
  /-- In the `await this.saveState()` after the loop. -/
  | awaitFinalSave
  /-- In `await this.exportResults()`. -/
  | awaitExport
  /-- Returned. -/
  | finished

/-- The instance, the calls of `startScraping` that are under way, and the number of calls of
`scrapeProfile` made so far. -/
structure Machine where
  scraper : UniversalProfileScraper
  tasks : List LoopPoint
  scrapeCalls : Nat

/-- The test of the `while` condition by the call `task`: either the next call of
`scrapeProfile`, or the `saveState` after the loop. -/
def Machine.atLoopHead (m : Machine) (task : Nat) : Machine :=
  if loopCondition m.scraper then
    { m with tasks := m.tasks.set task (.awaitScrape (currentProfile m.scraper)),
             scrapeCalls := m.scrapeCalls + 1 }
  else
    { m with scraper := saveState m.scraper, tasks := m.tasks.set task .awaitFinalSave }

/-- The end of the loop body for the call `task`: the sleep before the next request, or
straight back to the test of the condition. -/
def Machine.atDelay (m : Machine) (task : Nat) : Machine :=
  if m.scraper.currentIndex < m.scraper.profileData.length then
    { m with tasks := m.tasks.set task .awaitSleep }
  else m.atLoopHead task

/-- The await of the call `task` completes.  For an awaited `scrapeProfile`, `attempts` scripts
its attempts and `now` is its reading of `Date.now()`. -/
def Machine.resumeTask (m : Machine) (task : Nat) (now : Int) (attempts : List Attempt) :
    Option Machine :=
  match m.tasks.get? task with
  | some .awaitInit =>
      let s1 := initializeState m.scraper
      if s1.profileData.length = 0 then
        some { m with scraper := s1, tasks := m.tasks.set task .finished }
      else
        some (Machine.atLoopHead
          { m with scraper := { s1 with isRunning := true, isPaused := false } } task)
  | some (.awaitScrape profileData) =>
      match scrapeProfile m.scraper now profileData attempts 0 with
      | none => none
      | some run =>
          let s1 := pushResult m.scraper run.result
          if s1.currentIndex % s1.batchSize = 0 then
            some { m with scraper := saveState s1, tasks := m.tasks.set task .awaitBatchSave }
          else some (Machine.atDelay { m with scraper := s1 } task)
  | some .awaitBatchSave => some (m.atDelay task)
  | some .awaitSleep => some (m.atLoopHead task)
  | some .awaitFinalSave =>
      some { m with scraper := { m.scraper with isRunning := false },
                    tasks := m.tasks.set task .awaitExport }
  | some .awaitExport => some { m with tasks := m.tasks.set task .finished }
  | some .finished => none
  | none => none

/-- A call of a control operation by the message handler, or the completion of an await. -/
inductive Event where
  | startScraping
  | pauseScraping
  | resumeScraping
  | stopScraping
  | completes (task : Nat) (now : Int) (attempts : List Attempt)

/-- The synchronous part of `startScraping`: the test of `isRunning`, then the call of
`initialize`, in which the new call is suspended. -/
def Machine.callStart (m : Machine) : Machine :=
  if m.scraper.isRunning then m else { m with tasks := m.tasks ++ [.awaitInit] }

/-- One event; `none` when an await is said to complete that is not pending. -/
def Machine.step (m : Machine) : Event → Option Machine
  | .startScraping => some m.callStart
  | .pauseScraping => some { m with scraper := pauseScraping m.scraper }
  | .resumeScraping =>
      if !m.scraper.isRunning then some m.callStart
      else some { m with scraper := { m.scraper with isPaused := false } }
  | .stopScraping => some { m with scraper := stopScraping m.scraper }
  | .completes task now attempts => m.resumeTask task now attempts

/-- A sequence of events. -/
def Machine.run (m : Machine) : List Event → Option Machine
  | [] => some m
  | e :: es =>
      match m.step e with
      | none => none
      | some m' => m'.run es

/-- The calls of `startScraping` that are inside the loop. -/
def Machine.activeLoops (m : Machine) : Nat :=
  (m.tasks.filter (fun t => match t with
    | .awaitScrape _ => true
    | .awaitBatchSave => true
    | .awaitSleep => true
    | _ => false)).length

/-- The calls of `scrapeProfile` that are awaited. -/
def Machine.inFlight (m : Machine) : Nat :=
  (m.tasks.filter (fun t => match t with
    | .awaitScrape _ => true
    | _ => false)).length

/-! ### Configuration and status: `updateApiConfig`, `broadcastStatus` -/

/-- The field `siteConfigs` of the constructor, which no method assigns. -/
def siteConfigs : JSVal :=
  .obj [("sbcconnect.com", .obj [("apiType", .str "REST"),
          ("endpoint", .str "https://sbcconnect.com/api/user/getById"),
          ("eventPath", .str "casinobeats-summit-2025"), ("headers", .obj []),
          ("targetDomain", .str "sbcconnect.com")]),
        ("event.igblive.com", .obj [("apiType", .str "GraphQL"),
          ("endpoint", .str "https://event.igblive.com/api/graphql"),
          ("operationName", .str "EventPersonDetailsQuery"),
          ("sha256Hash",
            .str "03e6ab3182b93582753b79d92ee01125bd74c7164986e7870be9dcad9080f048"),
          ("eventId", .str "RXZlbnRfMjYxMTQwMQ=="),
          ("headers", .obj [("x-client-origin", .str "event.igblive.com"),
            ("x-client-platform", .str "Event App"), ("x-client-version", .str "2.309.229")]),
          ("targetDomain", .str "event.igblive.com"),
          ("extensions", .obj [("persistedQuery", .obj [("version", .num 1),
            ("sha256Hash",
              .str "03e6ab3182b93582753b79d92ee01125bd74c7164986e7870be9dcad9080f048")])])])]

/-- The assignment of `this.apiConfig` and the write of the key `apiConfig` to the storage
that follows it in `updateApiConfig`. -/
def storeApiConfig (apiConfig : JSVal) (s : UniversalProfileScraper) : UniversalProfileScraper :=
  { s with apiConfig := apiConfig, storage := { s.storage with apiConfig := apiConfig } }

/-- The method `updateApiConfig(config)`: the instance after the call, and the exception if the
call threw.  The key of `this.siteConfigs[config.targetDomain]` is the string conversion of
`config.targetDomain`, and the read goes through the prototype chain of the object literal. -/
def updateApiConfig (config : JSVal) (s : UniversalProfileScraper) :
    UniversalProfileScraper × Option JSError :=
  match config.get "targetDomain" with
  | .error e => (s, some e)
  | .ok targetDomain =>
      if targetDomain.truthy then
        match toStr targetDomain with
        | .error e => (s, some e)
        | .ok key =>
            if (siteConfigs.getOpt key).truthy then
              (storeApiConfig (.obj (Props.defineAll (spreadProps config)
                (spreadProps (siteConfigs.getOpt key)))) s, none)
            else
              (storeApiConfig (.obj (Props.defineAll (spreadProps config)
                (spreadProps s.apiConfig))) s, none)
      else
        (storeApiConfig (.obj (Props.defineAll (spreadProps config)
          (spreadProps s.apiConfig))) s, none)

/-- The number of elements `r` of `results` for which the callback `r => keep(r.error)` is
truthy, as `results.filter(...).length` gives it; the read `r.error` throws on a nullish
element. -/
def countResults (keep : Bool → Bool) : List JSVal → Except JSError Nat
  | [] => .ok 0
  | r :: rest =>
      match r.get "error" with
      | .error e => .error e
      | .ok v =>
          match countResults keep rest with
          | .error e => .error e
          | .ok n => .ok (if keep v.truthy then n + 1 else n)

/-- The object `status` of `broadcastStatus` (and of the `getStatus` message). -/
structure Status where
  isRunning : Bool
  isPaused : Bool
  currentIndex : Nat
  totalProfiles : Nat
  totalResults : Nat
  successCount : Nat
  errorCount : Nat
  apiConfig : JSVal

/-- The method `broadcastStatus`: the `status` object that it sends. -/
def broadcastStatus (s : UniversalProfileScraper) : Except JSError Status :=
  match countResults (fun e => !e) s.results with
  | .error e => .error e
  | .ok successCount =>
      match countResults (fun e => e) s.results with
      | .error e => .error e
      | .ok errorCount =>
          .ok { isRunning := s.isRunning, isPaused := s.isPaused,
                currentIndex := s.currentIndex, totalProfiles := s.profileData.length,
                totalResults := s.results.length, successCount := successCount,
                errorCount := errorCount, apiConfig := s.apiConfig }

/-! ## Specification-side definitions -/

/-- The entry carries a `type` whose lower case (`toLowerCase`) is the platform `p`, and a
`profile`. -/
def namesPlatform (p : String) (network : JSVal) : Bool :=
  match network.get "type", network.get "profile" with
  | .ok (.str t), .ok profile => toLowerCase t == p && profile.truthy
  | _, _ => false

/-- A network entry as the resolver's contract types it, `{type, profile}`: an object whose
`type` and `profile`, where present, are strings or `null`. -/
def isNetworkEntry : JSVal → Bool
  | .obj ps =>
      (match Props.lookup "type" ps with
        | none => true
        | some (.str _) => true
        | some .null => true
        | some _ => false) &&
      (match Props.lookup "profile" ps with
        | none => true
        | some (.str _) => true
        | some .null => true
        | some _ => false)
  | _ => false

/-- The profile of the entry when the lower case of its `type` (`toLowerCase`) is the platform
`p` and its `profile` is a non-empty string. -/
def entryProfileFor (p : String) (network : JSVal) : Option String :=
  match network.get "type", network.get "profile" with
  | .ok (.str t), .ok (.str profile) =>
      if toLowerCase t = p ∧ profile ≠ "" then some profile else none
  | _, _ => none

/-- The profile of the last entry of the list that `entryProfileFor` accepts for `p`. -/
def lastProfileFor (p : String) : List JSVal → Option String
  | [] => none
  | network :: rest =>
      match lastProfileFor p rest with
      | some profile => some profile
      | none => entryProfileFor p network

/-- The claim's words for the match of an entry: its `type` equals the platform `p` when ASCII
letter case is ignored, and its `profile` is a non-empty string. -/
def entryProfileIgnoringAsciiCase (p : String) (network : JSVal) : Option String :=
  match network.get "type", network.get "profile" with
  | .ok (.str t), .ok (.str profile) =>
      if t.data.map Char.toLower = p.data.map Char.toLower ∧ profile ≠ "" then some profile
      else none
  | _, _ => none

/-- The profile of the last entry of the list that the claim's words accept for `p`. -/
def lastProfileIgnoringAsciiCase (p : String) : List JSVal → Option String
  | [] => none
  | network :: rest =>
      match lastProfileIgnoringAsciiCase p rest with
      | some profile => some profile
      | none => entryProfileIgnoringAsciiCase p network

/-- The URL template of each known platform, as the text before and the text after the
profile. -/
def urlTemplateTable : List (String × String × String) :=
  [("linkedin", "https://linkedin.com/in/", ""), ("facebook", "https://facebook.com/", ""),
   ("instagram", "https://instagram.com/", ""), ("twitter", "https://twitter.com/", ""),
   ("skype", "skype:", "?chat"), ("telegram", "https://t.me/", ""),
   ("youtube", "https://youtube.com/@", ""), ("tiktok", "https://tiktok.com/@", ""),
   ("github", "https://github.com/", ""), ("discord", "discord:", ""),
   ("whatsapp", "https://wa.me/", ""), ("snapchat", "https://snapchat.com/add/", ""),
   ("pinterest", "https://pinterest.com/", ""), ("reddit", "https://reddit.com/u/", ""),
   ("tumblr", "https://", ".tumblr.com"), ("medium", "https://medium.com/@", ""),
   ("behance", "https://behance.net/", ""), ("dribbble", "https://dribbble.com/", "")]

/-- The number of positions of `text` at which `pat` occurs. -/
def countOccurrences (pat : List Char) : List Char → Nat
  | [] => 0
  | c :: cs => (if pat.isPrefixOf (c :: cs) then 1 else 0) + countOccurrences pat cs

/-- The claim's words for the id taken from the URL field: the characters that follow the first
`/attendees/` of the text, up to the next `?` or the end. -/
def afterFirstAttendees : List Char → Option (List Char)
  | [] => none
  | c :: cs =>
      if attendeesMarker.isPrefixOf (c :: cs) then
        some (((c :: cs).drop attendeesMarker.length).takeWhile (fun x => x != '?'))
      else afterFirstAttendees cs

/-- An event field as the normaliser's contract types it: an object whose `name`, where
present, is a string or `null`, and whose `values`, where it is a list, has no `null` or
`undefined` element. -/
def isEventField : JSVal → Bool
  | .obj ps =>
      (match Props.lookup "name" ps with
        | none => true
        | some (.str _) => true
        | some .null => true
        | some _ => false) &&
      (match Props.lookup "values" ps with
        | some (.arr vs) => vs.all (fun v => !v.isNullish)
        | _ => true)
  | _ => false

/-- The texts of the elements of `values` that have a truthy `text`, in their order. -/
def truthyTexts (vs : List JSVal) : List JSVal :=
  (vs.filter (fun v => (v.getOpt "text").truthy)).map (fun v => v.getOpt "text")

/-- The specification's words for the second step of `cleanFieldName`: every maximal run of
whitespace is replaced by one space. -/
def collapseRuns : List Char → List Char
  | [] => []
  | c :: cs =>
      if isJsWhitespace c then ' ' :: collapseRuns (cs.dropWhile isJsWhitespace)
      else c :: collapseRuns cs
termination_by cs => cs.length
decreasing_by
  · simp_wf
    exact Nat.lt_succ_of_le ((List.dropWhile_suffix isJsWhitespace).length_le)
  · simp_wf

/-- The specification's words for `cleanFieldName`: remove every character that is not a word
character, whitespace or hyphen, replace every maximal whitespace run by one space, trim. -/
def cleanFieldNameSpec (s : String) : String :=
  ⟨List.rdropWhile isJsWhitespace (List.dropWhile isJsWhitespace
    (collapseRuns (s.data.filter (fun c => isWordChar c || isJsWhitespace c || c == '-'))))⟩

/-- Whether the attempt ends with the return of a flattened record. -/
def Verdict.isSuccess : Verdict → Bool
  | .success _ => true
  | _ => false

/-- The message of the error with which a failed attempt ends. -/
def Verdict.message : Verdict → String
  | .success _ => ""
  | .rateLimited message => message
  | .failed message => message

/-- The sleep before the retry of a failed attempt: `rateLimitDelay` after a rate-limit
signal, 2000 ms after any other error. -/
def Verdict.retryDelay (s : UniversalProfileScraper) : Verdict → Nat
  | .rateLimited _ => s.rateLimitDelay
  | _ => 2000

/-- What an attempt gets when `makeUniversalApiCall` resolves with
`{success: false, error: 'Invalid response structure'}`. -/
def invalidResponseAttempt : Attempt :=
  .injected (.obj [("result",
    .obj [("success", .bool false), ("error", .str "Invalid response structure")])])

/-- What an attempt gets when `makeUniversalApiCall` resolves with
`{success: false, rateLimited: true, error: 'Rate limited'}` (HTTP 429). -/
def rateLimitedAttempt : Attempt :=
  .injected (.obj [("result",
    .obj [("success", .bool false), ("rateLimited", .bool true), ("error", .str "Rate limited")])])

/-- What an attempt gets when `makeUniversalApiCall` resolves with
`{success: true, response: response}`. -/
def successAttempt (response : JSVal) : Attempt :=
  .injected (.obj [("result", .obj [("success", .bool true), ("response", response)])])

/-- The inputs that `loadProfileData` is specified to accept: an array, or an object whose
`profiles` property is an array. -/
def isAcceptedProfileInput : JSVal → Bool
  | .arr _ => true
  | .obj ps =>
      match Props.lookup "profiles" ps with
      | some (.arr _) => true
      | _ => false
  | _ => false

/-- The list that an accepted input supplies. -/
def suppliedProfiles : JSVal → List JSVal
  | .arr profiles => profiles
  | .obj ps =>
      match Props.lookup "profiles" ps with
      | some (.arr profiles) => profiles
      | _ => []
  | _ => []
/-- The predicate `currentIndex == results.length` and `currentIndex <= profileData.length`. -/
def runInvariant (s : UniversalProfileScraper) : Prop :=
  s.currentIndex = s.results.length ∧ s.currentIndex ≤ s.profileData.length

/-- The same predicate for the snapshot that the storage holds, if it holds one. -/
def storedInvariant (storage : Storage) : Prop :=
  ∀ snap, storage.run = some snap →
    snap.currentIndex = snap.results.length ∧ snap.currentIndex ≤ snap.profileData.length

/-- The result `r` is what a call of `scrapeProfile` for `profileData`, made with the
configuration of `s` while `currentIndex` is `index`, resolves with. -/
def IsOutcomeOf (s : UniversalProfileScraper) (profileData : JSVal) (index : Nat) (r : JSVal) :
    Prop :=
  ∃ (t : UniversalProfileScraper) (now : Int) (attempts : List Attempt) (run : ScrapeRun),
    t.apiConfig = s.apiConfig ∧ t.maxRetries = s.maxRetries ∧ t.currentIndex = index ∧
    scrapeProfile t now profileData attempts 0 = some run ∧ run.result = r

/-- The result `r` has one of the two shapes that `scrapeProfile` resolves with for the item
`profile` at position `index`: the flattened record with `timestamp` and `index`, or the
terminal-error result, whose `inputData` is the item. -/
def IsResultFor (now : Int) (profile : JSVal) (index : Nat) (r : JSVal) : Prop :=
  r.getOpt "index" = .num index ∧
  ((∃ cleanedData, r = successResult cleanedData now index) ∨
   (∃ message, r = errorResult profile message now index ∧ r.getOpt "inputData" = profile))

/-- The awaits of `startScraping` after which the call goes on to assign `isRunning` or to push
a result: `initialize` and `scrapeProfile`. -/
def LoopPoint.isBeforePush : LoopPoint → Bool
  | .awaitInit => true
  | .awaitScrape _ => true
  | _ => false

/-- A call of `startScraping` or of `resumeScraping`. -/
def Event.startsRun : Event → Bool
  | .startScraping => true
  | .resumeScraping => true
  | _ => false

/-- A call of `stopScraping`. -/
def Event.isStop : Event → Bool
  | .stopScraping => true
  | _ => false

/-- The `while` condition is false on the flags, and no call of `startScraping` is suspended
where it would go on to set the flags or to push a result. -/
def Machine.held (m : Machine) : Prop :=
  (m.scraper.isPaused = true ∨ m.scraper.isRunning = false) ∧
  ∀ t ∈ m.tasks, t.isBeforePush = false

/-- The machine of a new instance on which `loadProfileData(profiles)` has completed. -/
def Machine.loaded (profiles : List JSVal) : Machine :=
  { scraper := (loadProfileData (.arr profiles)
      (UniversalProfileScraper.constructor ⟨none, .undefined, .undefined⟩)).1,
    tasks := [], scrapeCalls := 0 }

/-- The events that take `Machine.loaded` into the sleep between the first and the second
item: the start, the answer of the storage, and the success of the first request. -/
def eventsUntilSleep : List Event :=
  [.startScraping, .completes 0 0 [], .completes 0 1700000000000 [successAttempt (.obj [])]]

/-- The machine that `eventsUntilSleep` leads to for two items: the only loop is in the sleep
between the first and the second. -/
def sleepingMachine : Machine :=
  ((Machine.loaded [.obj [("profileId", .str "a")], .obj [("profileId", .str "b")]]).run
    eventsUntilSleep).getD (Machine.loaded [])

/-- A request whose three attempts all find no tab: with `maxRetries = 2` it ends with the
terminal-error result, which names its item in `inputData`. -/
def failedRequest : List Attempt := [.noTab, .noTab, .noTab]

/-- Two `startScraping` messages before the storage has answered the first call's
`initialize`; then both answers arrive. -/
def eventsTwoStarts : List Event :=
  [.startScraping, .startScraping, .completes 0 0 [], .completes 1 0 []]

/-- The loop reaches its first sleep, `stopScraping` is called, then `startScraping`; the
storage answers the new call, and the sleep of the old call completes. -/
def eventsStopThenStart : List Event :=
  [.startScraping, .completes 0 0 [], .completes 0 1700000000000 failedRequest,
   .stopScraping, .startScraping, .completes 1 0 [], .completes 0 0 []]

/-- The loop reaches its first sleep, `stopScraping` is called, then `resumeScraping`. -/
def eventsStopThenResume : List Event :=
  [.startScraping, .completes 0 0 [], .completes 0 1700000000000 failedRequest,
   .stopScraping, .resumeScraping]

/-- After `eventsStopThenResume`: the storage answers the call that `resumeScraping` made, the
sleep of the first call completes, and the two requests end. -/
def eventsAfterResume : List Event :=
  [.completes 1 0 [], .completes 0 0 [], .completes 1 1700000000001 failedRequest,
   .completes 0 1700000000002 failedRequest]

/-- After `eventsTwoStarts`: the two requests end, the sleep of the first call completes, and
both calls save, export and return. -/
def eventsToTheEnd : List Event :=
  [.completes 0 1700000000000 failedRequest, .completes 1 1700000000001 failedRequest,
   .completes 0 0 [], .completes 0 0 [], .completes 1 0 [], .completes 0 0 [],
   .completes 1 0 []]

/-- The three numbers of the predicate: `currentIndex`, `results.length` and
`profileData.length`. -/
def Machine.runState (m : Machine) : Nat × Nat × Nat :=
  (m.scraper.currentIndex, m.scraper.results.length, m.scraper.profileData.length)

/-- What the claim is about: the calls inside the loop, the requests in flight, the calls of
`scrapeProfile` made, `currentIndex`, and the `inputData` and `index` of each result. -/
def Machine.summary (m : Machine) : Nat × Nat × Nat × Nat × List (JSVal × JSVal) :=
  (m.activeLoops, m.inFlight, m.scrapeCalls, m.scraper.currentIndex,
    m.scraper.results.map (fun r => (r.getOpt "inputData", r.getOpt "index")))

/-- The domains for which `siteConfigs` has a preset. -/
def knownDomains : List String := ["sbcconnect.com", "event.igblive.com"]

/-- The object whose keys `updateApiConfig` keeps for the keys that `config` lacks, when
`config.targetDomain` is truthy and converts to `key`: the preset for a known domain, nothing
for a key that is a property name of `Object.prototype`, else the previous `apiConfig`. -/
def mergeBase (previous : JSVal) (key : String) : Props :=
  if key ∈ knownDomains then spreadProps (siteConfigs.getOpt key)
  else if key ∈ objectPrototypeNames then []
  else spreadProps previous

/-- How the scrape of an item ended: with a flattened record, or with the terminal error after
the retries. -/
inductive Ending where
  | succeeded (cleanedData : Props) (now : Int) (index : Nat)
  | failedTerminally (profileData : JSVal) (message : String) (now : Int) (index : Nat)

/-- The result that `scrapeProfile` resolves with for the ending. -/
def Ending.result : Ending → JSVal
  | .succeeded cleanedData now index => successResult cleanedData now index
  | .failedTerminally profileData message now index => errorResult profileData message now index

/-- Whether the ending is a terminal failure. -/
def Ending.isFailure : Ending → Bool
  | .succeeded _ _ _ => false
  | .failedTerminally _ _ _ _ => true

/-- The ending does not mislead the test `r.error`: a flattened record has no truthy column
`error`, and the message of a terminal error is not empty. -/
def Ending.isPlain : Ending → Bool
  | .succeeded cleanedData _ _ =>
      match Props.lookup "error" cleanedData with
      | some v => !v.truthy
      | none => true
  | .failedTerminally _ message _ _ => message != ""

end Scraper

/-! # Theorems -/

namespace Scraper

/-! ## Own properties -/

theorem Props.lookup_define_self (k : String) (v : JSVal) (ps : Props) :
    Props.lookup k (Props.define k v ps) = some v := by
  induction ps with
  | nil => simp [Props.define, Props.lookup]
  | cons p rest ih =>
      obtain ⟨k', v'⟩ := p
      by_cases h : k' = k <;> simp [Props.define, Props.lookup, h, ih]

theorem Props.lookup_define_ne {k k' : String} (h : k ≠ k') (v : JSVal) (ps : Props) :
    Props.lookup k' (Props.define k v ps) = Props.lookup k' ps := by
  induction ps with
  | nil => simp [Props.define, Props.lookup, h]
  | cons p rest ih =>
      obtain ⟨k₀, v₀⟩ := p
      by_cases h₀ : k₀ = k
      · subst h₀; simp [Props.define, Props.lookup, h]
      · by_cases h₁ : k₀ = k'
        · subst h₁; simp [Props.define, Props.lookup, h₀]
        · simp [Props.define, Props.lookup, h₀, h₁, ih]

theorem Props.lookup_define (k k' : String) (v : JSVal) (ps : Props) :
    Props.lookup k' (Props.define k v ps) = if k = k' then some v else Props.lookup k' ps := by
  by_cases h : k = k'
  · subst h; simp [Props.lookup_define_self]
  · simp [h, Props.lookup_define_ne h]

theorem Props.lookup_eq_none_of_not_mem {k : String} {ps : Props}
    (h : k ∉ ps.map Prod.fst) : Props.lookup k ps = none := by
  induction ps with
  | nil => rfl
  | cons p rest ih =>
      obtain ⟨k', v'⟩ := p
      simp only [List.map_cons, List.mem_cons, not_or] at h
      simp [Props.lookup, Ne.symm h.1, ih h.2]

/-- A spread: the keys of the source take the source's value, the other keys keep theirs. -/
theorem Props.lookup_defineAll (k : String) (src dst : Props)
    (hsrc : (src.map Prod.fst).Nodup) :
    Props.lookup k (Props.defineAll src dst) =
      match Props.lookup k src with
      | some v => some v
      | none => Props.lookup k dst := by
  induction src generalizing dst with
  | nil => simp [Props.defineAll, Props.lookup]
  | cons p rest ih =>
      obtain ⟨k', v'⟩ := p
      simp only [List.map_cons, List.nodup_cons] at hsrc
      have ih' := ih (Props.define k' v' dst) hsrc.2
      simp only [Props.defineAll, List.foldl_cons] at ih' ⊢
      rw [ih']
      by_cases h : k' = k
      · subst h
        simp [Props.lookup, Props.lookup_eq_none_of_not_mem hsrc.1, Props.lookup_define_self]
      · simp [Props.lookup, h, Props.lookup_define_ne h]

theorem JSVal.get_obj (ps : Props) (k : String) :
    (JSVal.obj ps).get k = .ok ((JSVal.obj ps).getOpt k) := by
  simp only [JSVal.getOpt, JSVal.get]
  cases Props.lookup k ps <;> rfl

/-! ## C1: priority of the sources of the GraphQL `variables` -/

/-- C1 (counterexample): with `config.variables = {personId: 'fromConfig'}` and
`config.dynamicParams = {userId: 'fromParams'}`, the `variables` of the request for the person
`{personId: 'p1', userId: 'u1'}` carry the configured values, not the ones derived from the
person record. -/
theorem graphQLVariables_config_overrides_person :
    ∃ vars,
      graphQLVariables
          (.obj [("variables", .obj [("personId", .str "fromConfig")]),
                 ("dynamicParams", .obj [("userId", .str "fromParams")])])
          (.obj [("personId", .str "p1"), ("userId", .str "u1")]) = .ok vars ∧
      Props.lookup "personId" vars = some (.str "fromConfig") ∧
      Props.lookup "userId" vars = some (.str "fromParams") ∧
      Props.lookup "personId" vars ≠ some (.str "p1") ∧
      Props.lookup "userId" vars ≠ some (.str "u1") := by
  refine ⟨_, rfl, rfl, rfl, ?_, ?_⟩ <;> simp [Props.lookup, Props.defineAll, Props.define,
    spreadProps, JSVal.or, JSVal.truthy]

/-- C1 (amended): for every configuration and person record, the `variables` object gives each
key the value of `config.dynamicParams` when that defines the key, else the value of
`config.variables` when that defines it, else the value of the literal: `personId` derived
from the person record (`personId`, else `id`), `userId` of the person record, `eventId` of the
configuration, `skipMeetings: false` and `withEvent: true`. -/
theorem graphQLVariables_priority (config personData : Props)
    (hv : ((spreadProps ((JSVal.obj config).getOpt "variables")).map Prod.fst).Nodup)
    (hd : ((spreadProps (((JSVal.obj config).getOpt "dynamicParams").or (.obj []))).map
      Prod.fst).Nodup) :
    ∃ vars, graphQLVariables (.obj config) (.obj personData) = .ok vars ∧
      ∀ k, Props.lookup k vars =
        match Props.lookup k
            (spreadProps (((JSVal.obj config).getOpt "dynamicParams").or (.obj []))) with
        | some v => some v
        | none =>
            match Props.lookup k (spreadProps ((JSVal.obj config).getOpt "variables")) with
            | some v => some v
            | none =>
                Props.lookup k
                  [("personId", ((JSVal.obj personData).getOpt "personId").or
                      ((JSVal.obj personData).getOpt "id")),
                   ("userId", (JSVal.obj personData).getOpt "userId"),
                   ("eventId", (JSVal.obj config).getOpt "eventId"),
                   ("skipMeetings", .bool false), ("withEvent", .bool true)] := by
  have hrun : graphQLVariables (.obj config) (.obj personData) = .ok
      (Props.defineAll (spreadProps (((JSVal.obj config).getOpt "dynamicParams").or (.obj [])))
        (Props.defineAll (spreadProps ((JSVal.obj config).getOpt "variables"))
          [("personId", ((JSVal.obj personData).getOpt "personId").or
              ((JSVal.obj personData).getOpt "id")),
           ("userId", (JSVal.obj personData).getOpt "userId"),
           ("eventId", (JSVal.obj config).getOpt "eventId"),
           ("skipMeetings", .bool false), ("withEvent", .bool true)])) := by
    simp only [graphQLVariables, baseVariables, JSVal.get_obj, bind, Except.bind, pure,
      Except.pure]
  refine ⟨_, hrun, fun k => ?_⟩
  rw [Props.lookup_defineAll k _ _ hd, Props.lookup_defineAll k _ _ hv]

/-- C1 (amended), at a configuration whose `dynamicParams` and `variables` both define `lang`
and whose `variables` define `personId`. -/
theorem graphQLVariables_priority_witness :
    ∃ vars,
      graphQLVariables
          (.obj [("variables", .obj [("lang", .str "en"), ("personId", .str "fromConfig")]),
                 ("dynamicParams", .obj [("lang", .str "de")])])
          (.obj [("id", .str "p1")]) = .ok vars ∧
      Props.lookup "lang" vars = some (.str "de") ∧
      Props.lookup "personId" vars = some (.str "fromConfig") ∧
      Props.lookup "withEvent" vars = some (.bool true) := by
  obtain ⟨vars, h, hk⟩ := graphQLVariables_priority
    [("variables", .obj [("lang", .str "en"), ("personId", .str "fromConfig")]),
     ("dynamicParams", .obj [("lang", .str "de")])]
    [("id", .str "p1")] (by decide) (by decide)
  exact ⟨vars, h, by rw [hk]; rfl, by rw [hk]; rfl, by rw [hk]; rfl⟩

/-! ## C2: the known platform columns -/

theorem lookup_map_str (t : List (String × String)) (k : String) (x : JSVal)
    (h : Props.lookup k (t.map (fun p => (p.1, JSVal.str p.2))) = some x) :
    ∃ col, x = .str col ∧ (k, col) ∈ t := by
  induction t with
  | nil => simp [Props.lookup] at h
  | cons p rest ih =>
      obtain ⟨k', c⟩ := p
      simp only [List.map_cons, Props.lookup] at h
      split at h
      · rename_i hk
        subst hk
        exact ⟨c, by simpa using h.symm, by simp⟩
      · obtain ⟨col, hx, hm⟩ := ih h
        exact ⟨col, hx, List.mem_cons_of_mem _ hm⟩

theorem socialPlatformTable_facts :
    ∀ p ∈ socialPlatformTable, p.2 ≠ "" ∧ p.2 ≠ "__proto__" ∧ p.2 = p.1 ++ "Url" := by
  decide

theorem toLower_not_upper (c : Char) : ¬ (c.toLower.toNat ≥ 65 ∧ c.toLower.toNat ≤ 90) := by
  unfold Char.toLower
  simp only
  split
  · rename_i h
    have hc : c = Char.ofNat c.toNat := by simp
    obtain ⟨h1, h2⟩ := h
    generalize c.toNat = n at *
    interval_cases n <;> decide
  · assumption

theorem toLower_toLower (c : Char) : c.toLower.toLower = c.toLower := by
  have h := toLower_not_upper c
  generalize c.toLower = d at *
  unfold Char.toLower
  simp only
  rw [if_neg h]

theorem toLower_ne_kelvinSign (c : Char) (h : c ≠ kelvinSign) : c.toLower ≠ kelvinSign := by
  unfold Char.toLower
  simp only
  split
  · rename_i hc
    obtain ⟨h1, h2⟩ := hc
    have hn : (Char.ofNat (c.toNat + 32)).toNat = c.toNat + 32 := by
      generalize c.toNat = n at *
      interval_cases n <;> decide
    intro he
    rw [he] at hn
    have hk : kelvinSign.toNat = 8490 := by decide
    omega
  · exact h

theorem toLowerChar_idem (c : Char) : toLowerChar (toLowerChar c) = toLowerChar c := by
  unfold toLowerChar
  by_cases h : c = kelvinSign
  · rw [if_pos h]
    decide
  · rw [if_neg h, if_neg (toLower_ne_kelvinSign c h), toLower_toLower]

theorem toLowerCase_idem (s : String) : toLowerCase (toLowerCase s) = toLowerCase s := by
  simp only [toLowerCase, List.map_map]
  congr 1
  exact List.map_congr_left (fun c _ => toLowerChar_idem c)

theorem append_url_cancel {a b : String} (h : a ++ "Url" = b ++ "Url") : a = b := by
  have h' := congrArg String.data h
  simp only [String.data_append] at h'
  exact String.ext (List.append_cancel_right h')

theorem lookup_map_str_of_mem (t : List (String × String)) (hn : (t.map Prod.fst).Nodup)
    {k col : String} (h : (k, col) ∈ t) :
    Props.lookup k (t.map (fun p => (p.1, JSVal.str p.2))) = some (.str col) := by
  induction t with
  | nil => simp at h
  | cons p rest ih =>
      obtain ⟨k', c⟩ := p
      simp only [List.map_cons, List.nodup_cons] at hn
      simp only [List.mem_cons, Prod.mk.injEq] at h
      rcases h with ⟨hk, hc⟩ | h
      · subst hk; subst hc; simp [Props.lookup]
      · have hne : k' ≠ k := by
          rintro rfl
          exact hn.1 (List.mem_map.mpr ⟨(k', col), h, rfl⟩)
        simp [Props.lookup, hne, ih hn.2 h]

theorem socialPlatformTable_nodup : (socialPlatformTable.map Prod.fst).Nodup := by decide

theorem getOpt_socialPlatforms_of_mem {p col : String} (h : (p, col) ∈ socialPlatformTable) :
    (JSVal.obj socialPlatforms).getOpt p = .str col := by
  have := lookup_map_str_of_mem socialPlatformTable socialPlatformTable_nodup h
  simp [JSVal.getOpt, JSVal.get, socialPlatforms, this]

theorem getOpt_socialPlatforms_cases (k : String) :
    (∃ col, (k, col) ∈ socialPlatformTable ∧ (JSVal.obj socialPlatforms).getOpt k = .str col) ∨
    ((∀ col, (k, col) ∉ socialPlatformTable) ∧
      (JSVal.obj socialPlatforms).getOpt k = objectPrototypeGet k) := by
  cases h : Props.lookup k socialPlatforms with
  | some x =>
      obtain ⟨col, hx, hm⟩ := lookup_map_str socialPlatformTable k x h
      exact Or.inl ⟨col, hm, by simp [JSVal.getOpt, JSVal.get, h, hx]⟩
  | none =>
      refine Or.inr ⟨fun col hm => ?_, by simp [JSVal.getOpt, JSVal.get, h]⟩
      have := lookup_map_str_of_mem socialPlatformTable socialPlatformTable_nodup hm
      rw [socialPlatforms] at h
      rw [h] at this
      exact Option.noConfusion this

/-- The key under which a truthy value read from `Object.prototype` is stored is no known
column. -/
theorem toStr_objectPrototypeGet_not_column (k key : String)
    (h : toStr (objectPrototypeGet k) = .ok key) (ht : (objectPrototypeGet k).truthy = true) :
    key ∉ socialColumns := by
  unfold objectPrototypeGet at h ht
  split at h
  · simp [toStr] at h; subst h; decide
  · split at h
    · simp [toStr] at h; subst h; decide
    · split at h
      · rename_i hm
        simp only [objectPrototypeNames, List.mem_cons, List.mem_singleton, List.not_mem_nil,
          or_false] at hm
        rcases hm with rfl | rfl | rfl | rfl | rfl | rfl | rfl | rfl | rfl | rfl | rfl | rfl <;>
          (simp [toStr] at h; subst h; decide)
      · rename_i h1 h2 h3
        simp [h1, h2, h3, JSVal.truthy] at ht

theorem processNetwork_effect {network : JSVal} {result result' : Props}
    (h : processNetwork network result = .ok result') :
    result' = result ∨ ∃ key v, result' = Props.assign key v result ∧
      (key ∈ socialColumns → ∃ t profile, network.get "type" = .ok (.str t) ∧
        network.get "profile" = .ok profile ∧ profile.truthy = true ∧
        (toLowerCase t, key) ∈ socialPlatformTable ∧
        generateSocialUrl (toLowerCase t) profile = .ok v) := by
  unfold processNetwork at h
  cases hty : network.get "type" with
  | error e => simp [hty, bind, Except.bind] at h
  | ok ty =>
    simp only [hty, bind, Except.bind] at h
    split at h
    · left; simpa [pure, Except.pure] using h.symm
    · cases hpr : network.get "profile" with
      | error e => simp [hpr] at h
      | ok profile =>
        simp only [hpr] at h
        split at h
        · left; simpa [pure, Except.pure] using h.symm
        · rename_i hty2 hpr2
          cases ty with
          | str t =>
            simp only [callToLowerCase, JSVal.get_obj] at h
            have hpt : profile.truthy = true := by simpa using hpr2
            right
            rcases getOpt_socialPlatforms_cases (toLowerCase t) with ⟨col, hm, hg⟩ | ⟨hno, hg⟩
            · have hcol := (socialPlatformTable_facts _ hm).1
              rw [hg] at h
              simp only [JSVal.truthy, bne_iff_ne, ne_eq, hcol, not_false_eq_true, if_true,
                toStr] at h
              cases hu : generateSocialUrl (toLowerCase t) profile with
              | error e => simp [hu] at h
              | ok url =>
                simp only [hu, pure, Except.pure, Except.ok.injEq] at h
                exact ⟨col, url, h.symm, fun _ => ⟨t, profile, rfl, rfl, hpt, hm, hu⟩⟩
            · rw [hg] at h
              split at h
              · rename_i htr
                cases hu : generateSocialUrl (toLowerCase t) profile with
                | error e => simp [hu] at h
                | ok url =>
                  cases hk : toStr (objectPrototypeGet (toLowerCase t)) with
                  | error e => simp [hu, hk] at h
                  | ok key =>
                    simp only [hu, hk, pure, Except.pure, Except.ok.injEq] at h
                    exact ⟨key, url, h.symm, fun hmem =>
                      absurd hmem (toStr_objectPrototypeGet_not_column _ _ hk htr)⟩
              · simp only [pure, Except.pure, Except.ok.injEq, toLowerCase_idem] at h
                refine ⟨_, _, h.symm, fun hmem => ?_⟩
                exfalso
                simp only [socialColumns, List.mem_map] at hmem
                obtain ⟨⟨p, c⟩, hm, hc⟩ := hmem
                simp only at hc
                have hf := (socialPlatformTable_facts _ hm).2.2
                simp only at hf
                have hp : p = toLowerCase t := append_url_cancel (by rw [← hf, hc])
                subst hp
                exact hno c hm
          | _ => simp [callToLowerCase] at h

theorem Props.lookup_assign (k k' : String) (v : JSVal) (ps : Props) :
    Props.lookup k' (Props.assign k v ps) =
      if k = "__proto__" then Props.lookup k' ps
      else if k = k' then some v else Props.lookup k' ps := by
  unfold Props.assign
  split
  · rfl
  · exact Props.lookup_define k k' v ps

theorem lookup_foldl_assign_null (cols : List String) (hp : "__proto__" ∉ cols) (c : String)
    (r : Props) (h : c ∈ cols ∨ Props.lookup c r = some .null) :
    Props.lookup c (cols.foldl (fun r column => Props.assign column .null r) r) = some .null := by
  induction cols generalizing r with
  | nil => simpa using h
  | cons c' rest ih =>
      simp only [List.mem_cons, not_or] at hp
      simp only [List.foldl_cons]
      apply ih hp.2
      rw [Props.lookup_assign, if_neg (Ne.symm hp.1)]
      by_cases hc : c' = c
      · right; simp [hc]
      · simp only [List.mem_cons] at h
        rcases h with (rfl | h) | h
        · exact absurd rfl hc
        · left; exact h
        · right; simp [hc, h]

theorem lookup_initSocialColumns {col : String} (h : col ∈ socialColumns) (result : Props) :
    Props.lookup col (initSocialColumns result) = some .null :=
  lookup_foldl_assign_null socialColumns (by decide) col result (Or.inl h)

theorem socialPlatformTable_platform_unique {p p' col : String}
    (h : (p, col) ∈ socialPlatformTable) (h' : (p', col) ∈ socialPlatformTable) : p = p' := by
  have e := (socialPlatformTable_facts _ h).2.2
  have e' := (socialPlatformTable_facts _ h').2.2
  simp only at e e'
  exact append_url_cancel (by rw [← e, ← e'])

theorem namesPlatform_of_effect {p t : String} {network profile : JSVal}
    (ht : network.get "type" = .ok (.str t)) (hp : network.get "profile" = .ok profile)
    (htr : profile.truthy = true) (hl : toLowerCase t = p) : namesPlatform p network = true := by
  simp [namesPlatform, ht, hp, htr, hl]

theorem forEachNetwork_has (networks : List JSVal) (result : Props) (col : String)
    (h : (Props.lookup col result).isSome = true) :
    (Props.lookup col (forEach processNetwork networks result).result).isSome = true := by
  induction networks generalizing result with
  | nil => simpa [forEach] using h
  | cons n rest ih =>
      simp only [forEach]
      cases hn : processNetwork n result with
      | error e => simpa using h
      | ok result' =>
        simp only
        apply ih
        rcases processNetwork_effect hn with rfl | ⟨key, v, rfl, _⟩
        · exact h
        · rw [Props.lookup_assign]
          split
          · exact h
          · split
            · rfl
            · exact h

theorem forEachNetwork_null (networks : List JSVal) (result : Props) {p col : String}
    (hm : (p, col) ∈ socialPlatformTable) (h : Props.lookup col result = some .null)
    (hno : ∀ n ∈ networks, namesPlatform p n = false) :
    Props.lookup col (forEach processNetwork networks result).result = some .null := by
  induction networks generalizing result with
  | nil => simpa [forEach] using h
  | cons n rest ih =>
      simp only [forEach]
      cases hn : processNetwork n result with
      | error e => simpa using h
      | ok result' =>
        simp only
        apply ih _ _ (fun m hmem => hno m (List.mem_cons_of_mem _ hmem))
        rcases processNetwork_effect hn with rfl | ⟨key, v, rfl, hkey⟩
        · exact h
        · rw [Props.lookup_assign]
          split
          · exact h
          · split
            · rename_i hk
              subst hk
              have hcol : key ∈ socialColumns := List.mem_map.mpr ⟨(p, key), hm, rfl⟩
              obtain ⟨t, profile, ht, hp, htr, hmem, _⟩ := hkey hcol
              have hpe := socialPlatformTable_platform_unique hmem hm
              have := namesPlatform_of_effect ht hp htr hpe
              rw [hno n (List.mem_cons_self _ _)] at this
              exact Bool.noConfusion this
            · exact h

/-- C2: whatever `processSocialNetworks` is given - a list of entries, the empty list, or a
missing or non-array value - the record it leaves holds each of the 18 known platform columns,
and the column of a platform is `null` when no entry of the list carries both a `profile` and a
`type` that names that platform. -/
theorem processSocialNetworks_known_columns (socialNetworks : JSVal) (result : Props) :
    socialColumns =
      ["linkedinUrl", "facebookUrl", "instagramUrl", "twitterUrl", "skypeUrl", "telegramUrl",
       "youtubeUrl", "tiktokUrl", "githubUrl", "discordUrl", "whatsappUrl", "snapchatUrl",
       "pinterestUrl", "redditUrl", "tumblrUrl", "mediumUrl", "behanceUrl", "dribbbleUrl"] ∧
    ∀ p col, (p, col) ∈ socialPlatformTable →
      (∃ v, Props.lookup col (processSocialNetworks socialNetworks result).result = some v) ∧
      ((∀ networks, socialNetworks = .arr networks →
          ∀ n ∈ networks, namesPlatform p n = false) →
        Props.lookup col (processSocialNetworks socialNetworks result).result = some .null) := by
  refine ⟨rfl, fun p col hm => ?_⟩
  have hcol : col ∈ socialColumns := List.mem_map.mpr ⟨(p, col), hm, rfl⟩
  have hinit := lookup_initSocialColumns hcol result
  cases socialNetworks with
  | arr networks =>
      have hrun : (processSocialNetworks (.arr networks) result).result =
          (forEach processNetwork networks (initSocialColumns result)).result := by
        simp [processSocialNetworks, JSVal.truthy, JSVal.isArray]
      rw [hrun]
      constructor
      · exact Option.isSome_iff_exists.mp
          (forEachNetwork_has networks _ col (by simp [hinit]))
      · intro hno
        exact forEachNetwork_null networks _ hm hinit (hno networks rfl)
  | _ =>
      simp only [processSocialNetworks, JSVal.truthy, JSVal.isArray]
      exact ⟨⟨_, by simpa using hinit⟩, fun _ => by simpa using hinit⟩

/-- C2, at a list that has an entry for `linkedin` only: the `githubUrl` column is there and
is `null`. -/
theorem processSocialNetworks_known_columns_witness :
    (∃ v, Props.lookup "githubUrl" (processSocialNetworks
        (.arr [.obj [("type", .str "LinkedIn"), ("profile", .str "bob")], .null]) []).result
        = some v) ∧
    Props.lookup "githubUrl" (processSocialNetworks
        (.arr [.obj [("type", .str "LinkedIn"), ("profile", .str "bob")], .null]) []).result
        = some .null := by
  have h := (processSocialNetworks_known_columns
    (.arr [.obj [("type", .str "LinkedIn"), ("profile", .str "bob")], .null]) []).2
    "github" "githubUrl" (by decide)
  refine ⟨h.1, h.2 ?_⟩
  intro networks hn n hmem
  cases hn
  simp only [List.mem_cons, List.mem_singleton, List.not_mem_nil, or_false] at hmem
  rcases hmem with rfl | rfl <;> rfl

/-! ## C3: an unknown platform whose name is a property of `Object.prototype` -/

/-- C3 (the code at the failing input): the entry `{type: 'constructor', profile: 'alice'}`
adds no column `constructorUrl`; the lookup in `socialPlatforms` finds the inherited function
`Object`, so the entry is handled as a known platform and the function is stored under the
text of the function.  The entry `{type: 'mastodon', profile: 'alice'}` gets its column. -/
theorem processSocialNetworks_constructor_entry :
    (processSocialNetworks
        (.arr [.obj [("type", .str "constructor"), ("profile", .str "alice")]]) []).thrown
      = none ∧
    Props.lookup "constructorUrl" (processSocialNetworks
        (.arr [.obj [("type", .str "constructor"), ("profile", .str "alice")]]) []).result
      = none ∧
    Props.lookup "function Object() \x7b [native code] \x7d" (processSocialNetworks
        (.arr [.obj [("type", .str "constructor"), ("profile", .str "alice")]]) []).result
      = some (.native "Object") ∧
    Props.lookup "mastodonUrl" (processSocialNetworks
        (.arr [.obj [("type", .str "mastodon"), ("profile", .str "alice")]]) []).result
      = some (.str "alice") ∧
    Props.lookup "linkedinUrl" (processSocialNetworks
        (.arr [.obj [("type", .str "mastodon"), ("profile", .str "alice")]]) []).result
      = some .null := by
  refine ⟨rfl, rfl, rfl, rfl, rfl⟩

/-! ## C4: the URL of a known platform -/

theorem urlTemplateTable_platforms :
    urlTemplateTable.map Prod.fst = socialPlatformTable.map Prod.fst := by decide

theorem getOpt_urlMappings {p pre suf : String} (h : (p, pre, suf) ∈ urlTemplateTable)
    (profile : String) :
    (JSVal.obj (urlMappings profile)).getOpt p = .str (pre ++ profile ++ suf) ∧ pre ≠ "" ∧
      (p, p ++ "Url") ∈ socialPlatformTable := by
  simp only [urlTemplateTable, List.mem_cons, Prod.mk.injEq, List.mem_singleton,
    List.not_mem_nil, or_false] at h
  rcases h with h | h | h | h | h | h | h | h | h | h | h | h | h | h | h | h | h | h <;>
    (obtain ⟨rfl, rfl, rfl⟩ := h
     refine ⟨?_, by decide, by decide⟩
     simp [urlMappings, JSVal.getOpt, JSVal.get, Props.lookup])

theorem truthy_str_append {pre : String} (h : pre ≠ "") (rest : String) :
    (JSVal.str (pre ++ rest)).truthy = true := by
  simp only [JSVal.truthy, bne_iff_ne, ne_eq]
  intro he
  apply h
  have := congrArg String.data he
  simp only [String.data_append, List.append_eq_nil] at this
  exact String.ext this.1

theorem generateSocialUrl_known {p pre suf : String} (h : (p, pre, suf) ∈ urlTemplateTable)
    (profile : String) :
    generateSocialUrl p (.str profile) = .ok (.str (pre ++ profile ++ suf)) := by
  obtain ⟨hg, hpre, _⟩ := getOpt_urlMappings h profile
  have ht : (JSVal.str (pre ++ profile ++ suf)).truthy = true := by
    rw [String.append_assoc]; exact truthy_str_append hpre _
  simp only [generateSocialUrl, toStr, JSVal.get_obj, hg, bind, Except.bind, pure, Except.pure,
    JSVal.or, ht, if_true]

/-- An entry that `entryProfileFor` accepts for a known platform writes the URL. -/
theorem processNetwork_known {p pre suf profile : String} (h : (p, pre, suf) ∈ urlTemplateTable)
    {network : JSVal} (he : entryProfileFor p network = some profile) (result : Props) :
    processNetwork network result =
      .ok (Props.assign (p ++ "Url") (.str (pre ++ profile ++ suf)) result) := by
  unfold entryProfileFor at he
  split at he
  · rename_i t pr ht hp
    split at he
    · rename_i hc
      obtain ⟨hl, hne⟩ := hc
      simp only [Option.some.injEq] at he
      subst he
      subst hl
      have hmem := (getOpt_urlMappings h pr).2.2
      have htt : (JSVal.str t).truthy = true := by
        simp only [JSVal.truthy, bne_iff_ne, ne_eq]
        rintro rfl
        revert hmem
        decide
      have hpt : (JSVal.str pr).truthy = true := by simpa [JSVal.truthy] using hne
      have hcol : (JSVal.str (toLowerCase t ++ "Url")).truthy = true := by
        simp only [JSVal.truthy, bne_iff_ne, ne_eq]
        intro he
        have := congrArg String.data he
        simp at this
      simp only [processNetwork, ht, hp, htt, hpt, callToLowerCase, JSVal.get_obj,
        getOpt_socialPlatforms_of_mem hmem, hcol, generateSocialUrl_known h, toStr, bind,
        Except.bind, pure, Except.pure, Bool.not_true, Bool.false_eq_true, if_false, if_true]
    · simp at he
  · simp at he

/-- What a typed entry reads as `type` and `profile`. -/
theorem isNetworkEntry_reads {network : JSVal} (h : isNetworkEntry network = true) :
    (∃ t, network.get "type" = .ok (.str t)) ∨
      (∃ v, network.get "type" = .ok v ∧ v.truthy = false) := by
  cases network with
  | obj ps =>
    simp only [isNetworkEntry, Bool.and_eq_true] at h
    cases hl : Props.lookup "type" ps with
    | none => exact Or.inr ⟨.undefined, by simp only [JSVal.get, hl]; rfl, rfl⟩
    | some v =>
      cases v with
      | str t => exact Or.inl ⟨t, by simp [JSVal.get, hl]⟩
      | null => exact Or.inr ⟨.null, by simp only [JSVal.get, hl], rfl⟩
      | _ => simp [hl] at h
  | _ => simp [isNetworkEntry] at h

theorem isNetworkEntry_profile {network : JSVal} (h : isNetworkEntry network = true) :
    (∃ pr, network.get "profile" = .ok (.str pr)) ∨
      (∃ v, network.get "profile" = .ok v ∧ v.truthy = false) := by
  cases network with
  | obj ps =>
    simp only [isNetworkEntry, Bool.and_eq_true] at h
    cases hl : Props.lookup "profile" ps with
    | none => exact Or.inr ⟨.undefined, by simp only [JSVal.get, hl]; rfl, rfl⟩
    | some v =>
      cases v with
      | str t => exact Or.inl ⟨t, by simp [JSVal.get, hl]⟩
      | null => exact Or.inr ⟨.null, by simp only [JSVal.get, hl], rfl⟩
      | _ => simp [hl] at h
  | _ => simp [isNetworkEntry] at h

theorem toStr_getOpt_socialPlatforms (k : String) :
    ∃ key, toStr ((JSVal.obj socialPlatforms).getOpt k) = .ok key := by
  rcases getOpt_socialPlatforms_cases k with ⟨col, _, hg⟩ | ⟨_, hg⟩
  · exact ⟨col, by rw [hg]; rfl⟩
  · rw [hg]
    unfold objectPrototypeGet
    split
    · exact ⟨_, rfl⟩
    · split
      · exact ⟨_, rfl⟩
      · split
        · simp only [toStr]
          split <;> exact ⟨_, rfl⟩
        · exact ⟨_, rfl⟩

/-- A typed entry is processed without an exception. -/
theorem processNetwork_typed_ok {network : JSVal} (h : isNetworkEntry network = true)
    (result : Props) : ∃ result', processNetwork network result = .ok result' := by
  rcases isNetworkEntry_reads h with ⟨t, ht⟩ | ⟨v, hv, hf⟩
  · by_cases htt : (JSVal.str t).truthy = true
    · rcases isNetworkEntry_profile h with ⟨pr, hp⟩ | ⟨v, hv, hf⟩
      · by_cases hpt : (JSVal.str pr).truthy = true
        · obtain ⟨key, hkey⟩ := toStr_getOpt_socialPlatforms (toLowerCase t)
          simp only [processNetwork, ht, hp, htt, hpt, callToLowerCase, JSVal.get_obj,
            generateSocialUrl, toStr, hkey, bind, Except.bind, pure, Except.pure, Bool.not_true,
            Bool.false_eq_true, if_false]
          split <;> exact ⟨_, rfl⟩
        · exact ⟨result, by simp [processNetwork, ht, hp, htt, hpt, bind, Except.bind, pure,
            Except.pure]⟩
      · exact ⟨result, by simp [processNetwork, ht, hv, htt, hf, bind, Except.bind, pure,
          Except.pure]⟩
    · exact ⟨result, by simp [processNetwork, ht, htt, bind, Except.bind, pure, Except.pure]⟩
  · exact ⟨result, by simp [processNetwork, hv, hf, bind, Except.bind, pure, Except.pure]⟩

/-- A typed entry that `entryProfileFor` does not accept for `p` leaves the column of `p`. -/
theorem processNetwork_other {p col : String} (hm : (p, col) ∈ socialPlatformTable)
    {network : JSVal} (hw : isNetworkEntry network = true)
    (he : entryProfileFor p network = none) {result result' : Props}
    (h : processNetwork network result = .ok result') :
    Props.lookup col result' = Props.lookup col result := by
  rcases processNetwork_effect h with rfl | ⟨key, v, rfl, hkey⟩
  · rfl
  · rw [Props.lookup_assign]
    split
    · rfl
    · split
      · rename_i hk
        subst hk
        exfalso
        obtain ⟨t, profile, ht, hp, htr, hmem, _⟩ :=
          hkey (List.mem_map.mpr ⟨(p, key), hm, rfl⟩)
        have hpe := socialPlatformTable_platform_unique hmem hm
        rcases isNetworkEntry_profile hw with ⟨pr, hpr⟩ | ⟨v, hv, hf⟩
        · rw [hp] at hpr
          cases hpr
          have hne : pr ≠ "" := by simpa [JSVal.truthy] using htr
          simp [entryProfileFor, ht, hp, hpe, hne] at he
        · rw [hp] at hv
          cases hv
          rw [hf] at htr
          exact Bool.noConfusion htr
      · rfl

theorem forEachNetwork_typed (networks : List JSVal)
    (hw : ∀ n ∈ networks, isNetworkEntry n = true) {p pre suf : String}
    (hp : (p, pre, suf) ∈ urlTemplateTable) (result : Props) :
    (forEach processNetwork networks result).thrown = none ∧
    Props.lookup (p ++ "Url") (forEach processNetwork networks result).result =
      match lastProfileFor p networks with
      | some profile => some (.str (pre ++ profile ++ suf))
      | none => Props.lookup (p ++ "Url") result := by
  induction networks generalizing result with
  | nil => exact ⟨rfl, rfl⟩
  | cons n rest ih =>
    have hn := hw n (List.mem_cons_self _ _)
    have hrest : ∀ m ∈ rest, isNetworkEntry m = true :=
      fun m hm => hw m (List.mem_cons_of_mem _ hm)
    obtain ⟨result', hrun⟩ := processNetwork_typed_ok hn result
    have hmem := (getOpt_urlMappings hp "").2.2
    simp only [forEach, hrun, lastProfileFor]
    refine ⟨(ih hrest result').1, ?_⟩
    rw [(ih hrest result').2]
    cases hl : lastProfileFor p rest with
    | some profile => rfl
    | none =>
      simp only
      cases he : entryProfileFor p n with
      | some profile =>
        rw [processNetwork_known hp he result] at hrun
        cases hrun
        have hne : p ++ "Url" ≠ "__proto__" := (socialPlatformTable_facts _ hmem).2.1
        simp [Props.lookup_assign, hne]
      | none => exact processNetwork_other hmem hn he hrun

/-- C4 (counterexample): in the list `[{type: 'skype', profile: 'a'}, {type: 'S\u212aYPE',
profile: 'b'}]` the second type is written with the Kelvin sign, so the last entry whose type
equals `skype` when ASCII letter case is ignored is the first, with profile `a`; `toLowerCase`
turns the Kelvin sign into `k`, and the column `skypeUrl` holds `skype:b?chat`. -/
theorem processSocialNetworks_kelvin_sign :
    lastProfileIgnoringAsciiCase "skype"
        [.obj [("type", .str "skype"), ("profile", .str "a")],
         .obj [("type", .str "S\u212aYPE"), ("profile", .str "b")]] = some "a" ∧
    (processSocialNetworks (.arr
        [.obj [("type", .str "skype"), ("profile", .str "a")],
         .obj [("type", .str "S\u212aYPE"), ("profile", .str "b")]]) []).thrown = none ∧
    Props.lookup "skypeUrl" (processSocialNetworks (.arr
        [.obj [("type", .str "skype"), ("profile", .str "a")],
         .obj [("type", .str "S\u212aYPE"), ("profile", .str "b")]]) []).result =
      some (.str "skype:b?chat") := by
  exact ⟨by decide, rfl, rfl⟩

/-- C4 (amended): for every list of network entries and every known platform that has an entry
whose `type` has the platform as its lower case (`type.toLowerCase()`: ASCII letter case is
ignored and the Kelvin sign counts as `k`) and whose `profile` is non-empty, the resolver
completes and the column of the platform holds the platform's one URL template instantiated
with the profile of the last such entry. -/
theorem processSocialNetworks_known_url (networks : List JSVal) (result : Props)
    (hw : ∀ n ∈ networks, isNetworkEntry n = true) (p pre suf profile : String)
    (hp : (p, pre, suf) ∈ urlTemplateTable) (hlast : lastProfileFor p networks = some profile) :
    (processSocialNetworks (.arr networks) result).thrown = none ∧
    Props.lookup (p ++ "Url") (processSocialNetworks (.arr networks) result).result =
      some (.str (pre ++ profile ++ suf)) := by
  have h := forEachNetwork_typed networks hw hp (initSocialColumns result)
  rw [hlast] at h
  simpa [processSocialNetworks, JSVal.truthy, JSVal.isArray] using h

/-- C4 (amended), at a list with two `LinkedIn` entries: the column takes the later
profile. -/
theorem processSocialNetworks_known_url_witness :
    (processSocialNetworks (.arr
        [.obj [("type", .str "LinkedIn"), ("profile", .str "bob")],
         .obj [("type", .str "skype"), ("profile", .str "bob.s")],
         .obj [("type", .str "LINKEDIN"), ("profile", .str "rob")],
         .obj [("type", .str "linkedin"), ("profile", .str "")]]) []).thrown = none ∧
    Props.lookup ("linkedin" ++ "Url") (processSocialNetworks (.arr
        [.obj [("type", .str "LinkedIn"), ("profile", .str "bob")],
         .obj [("type", .str "skype"), ("profile", .str "bob.s")],
         .obj [("type", .str "LINKEDIN"), ("profile", .str "rob")],
         .obj [("type", .str "linkedin"), ("profile", .str "")]]) []).result =
      some (.str ("https://linkedin.com/in/" ++ "rob" ++ "")) :=
  processSocialNetworks_known_url _ [] (by decide) "linkedin" "https://linkedin.com/in/" ""
    "rob" (by decide) (by decide)

/-! ## C5: the query parameters of the REST URL -/

/-- C5 (counterexample): for the person `{UserId: '7&userId=8'}` the id resolves and the REST
URL holds `userId=` twice. -/
theorem restUrl_two_userId_parameters :
    restUrl (.obj [("endpoint", .str "https://sbcconnect.com/api/user/getById"),
                   ("eventPath", .str "summit")])
        (.obj [("UserId", .str "7&userId=8")]) =
      .ok "https://sbcconnect.com/api/user/getById?userId=7&userId=8&eventPath=summit" ∧
    countOccurrences "userId=".data
      "https://sbcconnect.com/api/user/getById?userId=7&userId=8&eventPath=summit".data = 2 := by
  constructor
  · rfl
  · decide

theorem isPrefixOf_append_sep {c : Char} (pat : List Char) (hc : c ∉ pat) (x y : List Char) :
    pat.isPrefixOf (x ++ c :: y) = pat.isPrefixOf x := by
  induction pat generalizing x with
  | nil => simp [List.isPrefixOf]
  | cons p ps ih =>
    simp only [List.mem_cons, not_or] at hc
    cases x with
    | nil => simp [List.isPrefixOf, Ne.symm hc.1]
    | cons a x' => simp [List.isPrefixOf, ih hc.2]

theorem countOccurrences_append_sep {c : Char} (pat : List Char) (hne : pat ≠ [])
    (hc : c ∉ pat) (x y : List Char) :
    countOccurrences pat (x ++ c :: y) = countOccurrences pat x + countOccurrences pat y := by
  induction x with
  | nil =>
    cases pat with
    | nil => exact absurd rfl hne
    | cons p ps =>
      simp only [List.mem_cons, not_or] at hc
      simp [countOccurrences, List.isPrefixOf, Ne.symm hc.1]
  | cons a x' ih =>
    have hp := isPrefixOf_append_sep pat hc (a :: x') y
    rw [List.cons_append] at hp ⊢
    rw [countOccurrences, hp, ih, countOccurrences]
    omega

theorem count_userId_in_userId (u : List Char) :
    countOccurrences "userId=".data ("userId=".data ++ u) =
      1 + countOccurrences "userId=".data u := by
  simp [countOccurrences, List.isPrefixOf]

theorem count_userId_in_eventPath (u : List Char) :
    countOccurrences "userId=".data ("eventPath=".data ++ u) =
      countOccurrences "userId=".data u := by
  simp [countOccurrences, List.isPrefixOf]

theorem count_eventPath_in_userId (u : List Char) :
    countOccurrences "eventPath=".data ("userId=".data ++ u) =
      countOccurrences "eventPath=".data u := by
  simp [countOccurrences, List.isPrefixOf]

theorem count_eventPath_in_eventPath (u : List Char) :
    countOccurrences "eventPath=".data ("eventPath=".data ++ u) =
      1 + countOccurrences "eventPath=".data u := by
  simp [countOccurrences, List.isPrefixOf]

theorem countOccurrences_append_nil_sep {c : Char} (pat : List Char) (hne : pat ≠ [])
    (hc : c ∉ pat) (x y z : List Char) :
    countOccurrences pat (x ++ y ++ c :: z) =
      countOccurrences pat (x ++ y) + countOccurrences pat z :=
  countOccurrences_append_sep pat hne hc (x ++ y) z

/-- The text of the REST URL, and its occurrences of the two parameter names. -/
theorem restUrl_data_counts (e i ev : List Char)
    (hu : ∀ part ∈ [e, i, ev], countOccurrences "userId=".data part = 0)
    (hp : ∀ part ∈ [e, i, ev], countOccurrences "eventPath=".data part = 0) :
    countOccurrences "userId=".data
        (e ++ "?userId=".data ++ i ++ "&eventPath=".data ++ ev) = 1 ∧
    countOccurrences "eventPath=".data
        (e ++ "?userId=".data ++ i ++ "&eventPath=".data ++ ev) = 1 := by
  have h1 : e ++ "?userId=".data ++ i ++ "&eventPath=".data ++ ev =
      e ++ '?' :: ("userId=".data ++ i ++ '&' :: ("eventPath=".data ++ ev)) := by
    simp
  simp only [List.mem_cons, List.mem_singleton, List.not_mem_nil, or_false, forall_eq_or_imp,
    forall_eq] at hu hp
  rw [h1]
  constructor
  · rw [countOccurrences_append_sep _ (by decide) (by decide),
      countOccurrences_append_nil_sep _ (by decide) (by decide), count_userId_in_userId,
      count_userId_in_eventPath, hu.1, hu.2.1, hu.2.2]
  · rw [countOccurrences_append_sep _ (by decide) (by decide),
      countOccurrences_append_nil_sep _ (by decide) (by decide), count_eventPath_in_userId,
      count_eventPath_in_eventPath, hp.1, hp.2.1, hp.2.2]

/-- C5 (amended): for every REST config and every person record from which a user id
resolves, the URL is the text of `endpoint`, then `?userId=`, the text of the id, `&eventPath=`
and the text of `config.eventPath || ''`; it holds `userId=` exactly once and `eventPath=`
exactly once whenever none of the three texts holds either of them. -/
theorem restUrl_parameters (config : Props) (personData id : JSVal) (e i ev : String)
    (hid : restUserId personData = .ok id)
    (he : toStr ((JSVal.obj config).getOpt "endpoint") = .ok e)
    (hi : toStr id = .ok i)
    (hev : toStr (((JSVal.obj config).getOpt "eventPath").or (.str "")) = .ok ev)
    (hu : ∀ part ∈ [e, i, ev], countOccurrences "userId=".data part.data = 0)
    (hp : ∀ part ∈ [e, i, ev], countOccurrences "eventPath=".data part.data = 0) :
    restUrl (.obj config) personData = .ok (e ++ "?userId=" ++ i ++ "&eventPath=" ++ ev) ∧
    countOccurrences "userId=".data (e ++ "?userId=" ++ i ++ "&eventPath=" ++ ev).data = 1 ∧
    countOccurrences "eventPath=".data (e ++ "?userId=" ++ i ++ "&eventPath=" ++ ev).data = 1 := by
  refine ⟨?_, ?_⟩
  · simp only [restUrl, JSVal.get_obj, hid, he, hi, hev, bind, Except.bind, pure, Except.pure]
  · simp only [String.data_append]
    apply restUrl_data_counts
    · simpa using hu
    · simpa using hp

/-- C5 (amended), at the person `{User_url: 'https://sbcconnect.com/attendees/u42?tab=1'}`. -/
theorem restUrl_parameters_witness :
    restUrl (.obj [("endpoint", .str "https://sbcconnect.com/api/user/getById"),
                   ("eventPath", .str "summit")])
        (.obj [("User_url", .str "https://sbcconnect.com/attendees/u42?tab=1")]) =
      .ok ("https://sbcconnect.com/api/user/getById" ++ "?userId=" ++ "u42" ++ "&eventPath=" ++
        "summit") ∧
    countOccurrences "userId=".data ("https://sbcconnect.com/api/user/getById" ++ "?userId=" ++
      "u42" ++ "&eventPath=" ++ "summit").data = 1 ∧
    countOccurrences "eventPath=".data ("https://sbcconnect.com/api/user/getById" ++
      "?userId=" ++ "u42" ++ "&eventPath=" ++ "summit").data = 1 :=
  restUrl_parameters
    [("endpoint", .str "https://sbcconnect.com/api/user/getById"), ("eventPath", .str "summit")]
    (.obj [("User_url", .str "https://sbcconnect.com/attendees/u42?tab=1")]) (.str "u42")
    "https://sbcconnect.com/api/user/getById" "u42" "summit" rfl rfl rfl rfl
    (by decide) (by decide)

/-! ## C6: the user id of the REST URL -/

/-- C6 (counterexample): in `/attendees/?/attendees/abc` the first `/attendees/` is followed by
`?`, so the text after it up to the next `?` is empty; the URL does hold an `/attendees/` that
is followed by another character, and the code takes the id `abc` from that later one. -/
theorem restUserId_later_attendees :
    restUserId (.obj [("User_url", .str "/attendees/?/attendees/abc")]) = .ok (.str "abc") ∧
    afterFirstAttendees "/attendees/?/attendees/abc".data = some [] := by
  constructor
  · rfl
  · decide

theorem takeWhile_id (id rest : List Char) (hq : '?' ∉ id)
    (hrest : rest = [] ∨ rest.head? = some '?') :
    (id ++ rest).takeWhile (fun x => x != '?') = id := by
  induction id with
  | nil =>
    rcases hrest with rfl | h
    · rfl
    · cases rest with
      | nil => rfl
      | cons r rs =>
        simp only [List.head?_cons, Option.some.injEq] at h
        subst h
        simp [List.takeWhile]
  | cons a id' ih =>
    simp only [List.mem_cons, not_or] at hq
    have ha : (a != '?') = true := by simpa using Ne.symm hq.1
    simp [List.takeWhile, ha, ih hq.2]

theorem matchAttendeesHere_of_decomp (id rest : List Char) (hne : id ≠ []) (hq : '?' ∉ id)
    (hrest : rest = [] ∨ rest.head? = some '?') :
    matchAttendeesHere (attendeesMarker ++ id ++ rest) = some id := by
  have hpre : attendeesMarker.isPrefixOf (attendeesMarker ++ id ++ rest) = true := by
    rw [List.isPrefixOf_iff_prefix, List.append_assoc]
    exact List.prefix_append _ _
  have hdrop : (attendeesMarker ++ id ++ rest).drop attendeesMarker.length = id ++ rest := by
    rw [List.append_assoc, List.drop_left]
  simp only [matchAttendeesHere, hpre, if_true, hdrop, takeWhile_id id rest hq hrest]
  cases id with
  | nil => exact absurd rfl hne
  | cons a t => rfl

theorem matchAttendeesHere_none (cs : List Char)
    (h : ∀ c tail, cs = attendeesMarker ++ c :: tail → c = '?') :
    matchAttendeesHere cs = none := by
  unfold matchAttendeesHere
  split
  · rename_i hp
    rw [List.isPrefixOf_iff_prefix] at hp
    obtain ⟨t, rfl⟩ := hp
    rw [List.drop_left]
    cases t with
    | nil => rfl
    | cons c tail =>
      have := h c tail rfl
      subst this
      rfl
  · rfl

theorem searchAttendees_none (cs : List Char)
    (h : ∀ pre c tail, cs = pre ++ attendeesMarker ++ c :: tail → c = '?') :
    searchAttendees cs = none := by
  induction cs with
  | nil => rfl
  | cons a rest ih =>
    have h0 : matchAttendeesHere (a :: rest) = none :=
      matchAttendeesHere_none _ (fun c tail he => h [] c tail (by simpa using he))
    simp only [searchAttendees, h0]
    exact ih (fun pre c tail he => h (a :: pre) c tail (by simp [he]))

theorem searchAttendees_of_decomp (pre id rest : List Char) (hne : id ≠ []) (hq : '?' ∉ id)
    (hrest : rest = [] ∨ rest.head? = some '?')
    (hfirst : ∀ pre' c tail, pre ++ attendeesMarker ++ id ++ rest = pre' ++ attendeesMarker ++ c :: tail →
      pre'.length < pre.length → c = '?') :
    searchAttendees (pre ++ attendeesMarker ++ id ++ rest) = some id := by
  induction pre with
  | nil =>
    have hm := matchAttendeesHere_of_decomp id rest hne hq hrest
    have hs : [] ++ attendeesMarker ++ id ++ rest = '/' :: ("attendees/".data ++ id ++ rest) := by
      simp [attendeesMarker]
    have hs' : attendeesMarker ++ id ++ rest = '/' :: ("attendees/".data ++ id ++ rest) := by
      simp [attendeesMarker]
    rw [hs, searchAttendees, ← hs', hm]
  | cons a pre' ih =>
    have h0 : matchAttendeesHere (a :: (pre' ++ attendeesMarker ++ id ++ rest)) = none :=
      matchAttendeesHere_none _ (fun c tail he =>
        hfirst [] c tail (by simpa using he) (by simp))
    have hs : a :: pre' ++ attendeesMarker ++ id ++ rest =
        a :: (pre' ++ attendeesMarker ++ id ++ rest) := by simp
    rw [hs, searchAttendees, h0]
    exact ih (fun pre'' c tail he hl =>
      hfirst (a :: pre'') c tail (by rw [hs, he]; simp) (by simpa using hl))

/-- C6 (amended): for every person record, the user id of the REST URL is `person.UserId` when
that is truthy, otherwise `person.userId` when that is truthy, otherwise - the URL field
`User_url` being a string - the characters that follow the first `/attendees/` that is
directly followed by a character other than `?`, up to the next `?` or the end of the string;
it is `null` when the URL field is absent or empty, or holds no `/attendees/` that is followed
by a character other than `?`. -/
theorem restUserId_spec (person : Props) :
    let upper := (JSVal.obj person).getOpt "UserId"
    let lower := (JSVal.obj person).getOpt "userId"
    let url := (JSVal.obj person).getOpt "User_url"
    (upper.truthy = true → restUserId (.obj person) = .ok upper) ∧
    (upper.truthy = false → lower.truthy = true → restUserId (.obj person) = .ok lower) ∧
    (upper.truthy = false → lower.truthy = false →
      (url.truthy = false → restUserId (.obj person) = .ok .null) ∧
      (∀ s, url = .str s →
        (∀ pre id rest, s.data = pre ++ attendeesMarker ++ id ++ rest →
          id ≠ [] → '?' ∉ id → (rest = [] ∨ rest.head? = some '?') →
          (∀ pre' c tail, s.data = pre' ++ attendeesMarker ++ c :: tail →
            pre'.length < pre.length → c = '?') →
          restUserId (.obj person) = .ok (.str ⟨id⟩)) ∧
        ((∀ pre c tail, s.data = pre ++ attendeesMarker ++ c :: tail → c = '?') →
          restUserId (.obj person) = .ok .null))) := by
  intro upper lower url
  refine ⟨fun hu => ?_, fun hu hl => ?_, fun hu hl => ⟨fun hurl => ?_, fun s hs => ⟨?_, ?_⟩⟩⟩
  · simp only [restUserId, JSVal.get_obj, bind, Except.bind, pure, Except.pure]
    rw [if_pos hu]
  · simp only [restUserId, JSVal.get_obj, bind, Except.bind, pure, Except.pure]
    rw [if_neg (by simpa using hu), if_pos hl]
  · simp only [restUserId, JSVal.get_obj, bind, Except.bind, pure, Except.pure]
    rw [if_neg (by simpa using hu), if_neg (by simpa using hl)]
    simp only [extractUserIdFromUrl]
    rw [if_pos (by simpa using hurl)]
  · intro pre id rest hd hne hq hrest hfirst
    simp only [restUserId, JSVal.get_obj, bind, Except.bind, pure, Except.pure]
    rw [if_neg (by simpa using hu), if_neg (by simpa using hl)]
    have hsearch : searchAttendees s.data = some id := by
      rw [hd]
      exact searchAttendees_of_decomp pre id rest hne hq hrest (by rw [← hd]; exact hfirst)
    show extractUserIdFromUrl url = _
    rw [hs]
    simp only [extractUserIdFromUrl, hsearch]
    split
    · rename_i hf
      exfalso
      have hse : s = "" := by simpa [JSVal.truthy] using hf
      subst hse
      simp [searchAttendees] at hsearch
    · rfl
  · intro hnone
    simp only [restUserId, JSVal.get_obj, bind, Except.bind, pure, Except.pure]
    rw [if_neg (by simpa using hu), if_neg (by simpa using hl)]
    show extractUserIdFromUrl url = _
    rw [hs]
    simp only [extractUserIdFromUrl, searchAttendees_none s.data hnone]
    split <;> rfl

/-- C6 (amended), at the person `{UserId: '', User_url: '/attendees/u42?tab=1'}`: the empty
`UserId` is passed over and the id comes from the URL field. -/
theorem restUserId_spec_witness :
    restUserId (.obj [("UserId", .str ""), ("User_url", .str "/attendees/u42?tab=1")]) =
      .ok (.str ⟨"u42".data⟩) :=
  ((((restUserId_spec [("UserId", .str ""), ("User_url", .str "/attendees/u42?tab=1")]).2.2
    rfl rfl).2 "/attendees/u42?tab=1" rfl).1 [] "u42".data "?tab=1".data rfl (by decide)
    (by decide) (Or.inr rfl) (fun pre' _ _ _ hl => absurd hl (Nat.not_lt_zero _)))

/-! ## The callbacks of the two loops -/

theorem JSVal.get_of_not_nullish {v : JSVal} (h : v.isNullish = false) (k : String) :
    v.get k = .ok (v.getOpt k) := by
  cases hg : v.get k with
  | ok x => simp [JSVal.getOpt, hg]
  | error e =>
    exfalso
    cases v <;> simp only [JSVal.isNullish, JSVal.get] at h hg <;>
      first
        | exact Bool.noConfusion h
        | (repeat' split at hg) <;> exact Except.noConfusion hg

theorem JSVal.not_nullish_of_truthy {v : JSVal} (h : v.truthy = true) : v.isNullish = false := by
  cases v <;> first | rfl | exact absurd h (by simp [JSVal.truthy])

theorem JSVal.get_of_truthy {v : JSVal} (h : v.truthy = true) (k : String) :
    v.get k = .ok (v.getOpt k) :=
  JSVal.get_of_not_nullish (JSVal.not_nullish_of_truthy h) k

theorem filterByText_ok (vs : List JSVal) (h : ∀ v ∈ vs, v.isNullish = false) :
    filterByText vs = .ok (vs.filter (fun v => (v.getOpt "text").truthy)) := by
  induction vs with
  | nil => rfl
  | cons v rest ih =>
    have hv := h v (List.mem_cons_self _ _)
    have hrest := ih (fun w hw => h w (List.mem_cons_of_mem _ hw))
    simp only [filterByText, JSVal.get_of_not_nullish hv, hrest, bind, Except.bind, pure,
      Except.pure, List.filter_cons]

theorem mapText_ok (vs : List JSVal) (h : ∀ v ∈ vs, v.isNullish = false) :
    mapText vs = .ok (vs.map (fun v => v.getOpt "text")) := by
  induction vs with
  | nil => rfl
  | cons v rest ih =>
    have hv := h v (List.mem_cons_self _ _)
    have hrest := ih (fun w hw => h w (List.mem_cons_of_mem _ hw))
    simp only [mapText, JSVal.get_of_not_nullish hv, hrest, bind, Except.bind, pure,
      Except.pure, List.map_cons]

theorem extractFieldValue_ok (ps : Props)
    (hvalues : ∀ vs, Props.lookup "values" ps = some (.arr vs) → ∀ v ∈ vs, v.isNullish = false) :
    ∃ v, extractFieldValue (.obj ps) = .ok v := by
  simp only [extractFieldValue, JSVal.get_obj, bind, Except.bind, pure, Except.pure]
  split
  · split
    · rename_i hv
      rw [JSVal.get_of_truthy hv]
      simp only
      split <;> exact ⟨_, rfl⟩
    · exact ⟨_, rfl⟩
  · split
    · split
      · rename_i vs hvs
        have hl : Props.lookup "values" ps = some (.arr vs) := by
          simp only [JSVal.getOpt, JSVal.get] at hvs
          cases hl : Props.lookup "values" ps with
          | none => simp [hl, objectPrototypeGet, objectPrototypeNames] at hvs
          | some x => simp [hl] at hvs; rw [hvs]
        have hnn := hvalues vs hl
        rw [filterByText_ok vs hnn]
        simp only
        rw [mapText_ok _ (fun v hv => hnn v (List.mem_of_mem_filter hv))]
        simp only
        split <;> exact ⟨_, rfl⟩
      · exact ⟨_, rfl⟩
    · split
      · split
        · rename_i hv
          rw [JSVal.get_of_truthy hv]
          simp only
          split
          · exact ⟨_, rfl⟩
          · split <;> exact ⟨_, rfl⟩
        · split <;> exact ⟨_, rfl⟩
      · split
        · split <;> exact ⟨_, rfl⟩
        · split
          · split <;> exact ⟨_, rfl⟩
          · split
            · split <;> exact ⟨_, rfl⟩
            · split
              · rename_i hv
                split
                · rw [JSVal.get_of_truthy hv]
                  simp only
                  split <;> exact ⟨_, rfl⟩
                · exact ⟨_, rfl⟩
              · exact ⟨_, rfl⟩

theorem JSVal.get_eq_ok {v x : JSVal} {k : String} (h : v.get k = .ok x) : v.getOpt k = x := by
  simp [JSVal.getOpt, h]

/-- What the callback of `fields.forEach` does to the record. -/
theorem processField_effect {field : JSVal} {result result' : Props}
    (h : processField field result = .ok result') :
    result' = result ∨ ∃ key v, result' = Props.assign key v result ∧
      cleanFieldName (field.getOpt "name") = .ok key ∧ extractFieldValue field = .ok v ∧
      (field.getOpt "name").truthy = true ∧ (field.getOpt "isVisible").truthy = true := by
  unfold processField at h
  cases hn : field.get "name" with
  | error e => simp [hn, bind, Except.bind] at h
  | ok name =>
    simp only [hn, bind, Except.bind] at h
    split at h
    · left; simpa [pure, Except.pure] using h.symm
    · rename_i hnt
      cases hvis : field.get "isVisible" with
      | error e => simp [hvis] at h
      | ok vis =>
        simp only [hvis] at h
        split at h
        · left; simpa [pure, Except.pure] using h.symm
        · rename_i hvt
          cases hv : extractFieldValue field with
          | error e => simp [hv] at h
          | ok v =>
            cases hc : cleanFieldName name with
            | error e => simp [hv, hc] at h
            | ok key =>
              simp only [hv, hc, pure, Except.pure, Except.ok.injEq] at h
              rw [JSVal.get_eq_ok hn, JSVal.get_eq_ok hvis]
              exact Or.inr ⟨key, v, h.symm, hc, rfl, by simpa using hnt, by simpa using hvt⟩

/-- A typed field is processed without an exception. -/
theorem processField_typed_ok {field : JSVal} (h : isEventField field = true) (result : Props) :
    ∃ result', processField field result = .ok result' := by
  cases field with
  | obj ps =>
    simp only [isEventField, Bool.and_eq_true] at h
    obtain ⟨hname, hvalues⟩ := h
    have hv : ∀ vs, Props.lookup "values" ps = some (.arr vs) → ∀ v ∈ vs, v.isNullish = false := by
      intro vs hl v hmem
      rw [hl] at hvalues
      simpa using (List.all_eq_true.mp hvalues) v hmem
    obtain ⟨fv, hfv⟩ := extractFieldValue_ok ps hv
    simp only [processField, JSVal.get_obj, hfv, bind, Except.bind, pure, Except.pure]
    split
    · exact ⟨_, rfl⟩
    · split
      · exact ⟨_, rfl⟩
      · rename_i hnt _
        have hstr : ∃ s, (JSVal.obj ps).getOpt "name" = .str s := by
          simp only [JSVal.getOpt, JSVal.get] at hnt ⊢
          cases hl : Props.lookup "name" ps with
          | none => simp [hl, objectPrototypeGet, objectPrototypeNames, JSVal.truthy] at hnt
          | some x =>
            rw [hl] at hname
            cases x <;> simp_all [JSVal.truthy]
        obtain ⟨s, hs⟩ := hstr
        rw [hs]
        exact ⟨_, rfl⟩
  | _ => simp [isEventField] at h

/-! ## The loop -/

theorem forEach_invariant (callback : JSVal → Props → Except JSError Props) (P : Props → Prop)
    (xs : List JSVal)
    (hstep : ∀ x ∈ xs, ∀ r r', callback x r = .ok r' → P r → P r') (result : Props)
    (h : P result) : P (forEach callback xs result).result := by
  induction xs generalizing result with
  | nil => exact h
  | cons x rest ih =>
    simp only [forEach]
    cases hc : callback x result with
    | error e => exact h
    | ok r' =>
      exact ih (fun y hy => hstep y (List.mem_cons_of_mem _ hy)) r'
        (hstep x (List.mem_cons_self _ _) result r' hc h)

theorem forEach_completes (callback : JSVal → Props → Except JSError Props) (xs : List JSVal)
    (hok : ∀ x ∈ xs, ∀ r, ∃ r', callback x r = .ok r') (result : Props) :
    (forEach callback xs result).thrown = none := by
  induction xs generalizing result with
  | nil => rfl
  | cons x rest ih =>
    obtain ⟨r', hr⟩ := hok x (List.mem_cons_self _ _) result
    simp only [forEach, hr]
    exact ih (fun y hy => hok y (List.mem_cons_of_mem _ hy)) r'

theorem Outcome.toExcept_of_completes {o : Outcome} (h : o.thrown = none) :
    o.toExcept = .ok o.result := by
  simp [Outcome.toExcept, h]

theorem toStr_objectPrototypeGet_shape (k key : String)
    (h : toStr (objectPrototypeGet k) = .ok key) (ht : (objectPrototypeGet k).truthy = true) :
    key = "[object Object]" ∨ "function ".data.isPrefixOf key.data = true := by
  unfold objectPrototypeGet at h ht
  split at h
  · simp [toStr] at h; subst h; right; decide
  · split at h
    · simp [toStr] at h; subst h; left; rfl
    · split at h
      · simp only [toStr] at h
        split at h
        · simp at h; subst h; left; rfl
        · simp at h; subst h; right
          simp [String.data_append, List.isPrefixOf]
      · rename_i h1 h2 h3
        simp [h1, h2, h3, JSVal.truthy] at ht

/-- The keys that the callback of `socialNetworks.forEach` can write. -/
theorem processNetwork_writes {network : JSVal} {result result' : Props}
    (h : processNetwork network result = .ok result') (k : String) :
    Props.lookup k result' = Props.lookup k result ∨ k ∈ socialColumns ∨
      (∃ t, network.getOpt "type" = .str t ∧ k = toLowerCase t ++ "Url") ∨
      k = "[object Object]" ∨ "function ".data.isPrefixOf k.data = true := by
  unfold processNetwork at h
  cases hty : network.get "type" with
  | error e => simp [hty, bind, Except.bind] at h
  | ok ty =>
    simp only [hty, bind, Except.bind] at h
    split at h
    · left; simp only [pure, Except.pure, Except.ok.injEq] at h; rw [h]
    · cases hpr : network.get "profile" with
      | error e => simp [hpr] at h
      | ok profile =>
        simp only [hpr] at h
        split at h
        · left; simp only [pure, Except.pure, Except.ok.injEq] at h; rw [h]
        · cases ty with
          | str t =>
            simp only [callToLowerCase, JSVal.get_obj] at h
            have hwrite : ∀ key v, result' = Props.assign key v result →
                Props.lookup k result' = Props.lookup k result ∨ k = key := by
              intro key v he
              rw [he, Props.lookup_assign]
              split
              · left; rfl
              · split
                · rename_i hk; right; exact hk.symm
                · left; rfl
            rcases getOpt_socialPlatforms_cases (toLowerCase t) with ⟨col, hm, hg⟩ | ⟨hno, hg⟩
            · have hcol := (socialPlatformTable_facts _ hm).1
              rw [hg] at h
              simp only [JSVal.truthy, bne_iff_ne, ne_eq, hcol, not_false_eq_true, if_true,
                toStr] at h
              cases hu : generateSocialUrl (toLowerCase t) profile with
              | error e => simp [hu] at h
              | ok url =>
                simp only [hu, pure, Except.pure, Except.ok.injEq] at h
                rcases hwrite col url h.symm with hl | hk
                · exact Or.inl hl
                · exact Or.inr (Or.inl (hk ▸ List.mem_map.mpr ⟨(_, col), hm, rfl⟩))
            · rw [hg] at h
              split at h
              · rename_i htr
                cases hu : generateSocialUrl (toLowerCase t) profile with
                | error e => simp [hu] at h
                | ok url =>
                  cases hk : toStr (objectPrototypeGet (toLowerCase t)) with
                  | error e => simp [hu, hk] at h
                  | ok key =>
                    simp only [hu, hk, pure, Except.pure, Except.ok.injEq] at h
                    rcases hwrite key url h.symm with hl | hkk
                    · exact Or.inl hl
                    · subst hkk
                      exact Or.inr (Or.inr (Or.inr (toStr_objectPrototypeGet_shape _ _ hk htr)))
              · simp only [pure, Except.pure, Except.ok.injEq, toLowerCase_idem] at h
                rcases hwrite _ _ h.symm with hl | hkk
                · exact Or.inl hl
                · exact Or.inr (Or.inr (Or.inl ⟨t, JSVal.get_eq_ok hty, hkk⟩))
          | _ => simp [callToLowerCase] at h

theorem lookup_foldl_assign_other (cols : List String) (c : String) (hc : c ∉ cols)
    (v : JSVal) (r : Props) :
    Props.lookup c (cols.foldl (fun r column => Props.assign column v r) r) =
      Props.lookup c r := by
  induction cols generalizing r with
  | nil => rfl
  | cons c' rest ih =>
    simp only [List.mem_cons, not_or] at hc
    simp only [List.foldl_cons]
    rw [ih hc.2, Props.lookup_assign]
    split
    · rfl
    · rw [if_neg (Ne.symm hc.1)]

theorem isSome_lookup_assign {k : String} {r : Props} (h : (Props.lookup k r).isSome = true)
    (key : String) (v : JSVal) : (Props.lookup k (Props.assign key v r)).isSome = true := by
  rw [Props.lookup_assign]
  split
  · exact h
  · split
    · rfl
    · exact h

theorem isSome_lookup_initSocialColumns {k : String} {r : Props}
    (h : (Props.lookup k r).isSome = true) :
    (Props.lookup k (initSocialColumns r)).isSome = true := by
  unfold initSocialColumns
  generalize socialColumns = cols
  induction cols generalizing r with
  | nil => exact h
  | cons c rest ih => exact ih (isSome_lookup_assign h c .null)

/-! ## The stages of the GraphQL branch -/

theorem projectGraphQL_core (apiData : JSVal) (h : apiData.isNullish = false) :
    projectGraphQL apiData graphQLCoreFields [] =
      .ok (graphQLCoreFields.map (fun k => (k, (apiData.getOpt k).or .null))) := by
  simp [projectGraphQL, graphQLCoreFields, JSVal.get_of_not_nullish h, Props.assign,
    Props.define, bind, Except.bind]

theorem lookup_map_key (f : String → JSVal) (ks : List String) {k : String} (h : k ∈ ks) :
    Props.lookup k (ks.map (fun k => (k, f k))) = some (f k) := by
  induction ks with
  | nil => simp at h
  | cons k' rest ih =>
    simp only [List.map_cons, Props.lookup]
    split
    · rename_i hk; rw [hk]
    · rename_i hk
      simp only [List.mem_cons] at h
      rcases h with rfl | h
      · exact absurd rfl hk
      · exact ih h

theorem social_completes (socialNetworks : JSVal) (result : Props)
    (hs : ∀ networks, socialNetworks = .arr networks →
      ∀ n ∈ networks, isNetworkEntry n = true) :
    (processSocialNetworks socialNetworks result).thrown = none := by
  cases socialNetworks with
  | arr networks =>
    simp only [processSocialNetworks, JSVal.truthy, JSVal.isArray, Bool.not_true, Bool.or_self,
      Bool.false_eq_true, if_false]
    exact forEach_completes _ _ (fun n hn r => processNetwork_typed_ok (hs networks rfl n hn) r) _
  | _ => simp [processSocialNetworks, JSVal.truthy, JSVal.isArray]

theorem social_has (socialNetworks : JSVal) {result : Props} {k : String}
    (h : (Props.lookup k result).isSome = true) :
    (Props.lookup k (processSocialNetworks socialNetworks result).result).isSome = true := by
  have hinit := isSome_lookup_initSocialColumns h
  cases socialNetworks with
  | arr networks =>
    simp only [processSocialNetworks, JSVal.truthy, JSVal.isArray, Bool.not_true, Bool.or_self,
      Bool.false_eq_true, if_false]
    exact forEachNetwork_has networks _ k hinit
  | _ => simpa [processSocialNetworks, JSVal.truthy, JSVal.isArray] using hinit

theorem social_column_has (socialNetworks : JSVal) (result : Props) {col : String}
    (h : col ∈ socialColumns) :
    (Props.lookup col (processSocialNetworks socialNetworks result).result).isSome = true := by
  have hinit : (Props.lookup col (initSocialColumns result)).isSome = true := by
    simp [lookup_initSocialColumns h result]
  cases socialNetworks with
  | arr networks =>
    simp only [processSocialNetworks, JSVal.truthy, JSVal.isArray, Bool.not_true, Bool.or_self,
      Bool.false_eq_true, if_false]
    exact forEachNetwork_has networks _ col hinit
  | _ => simpa [processSocialNetworks, JSVal.truthy, JSVal.isArray] using hinit

theorem social_column_null (socialNetworks : JSVal) (result : Props) {p col : String}
    (hm : (p, col) ∈ socialPlatformTable)
    (hno : ∀ networks, socialNetworks = .arr networks →
      ∀ n ∈ networks, namesPlatform p n = false) :
    Props.lookup col (processSocialNetworks socialNetworks result).result = some .null := by
  have hinit := lookup_initSocialColumns (List.mem_map.mpr ⟨(p, col), hm, rfl⟩) result
  cases socialNetworks with
  | arr networks =>
    simp only [processSocialNetworks, JSVal.truthy, JSVal.isArray, Bool.not_true, Bool.or_self,
      Bool.false_eq_true, if_false]
    exact forEachNetwork_null networks _ hm hinit (hno networks rfl)
  | _ => simpa [processSocialNetworks, JSVal.truthy, JSVal.isArray] using hinit

/-- The resolver leaves a column that is neither a platform column nor the column of an
entry of the list. -/
theorem social_keeps (socialNetworks : JSVal) (result : Props) {k : String}
    (hk : k ∉ socialColumns) (hobj : k ≠ "[object Object]")
    (hfun : "function ".data.isPrefixOf k.data = false)
    (hno : ∀ networks, socialNetworks = .arr networks → ∀ n ∈ networks,
      ∀ t, n.getOpt "type" = .str t → toLowerCase t ++ "Url" ≠ k) :
    Props.lookup k (processSocialNetworks socialNetworks result).result =
      Props.lookup k result := by
  have hinit : Props.lookup k (initSocialColumns result) = Props.lookup k result :=
    lookup_foldl_assign_other socialColumns k hk .null result
  cases socialNetworks with
  | arr networks =>
    simp only [processSocialNetworks, JSVal.truthy, JSVal.isArray, Bool.not_true, Bool.or_self,
      Bool.false_eq_true, if_false]
    refine forEach_invariant processNetwork (fun r => Props.lookup k r = Props.lookup k result)
      networks (fun n hn r r' hrun hr => ?_) _ hinit
    rcases processNetwork_writes hrun k with hl | hc | ⟨t, ht, hkt⟩ | ho | hf
    · rw [hl, hr]
    · exact absurd hc hk
    · exact absurd hkt.symm (hno networks rfl n hn t ht)
    · exact absurd ho hobj
    · rw [hfun] at hf; exact Bool.noConfusion hf
  | _ => simpa [processSocialNetworks, JSVal.truthy, JSVal.isArray] using hinit

theorem event_completes (fields : JSVal) (result : Props)
    (hf : ∀ fs, fields = .arr fs → ∀ f ∈ fs, isEventField f = true) :
    (processEventFields fields result).thrown = none := by
  cases fields with
  | arr fs =>
    exact forEach_completes _ _ (fun f hm r => processField_typed_ok (hf fs rfl f hm) r) _
  | _ => rfl

theorem event_has (fields : JSVal) {result : Props} {k : String}
    (h : (Props.lookup k result).isSome = true) :
    (Props.lookup k (processEventFields fields result).result).isSome = true := by
  cases fields with
  | arr fs =>
    refine forEach_invariant processField (fun r => (Props.lookup k r).isSome = true) fs
      (fun f _ r r' hrun hr => ?_) _ h
    rcases processField_effect hrun with rfl | ⟨key, v, rfl, _⟩
    · exact hr
    · exact isSome_lookup_assign hr key v
  | _ => exact h

/-- The event fields leave a column that no field of the list is named after. -/
theorem event_keeps (fields : JSVal) (result : Props) {k : String}
    (hno : ∀ fs, fields = .arr fs → ∀ f ∈ fs, cleanFieldName (f.getOpt "name") ≠ .ok k) :
    Props.lookup k (processEventFields fields result).result = Props.lookup k result := by
  cases fields with
  | arr fs =>
    refine forEach_invariant processField (fun r => Props.lookup k r = Props.lookup k result) fs
      (fun f hm r r' hrun hr => ?_) _ rfl
    rcases processField_effect hrun with rfl | ⟨key, v, rfl, hkey, _⟩
    · exact hr
    · rw [Props.lookup_assign]
      split
      · exact hr
      · split
        · rename_i hk
          subst hk
          exact absurd hkey (hno fs rfl f hm)
        · exact hr
  | _ => rfl

/-- The GraphQL branch on a truthy payload with typed entries and fields: it returns the
projected record after the resolver and, where the payload has them, after the event fields. -/
theorem processApiResponse_graphQL_run (apiData : JSVal) (ht : apiData.truthy = true)
    (hs : ∀ networks, apiData.getOpt "socialNetworks" = .arr networks →
      ∀ n ∈ networks, isNetworkEntry n = true)
    (hf : ∀ fs, (apiData.getOpt "withEvent").getOpt "fields" = .arr fs →
      ∀ f ∈ fs, isEventField f = true) :
    ∃ r, processApiResponse apiData (.str "GraphQL") = .ok r ∧
      (r = (processSocialNetworks (apiData.getOpt "socialNetworks")
              (graphQLCoreFields.map (fun k => (k, (apiData.getOpt k).or .null)))).result ∨
       r = (processEventFields ((apiData.getOpt "withEvent").getOpt "fields")
              (processSocialNetworks (apiData.getOpt "socialNetworks")
                (graphQLCoreFields.map (fun k => (k, (apiData.getOpt k).or .null)))).result).result) := by
  have hnn := JSVal.not_nullish_of_truthy ht
  have hsoc := Outcome.toExcept_of_completes (social_completes (apiData.getOpt "socialNetworks")
    (graphQLCoreFields.map (fun k => (k, (apiData.getOpt k).or .null))) hs)
  have hstrict : (JSVal.str "GraphQL").strictEqStr "GraphQL" = true := by decide
  simp only [processApiResponse, hstrict, ht, Bool.and_self, if_true, projectGraphQL_core apiData hnn,
    JSVal.get_of_not_nullish hnn, hsoc, bind, Except.bind, pure, Except.pure]
  split
  · rename_i hwe
    rw [JSVal.get_of_truthy hwe]
    simp only
    split
    · exact ⟨_, Outcome.toExcept_of_completes (event_completes _ _ hf), Or.inr rfl⟩
    · exact ⟨_, rfl, Or.inl rfl⟩
  · exact ⟨_, rfl, Or.inl rfl⟩

/-! ## The REST branch -/

theorem optionalGet_eq (userProfile : JSVal) (k : String) :
    optionalGet userProfile k = .ok (userProfile.getOpt k) := by
  unfold optionalGet
  split
  · rename_i h
    cases userProfile <;> first | rfl | exact absurd h (by simp [JSVal.isNullish])
  · rename_i h
    exact JSVal.get_of_not_nullish (by simpa using h) k

theorem projectRest_core (apiData userProfile : JSVal) (h : apiData.isNullish = false)
    (id : JSVal) :
    projectRest apiData userProfile restCoreFields (Props.assign "id" id []) =
      .ok (("id", id) :: restCoreFields.map (fun c =>
        (c.1, ((userProfile.getOpt c.2.1).or (apiData.getOpt c.2.2)).or .null))) := by
  simp [projectRest, restCoreFields, JSVal.get_of_not_nullish h, optionalGet_eq, Props.assign,
    Props.define, bind, Except.bind]

/-- The copy loop of the REST branch completes when `userProfile` has no key
`hasOwnProperty`, and it leaves every column that the record already has. -/
theorem copyAdditional_ok (userProfile : JSVal) (hu : userProfile.truthy = true)
    (keys : List String) (hk : "hasOwnProperty" ∉ keys) (result : Props)
    (hr : Props.lookup "hasOwnProperty" result = none) :
    ∃ result', copyAdditional userProfile keys result = .ok result' ∧
      ∀ k v, Props.lookup k result = some v → Props.lookup k result' = some v := by
  induction keys generalizing result with
  | nil => exact ⟨result, rfl, fun _ _ h => h⟩
  | cons key rest ih =>
    simp only [List.mem_cons, not_or] at hk
    simp only [copyAdditional, callHasOwnProperty, hr, JSVal.get_of_truthy hu, bind, Except.bind]
    split
    · exact ih hk.2 result hr
    · rename_i hown
      split
      · exact ih hk.2 result hr
      · have hr' : Props.lookup "hasOwnProperty"
            (Props.assign key (userProfile.getOpt key) result) = none := by
          rw [Props.lookup_assign]
          split
          · exact hr
          · rw [if_neg (Ne.symm hk.1)]; exact hr
        obtain ⟨result', hrun, hkeep⟩ := ih hk.2 _ hr'
        refine ⟨result', hrun, fun k v hkv => hkeep k v ?_⟩
        rw [Props.lookup_assign]
        split
        · exact hkv
        · split
          · rename_i hkk
            subst hkk
            simp [Props.has, hkv] at hown
          · exact hkv

/-- The copy loop of the REST branch never changes a column that the record already has. -/
theorem copyAdditional_keeps (userProfile : JSVal) (keys : List String) (result result' : Props)
    (h : copyAdditional userProfile keys result = .ok result') :
    ∀ k v, Props.lookup k result = some v → Props.lookup k result' = some v := by
  induction keys generalizing result with
  | nil =>
    simp only [copyAdditional, Except.ok.injEq] at h
    subst h
    exact fun _ _ hkv => hkv
  | cons key rest ih =>
    simp only [copyAdditional, bind, Except.bind] at h
    cases hown : callHasOwnProperty result key with
    | error e => simp [hown] at h
    | ok own =>
      simp only [hown] at h
      cases own with
      | true => exact ih result (by simpa using h)
      | false =>
        simp only [Bool.false_eq_true, if_false] at h
        cases hget : userProfile.get key with
        | error e => simp [hget] at h
        | ok x =>
          simp only [hget] at h
          split at h
          · exact ih result h
          · intro k v hkv
            refine ih _ h k v ?_
            have hnot : Props.has key result = false := by
              simp only [callHasOwnProperty] at hown
              split at hown
              · exact Except.noConfusion hown
              · simpa using hown
            rw [Props.lookup_assign]
            split
            · exact hkv
            · split
              · rename_i hk
                subst hk
                simp [Props.has, hkv] at hnot
              · exact hkv

/-- A column that the copy loop of the REST branch leaves in the record was there before, or
is the copy of a key of `userProfile` whose value is not an object. -/
theorem copyAdditional_origin (userProfile : JSVal) (keys : List String)
    (result result' : Props) (h : copyAdditional userProfile keys result = .ok result') :
    ∀ k v, Props.lookup k result' = some v →
      Props.lookup k result = some v ∨
      (k ∈ keys ∧ userProfile.get k = .ok v ∧ v.typeofIsObject = false) := by
  induction keys generalizing result with
  | nil =>
    simp only [copyAdditional, Except.ok.injEq] at h
    subst h
    exact fun _ _ hkv => Or.inl hkv
  | cons key rest ih =>
    intro k v hkv
    have hrest : (k ∈ rest ∧ userProfile.get k = .ok v ∧ v.typeofIsObject = false) →
        (k ∈ key :: rest ∧ userProfile.get k = .ok v ∧ v.typeofIsObject = false) :=
      fun hx => ⟨List.mem_cons_of_mem _ hx.1, hx.2⟩
    simp only [copyAdditional, bind, Except.bind] at h
    cases hown : callHasOwnProperty result key with
    | error e => simp [hown] at h
    | ok own =>
      simp only [hown] at h
      cases own with
      | true =>
        simp only [if_true] at h
        exact (ih result h k v hkv).imp_right hrest
      | false =>
        simp only [Bool.false_eq_true, if_false] at h
        cases hget : userProfile.get key with
        | error e => simp [hget] at h
        | ok v0 =>
          simp only [hget] at h
          cases hobj : v0.typeofIsObject with
          | true =>
            simp only [hobj, if_true] at h
            exact (ih result h k v hkv).imp_right hrest
          | false =>
            simp only [hobj, Bool.false_eq_true, if_false] at h
            rcases ih _ h k v hkv with hin | hx
            · rw [Props.lookup_assign] at hin
              split at hin
              · exact Or.inl hin
              · split at hin
                · rename_i hkk
                  subst hkk
                  cases hin
                  exact Or.inr ⟨List.mem_cons_self _ _, hget, hobj⟩
                · exact Or.inl hin
            · exact Or.inr (hrest hx)

/-- The copy loop of the REST branch copies every key of `userProfile` whose value is not an
object and for which the record has no column yet (the key `__proto__` apart, whose assignment
creates no column). -/
theorem copyAdditional_copies (userProfile : JSVal) (keys : List String)
    (result result' : Props) (h : copyAdditional userProfile keys result = .ok result')
    (k : String) (hk : k ∈ keys) (hproto : k ≠ "__proto__") (v : JSVal)
    (hget : userProfile.get k = .ok v) (hobj : v.typeofIsObject = false)
    (hnone : Props.lookup k result = none) :
    Props.lookup k result' = some v := by
  induction keys generalizing result with
  | nil => simp at hk
  | cons key rest ih =>
    simp only [copyAdditional, bind, Except.bind] at h
    cases hown : callHasOwnProperty result key with
    | error e => simp [hown] at h
    | ok own =>
      simp only [hown] at h
      by_cases hkk : key = k
      · subst hkk
        have hfalse : own = false := by
          unfold callHasOwnProperty at hown
          split at hown
          · exact Except.noConfusion hown
          · have := Except.ok.inj hown
            rw [← this]
            simp [Props.has, hnone]
        subst hfalse
        simp only [Bool.false_eq_true, if_false, hget, hobj] at h
        exact copyAdditional_keeps userProfile rest _ result' h key v
          (by rw [Props.lookup_assign, if_neg hproto, if_pos rfl])
      · have hmem : k ∈ rest := by
          rcases List.mem_cons.mp hk with he | hm
          · exact absurd he.symm hkk
          · exact hm
        cases own with
        | true =>
          simp only [if_true] at h
          exact ih result h hmem hnone
        | false =>
          simp only [Bool.false_eq_true, if_false] at h
          cases hget0 : userProfile.get key with
          | error e => simp [hget0] at h
          | ok v0 =>
            simp only [hget0] at h
            cases hobj0 : v0.typeofIsObject with
            | true =>
              simp only [hobj0, if_true] at h
              exact ih result h hmem hnone
            | false =>
              simp only [hobj0, Bool.false_eq_true, if_false] at h
              refine ih _ h hmem ?_
              rw [Props.lookup_assign]
              split
              · exact hnone
              · exact hnone

/-- The projection of the REST branch has the column `id` and the columns of `restCoreFields`
only. -/
theorem lookup_restCore_other (apiData userProfile id : JSVal) (k : String) (hid : k ≠ "id")
    (hk : ∀ c ∈ restCoreFields, c.1 ≠ k) :
    Props.lookup k (("id", id) :: restCoreFields.map (fun c =>
      (c.1, ((userProfile.getOpt c.2.1).or (apiData.getOpt c.2.2)).or .null))) = none := by
  have h1 := hk ("firstName", "firstName", "firstName") (by decide)
  have h2 := hk ("lastName", "lastName", "lastName") (by decide)
  have h3 := hk ("jobTitle", "jobTitle", "jobTitle") (by decide)
  have h4 := hk ("organization", "company", "organization") (by decide)
  have h5 := hk ("email", "email", "email") (by decide)
  have h6 := hk ("websiteUrl", "website", "websiteUrl") (by decide)
  have h7 := hk ("mobilePhone", "phone", "mobilePhone") (by decide)
  have h8 := hk ("photoUrl", "avatar", "photoUrl") (by decide)
  simp only at h1 h2 h3 h4 h5 h6 h7 h8
  simp [restCoreFields, Props.lookup, Ne.symm hid, h1, h2, h3, h4, h5, h6, h7, h8]

/-! ## C7: the columns of the flattened record -/

/-- C7 (counterexample): for the REST payload `{userId: 1}` the record has `id` and
`firstName`, and has no `landlinePhone`, no `address` and no `linkedinUrl`; for a falsy payload
the record is empty, for GraphQL too. -/
theorem processApiResponse_rest_lacks_columns :
    ∃ r, processApiResponse (.obj [("userId", .num 1)]) (.str "REST") = .ok r ∧
      Props.lookup "id" r = some (.num 1) ∧
      Props.lookup "firstName" r = some .null ∧
      Props.lookup "landlinePhone" r = none ∧
      Props.lookup "address" r = none ∧
      Props.lookup "linkedinUrl" r = none ∧
      processApiResponse .null (.str "GraphQL") = .ok [] :=
  ⟨_, rfl, rfl, rfl, rfl, rfl, rfl, rfl⟩

theorem graphQLCoreFields_facts :
    ∀ k ∈ graphQLCoreFields, k ∉ socialColumns ∧ k ≠ "[object Object]" ∧
      "function ".data.isPrefixOf k.data = false := by
  decide

/-- C7 (amended): for every truthy payload, (1) with apiType GraphQL, the entries of
`socialNetworks` and the fields of `withEvent.fields` being typed records, the returned record
has every fixed core field (and `userId`) and each of the 18 platform columns; a core field is
`null` when the payload has no truthy value for it and no network entry or event field is
written to its column, and a platform column is `null` when no entry names the platform and no
event field is written to the column; (2) with apiType REST, `userProfile` having no key
`hasOwnProperty`, the returned record has `id` and the eight projected fields `firstName`,
`lastName`, `jobTitle`, `organization`, `email`, `websiteUrl`, `mobilePhone`, `photoUrl`, each
`null` when neither `userProfile` nor the top level has a truthy value; any other column of
the REST record (`landlinePhone`, `address`, a platform column, ...) is the copy of a key of a
truthy `userProfile` whose value is not an object, and every such key is copied (the key
`__proto__` apart, whose assignment creates no column). -/
theorem processApiResponse_fields (apiData : JSVal) (ht : apiData.truthy = true) :
    ((∀ networks, apiData.getOpt "socialNetworks" = .arr networks →
        ∀ n ∈ networks, isNetworkEntry n = true) →
      (∀ fs, (apiData.getOpt "withEvent").getOpt "fields" = .arr fs →
        ∀ f ∈ fs, isEventField f = true) →
      ∃ r, processApiResponse apiData (.str "GraphQL") = .ok r ∧
        (∀ k ∈ graphQLCoreFields ++ socialColumns, ∃ v, Props.lookup k r = some v) ∧
        (∀ k ∈ graphQLCoreFields, (apiData.getOpt k).truthy = false →
          (∀ networks, apiData.getOpt "socialNetworks" = .arr networks → ∀ n ∈ networks,
            ∀ t, n.getOpt "type" = .str t → toLowerCase t ++ "Url" ≠ k) →
          (∀ fs, (apiData.getOpt "withEvent").getOpt "fields" = .arr fs →
            ∀ f ∈ fs, cleanFieldName (f.getOpt "name") ≠ .ok k) →
          Props.lookup k r = some .null) ∧
        (∀ p col, (p, col) ∈ socialPlatformTable →
          (∀ networks, apiData.getOpt "socialNetworks" = .arr networks →
            ∀ n ∈ networks, namesPlatform p n = false) →
          (∀ fs, (apiData.getOpt "withEvent").getOpt "fields" = .arr fs →
            ∀ f ∈ fs, cleanFieldName (f.getOpt "name") ≠ .ok col) →
          Props.lookup col r = some .null)) ∧
    ("hasOwnProperty" ∉ objectKeys (apiData.getOpt "userProfile") →
      ∃ r, processApiResponse apiData (.str "REST") = .ok r ∧
        Props.lookup "id" r =
          some (((apiData.getOpt "userId").or (apiData.getOpt "id")).or .null) ∧
        (∀ c ∈ restCoreFields, Props.lookup c.1 r =
          some ((((apiData.getOpt "userProfile").getOpt c.2.1).or
            (apiData.getOpt c.2.2)).or .null)) ∧
        (∀ k, k ≠ "id" → (∀ c ∈ restCoreFields, c.1 ≠ k) →
          (∀ v, Props.lookup k r = some v →
            (apiData.getOpt "userProfile").truthy = true ∧
            k ∈ objectKeys (apiData.getOpt "userProfile") ∧
            (apiData.getOpt "userProfile").get k = .ok v ∧ v.typeofIsObject = false) ∧
          (∀ v, (apiData.getOpt "userProfile").truthy = true →
            k ∈ objectKeys (apiData.getOpt "userProfile") → k ≠ "__proto__" →
            (apiData.getOpt "userProfile").get k = .ok v → v.typeofIsObject = false →
            Props.lookup k r = some v))) := by
  have hnn := JSVal.not_nullish_of_truthy ht
  constructor
  · intro hs hf
    obtain ⟨r, hrun, hr⟩ := processApiResponse_graphQL_run apiData ht hs hf
    refine ⟨r, hrun, ?_, ?_, ?_⟩
    · intro k hk
      apply Option.isSome_iff_exists.mp
      have h1 : (Props.lookup k (processSocialNetworks (apiData.getOpt "socialNetworks")
          (graphQLCoreFields.map (fun k => (k, (apiData.getOpt k).or .null)))).result).isSome
          = true := by
        rcases List.mem_append.mp hk with hc | hc
        · exact social_has _ (by rw [lookup_map_key _ _ hc]; rfl)
        · exact social_column_has _ _ hc
      rcases hr with rfl | rfl
      · exact h1
      · exact event_has _ h1
    · intro k hk hfalsy hnet hfld
      obtain ⟨h1, h2, h3⟩ := graphQLCoreFields_facts k hk
      have hnull : Props.lookup k (processSocialNetworks (apiData.getOpt "socialNetworks")
          (graphQLCoreFields.map (fun k => (k, (apiData.getOpt k).or .null)))).result
          = some .null := by
        rw [social_keeps _ _ h1 h2 h3 hnet, lookup_map_key _ _ hk]
        simp [JSVal.or, hfalsy]
      rcases hr with rfl | rfl
      · exact hnull
      · rw [event_keeps _ _ hfld]; exact hnull
    · intro p col hm hnet hfld
      have hnull := social_column_null (apiData.getOpt "socialNetworks")
        (graphQLCoreFields.map (fun k => (k, (apiData.getOpt k).or .null))) hm hnet
      rcases hr with rfl | rfl
      · exact hnull
      · rw [event_keeps _ _ hfld]; exact hnull
  · intro hkeys
    have hstrict : (JSVal.str "REST").strictEqStr "GraphQL" = false := by decide
    have hstrict' : (JSVal.str "REST").strictEqStr "REST" = true := by decide
    simp only [processApiResponse, hstrict, hstrict', ht, Bool.false_and, Bool.and_self,
      Bool.false_eq_true, if_false, if_true, JSVal.get_of_not_nullish hnn,
      projectRest_core apiData _ hnn, bind, Except.bind, pure, Except.pure]
    have hcore : ∀ c ∈ restCoreFields,
        Props.lookup c.1 (("id", ((apiData.getOpt "userId").or (apiData.getOpt "id")).or .null) ::
          restCoreFields.map (fun c => (c.1,
            (((apiData.getOpt "userProfile").getOpt c.2.1).or (apiData.getOpt c.2.2)).or .null)))
        = some ((((apiData.getOpt "userProfile").getOpt c.2.1).or
            (apiData.getOpt c.2.2)).or .null) := by
      intro c hc
      simp only [restCoreFields, List.mem_cons, List.mem_singleton, List.not_mem_nil,
        or_false] at hc
      rcases hc with rfl | rfl | rfl | rfl | rfl | rfl | rfl | rfl <;>
        simp [restCoreFields, Props.lookup]
    split
    · rename_i hu
      obtain ⟨r, hrun, hkeep⟩ := copyAdditional_ok (apiData.getOpt "userProfile") hu _ hkeys
        (("id", ((apiData.getOpt "userId").or (apiData.getOpt "id")).or .null) ::
          restCoreFields.map (fun c => (c.1,
            (((apiData.getOpt "userProfile").getOpt c.2.1).or (apiData.getOpt c.2.2)).or .null)))
        (by simp [restCoreFields, Props.lookup])
      refine ⟨r, hrun, hkeep _ _ (by simp [Props.lookup]), fun c hc => hkeep _ _ (hcore c hc),
        fun k hid hk => ⟨fun v hv => ?_, fun v _ hmem hproto hget hobj => ?_⟩⟩
      · rcases copyAdditional_origin _ _ _ _ hrun k v hv with hin | ⟨hmem, hget, hobj⟩
        · rw [lookup_restCore_other apiData _ _ k hid hk] at hin
          exact Option.noConfusion hin
        · exact ⟨hu, hmem, hget, hobj⟩
      · exact copyAdditional_copies _ _ _ _ hrun k hmem hproto v hget hobj
          (lookup_restCore_other apiData _ _ k hid hk)
    · rename_i hu
      refine ⟨_, rfl, by simp [Props.lookup], hcore,
        fun k hid hk => ⟨fun v hv => ?_, fun v hu' _ _ _ _ => absurd hu' hu⟩⟩
      rw [lookup_restCore_other apiData _ _ k hid hk] at hv
      exact Option.noConfusion hv

/-- C7 (amended), at a payload with a first name, a GitHub entry, one text field and a
`userProfile` that holds an `address`. -/
theorem processApiResponse_fields_witness :
    (∃ r, processApiResponse
        (.obj [("firstName", .str "Ann"),
               ("socialNetworks", .arr [.obj [("type", .str "GitHub"), ("profile", .str "ann")]]),
               ("withEvent", .obj [("fields", .arr [.obj [("name", .str "Role"),
                  ("isVisible", .bool true), ("__typename", .str "Core_TextField"),
                  ("value", .obj [("text", .str "Dev")])]])]),
               ("userProfile", .obj [("address", .str "Rome")])])
        (.str "GraphQL") = .ok r ∧
      (∃ v, Props.lookup "githubUrl" r = some v) ∧
      Props.lookup "address" r = some .null ∧
      Props.lookup "linkedinUrl" r = some .null) ∧
    (∃ r, processApiResponse
        (.obj [("firstName", .str "Ann"),
               ("socialNetworks", .arr [.obj [("type", .str "GitHub"), ("profile", .str "ann")]]),
               ("withEvent", .obj [("fields", .arr [.obj [("name", .str "Role"),
                  ("isVisible", .bool true), ("__typename", .str "Core_TextField"),
                  ("value", .obj [("text", .str "Dev")])]])]),
               ("userProfile", .obj [("address", .str "Rome")])])
        (.str "REST") = .ok r ∧
      Props.lookup "firstName" r = some (.str "Ann") ∧
      Props.lookup "address" r = some (.str "Rome")) := by
  have h := processApiResponse_fields
    (.obj [("firstName", .str "Ann"),
           ("socialNetworks", .arr [.obj [("type", .str "GitHub"), ("profile", .str "ann")]]),
           ("withEvent", .obj [("fields", .arr [.obj [("name", .str "Role"),
              ("isVisible", .bool true), ("__typename", .str "Core_TextField"),
              ("value", .obj [("text", .str "Dev")])]])]),
           ("userProfile", .obj [("address", .str "Rome")])]) rfl
  have hnet : ∀ networks,
      JSVal.arr [.obj [("type", .str "GitHub"), ("profile", .str "ann")]] = .arr networks →
      ∀ n ∈ networks, n = .obj [("type", .str "GitHub"), ("profile", .str "ann")] := by
    intro networks he n hn
    cases he
    simpa using hn
  have hfld : ∀ fs,
      JSVal.arr [.obj [("name", .str "Role"), ("isVisible", .bool true),
        ("__typename", .str "Core_TextField"), ("value", .obj [("text", .str "Dev")])]] =
        .arr fs →
      ∀ f ∈ fs, f = .obj [("name", .str "Role"), ("isVisible", .bool true),
        ("__typename", .str "Core_TextField"), ("value", .obj [("text", .str "Dev")])] := by
    intro fs he f hf
    cases he
    simpa using hf
  constructor
  · obtain ⟨r, hrun, hhas, hcore, hsocial⟩ := h.1
      (fun networks he n hn => by rw [hnet networks he n hn]; rfl)
      (fun fs he f hf => by rw [hfld fs he f hf]; rfl)
    refine ⟨r, hrun, hhas "githubUrl" (by decide), ?_, ?_⟩
    · refine hcore "address" (by decide) rfl ?_ ?_
      · intro networks he n hn t ht
        rw [hnet networks he n hn] at ht
        cases ht
        decide
      · intro fs he f hf
        rw [hfld fs he f hf]
        intro hc
        change (Except.ok "Role" : Except JSError String) = Except.ok _ at hc
        exact absurd (Except.ok.inj hc) (by decide)
    · refine hsocial "linkedin" "linkedinUrl" (by decide) ?_ ?_
      · intro networks he n hn
        rw [hnet networks he n hn]
        rfl
      · intro fs he f hf
        rw [hfld fs he f hf]
        intro hc
        change (Except.ok "Role" : Except JSError String) = Except.ok _ at hc
        exact absurd (Except.ok.inj hc) (by decide)
  · obtain ⟨r, hrun, _, hcore, hother⟩ := h.2 (by decide)
    exact ⟨r, hrun, hcore ("firstName", "firstName", "firstName") (by decide),
      (hother "address" (by decide) (by decide)).2 (.str "Rome") rfl (by decide) (by decide)
        rfl rfl⟩

/-! ## C8: payloads on which the normaliser throws -/

/-- C8 (the code at failing inputs): `processApiResponse` throws a `TypeError` on a GraphQL
payload whose `socialNetworks` holds `null`, whose entry has a number as `type`, whose
`withEvent.fields` holds `null`, whose multi-select `values` holds `null`, or whose visible
field has a number as `name`; and on a REST payload whose `userProfile` has a scalar key
`hasOwnProperty` followed by another key. -/
theorem processApiResponse_throws :
    (∃ e, processApiResponse (.obj [("socialNetworks", .arr [.null])]) (.str "GraphQL")
      = .error e) ∧
    (∃ e, processApiResponse
      (.obj [("socialNetworks", .arr [.obj [("type", .num 5), ("profile", .str "x")]])])
      (.str "GraphQL") = .error e) ∧
    (∃ e, processApiResponse (.obj [("withEvent", .obj [("fields", .arr [.null])])])
      (.str "GraphQL") = .error e) ∧
    (∃ e, processApiResponse
      (.obj [("withEvent", .obj [("fields", .arr [.obj [("name", .str "Tags"),
        ("isVisible", .bool true), ("__typename", .str "Core_MultipleSelectField"),
        ("values", .arr [.null])]])])])
      (.str "GraphQL") = .error e) ∧
    (∃ e, processApiResponse
      (.obj [("withEvent", .obj [("fields", .arr [.obj [("name", .num 7),
        ("isVisible", .bool true)]])])])
      (.str "GraphQL") = .error e) ∧
    (∃ e, processApiResponse
      (.obj [("userProfile", .obj [("hasOwnProperty", .str "x"), ("city", .str "Rome")])])
      (.str "REST") = .error e) :=
  ⟨⟨_, rfl⟩, ⟨_, rfl⟩, ⟨_, rfl⟩, ⟨_, rfl⟩, ⟨_, rfl⟩, ⟨_, rfl⟩⟩

/-! ## C9: number, boolean and date fields -/

/-- C9 (counterexample): a visible `Core_DateField` named `When` whose value is `0`, `false`
or the empty string gets the column `null`, not the raw value. -/
theorem processEventFields_date_falsy :
    (processEventFields (.arr [.obj [("name", .str "When"), ("isVisible", .bool true),
        ("__typename", .str "Core_DateField"), ("value", .num 0)]]) []) =
      ⟨[("When", .null)], none⟩ ∧
    (processEventFields (.arr [.obj [("name", .str "When"), ("isVisible", .bool true),
        ("__typename", .str "Core_DateField"), ("value", .bool false)]]) []) =
      ⟨[("When", .null)], none⟩ ∧
    (processEventFields (.arr [.obj [("name", .str "When"), ("isVisible", .bool true),
        ("__typename", .str "Core_DateField"), ("value", .str "")]]) []) =
      ⟨[("When", .null)], none⟩ :=
  ⟨rfl, rfl, rfl⟩

/-- A visible field with a string name: the loop over the one-field list assigns the extracted
value to the cleaned name. -/
theorem processEventFields_single (field : JSVal) (result : Props) (n : String) (v : JSVal)
    (hnn : field.isNullish = false) (hname : field.getOpt "name" = .str n) (hn : n ≠ "")
    (hvis : (field.getOpt "isVisible").truthy = true) (hv : extractFieldValue field = .ok v) :
    processEventFields (.arr [field]) result =
      ⟨Props.assign (cleanFieldNameText n) v result, none⟩ := by
  have hnt : (JSVal.str n).truthy = true := by simpa [JSVal.truthy] using hn
  simp only [processEventFields, forEach, processField, JSVal.get_of_not_nullish hnn, hname,
    hnt, hvis, hv, cleanFieldName, bind, Except.bind, pure, Except.pure, Bool.not_true,
    Bool.false_eq_true, if_false]

theorem extractFieldValue_number (field : JSVal) (hnn : field.isNullish = false)
    (ht : field.getOpt "__typename" = .str "Core_NumberField" ∨
      field.getOpt "__typename" = .str "Core_BooleanField") :
    extractFieldValue field =
      .ok (if (field.getOpt "value").isNullish then .null else field.getOpt "value") := by
  rcases ht with ht | ht <;>
    (simp only [extractFieldValue, JSVal.get_of_not_nullish hnn, ht, JSVal.strictEqStr, bind,
      Except.bind, pure, Except.pure]
     cases (field.getOpt "value").isNullish <;> simp)

theorem extractFieldValue_date (field : JSVal) (hnn : field.isNullish = false)
    (ht : field.getOpt "__typename" = .str "Core_DateField") :
    extractFieldValue field =
      .ok (if (field.getOpt "value").truthy then field.getOpt "value" else .null) := by
  simp only [extractFieldValue, JSVal.get_of_not_nullish hnn, ht, JSVal.strictEqStr, bind,
    Except.bind, pure, Except.pure]
  cases (field.getOpt "value").truthy <;> simp

/-- C9 (amended): for every visible, named event field, the one-field run of
`processEventFields` assigns to the field's column (1) for `Core_NumberField` and
`Core_BooleanField` the raw `.value` whenever it is neither `null` nor `undefined` - `0`,
`false` and the empty string included - and `null` otherwise; (2) for `Core_DateField` the raw
`.value` when it is truthy, and `null` when it is falsy. -/
theorem processEventFields_raw_value (field : JSVal) (result : Props) (n : String)
    (hnn : field.isNullish = false) (hname : field.getOpt "name" = .str n) (hn : n ≠ "")
    (hvis : (field.getOpt "isVisible").truthy = true) :
    ((field.getOpt "__typename" = .str "Core_NumberField" ∨
        field.getOpt "__typename" = .str "Core_BooleanField") →
      ((field.getOpt "value").isNullish = false →
        processEventFields (.arr [field]) result =
          ⟨Props.assign (cleanFieldNameText n) (field.getOpt "value") result, none⟩) ∧
      ((field.getOpt "value").isNullish = true →
        processEventFields (.arr [field]) result =
          ⟨Props.assign (cleanFieldNameText n) .null result, none⟩)) ∧
    (field.getOpt "__typename" = .str "Core_DateField" →
      ((field.getOpt "value").truthy = true →
        processEventFields (.arr [field]) result =
          ⟨Props.assign (cleanFieldNameText n) (field.getOpt "value") result, none⟩) ∧
      ((field.getOpt "value").truthy = false →
        processEventFields (.arr [field]) result =
          ⟨Props.assign (cleanFieldNameText n) .null result, none⟩)) := by
  refine ⟨fun ht => ⟨fun hv => ?_, fun hv => ?_⟩, fun ht => ⟨fun hv => ?_, fun hv => ?_⟩⟩
  · exact processEventFields_single field result n _ hnn hname hn hvis
      (by rw [extractFieldValue_number field hnn ht, hv]; rfl)
  · exact processEventFields_single field result n _ hnn hname hn hvis
      (by rw [extractFieldValue_number field hnn ht, hv]; rfl)
  · exact processEventFields_single field result n _ hnn hname hn hvis
      (by rw [extractFieldValue_date field hnn ht, hv]; rfl)
  · exact processEventFields_single field result n _ hnn hname hn hvis
      (by rw [extractFieldValue_date field hnn ht, hv]; rfl)

/-- C9 (amended), at a number field with the value `0` and a date field with a date. -/
theorem processEventFields_raw_value_witness :
    processEventFields (.arr [.obj [("name", .str "Seats"), ("isVisible", .bool true),
        ("__typename", .str "Core_NumberField"), ("value", .num 0)]]) [] =
      ⟨Props.assign (cleanFieldNameText "Seats") (.num 0) [], none⟩ ∧
    processEventFields (.arr [.obj [("name", .str "When"), ("isVisible", .bool true),
        ("__typename", .str "Core_DateField"), ("value", .str "2025-03-01")]]) [] =
      ⟨Props.assign (cleanFieldNameText "When") (.str "2025-03-01") [], none⟩ :=
  ⟨((processEventFields_raw_value (.obj [("name", .str "Seats"), ("isVisible", .bool true),
        ("__typename", .str "Core_NumberField"), ("value", .num 0)]) [] "Seats" rfl rfl
        (by decide) rfl).1 (Or.inl rfl)).1 rfl,
   ((processEventFields_raw_value (.obj [("name", .str "When"), ("isVisible", .bool true),
        ("__typename", .str "Core_DateField"), ("value", .str "2025-03-01")]) [] "When" rfl rfl
        (by decide) rfl).2 rfl).1 rfl⟩

/-! ## C10: multi-select fields -/

/-- C10 (counterexample): for the values `[{text: 'a'}, {text: ''}, {text: 'b'}]` the column
is `['a', 'b']`: it is not the list `['a', '', 'b']` of the texts of the elements. -/
theorem processEventFields_multiSelect_drops_empty :
    processEventFields (.arr [.obj [("name", .str "Tags"), ("isVisible", .bool true),
        ("__typename", .str "Core_MultipleSelectField"),
        ("values", .arr [.obj [("text", .str "a")], .obj [("text", .str "")],
          .obj [("text", .str "b")]])]]) [] =
      ⟨[("Tags", .arr [.str "a", .str "b"])], none⟩ ∧
    [JSVal.obj [("text", .str "a")], .obj [("text", .str "")], .obj [("text", .str "b")]].map
        (fun v => v.getOpt "text") = [.str "a", .str "", .str "b"] :=
  ⟨rfl, rfl⟩

theorem extractFieldValue_multiSelect (field : JSVal) (hnn : field.isNullish = false)
    (ht : field.getOpt "__typename" = .str "Core_MultipleSelectField") (vs : List JSVal)
    (hvalues : field.getOpt "values" = .arr vs) (hvs : ∀ v ∈ vs, v.isNullish = false) :
    extractFieldValue field =
      .ok (if (truthyTexts vs).length = 0 then .null else .arr (truthyTexts vs)) := by
  simp only [extractFieldValue, JSVal.get_of_not_nullish hnn, ht, hvalues, JSVal.strictEqStr,
    bind, Except.bind, pure, Except.pure, filterByText_ok vs hvs]
  rw [mapText_ok _ (fun v hv => hvs v (List.mem_of_mem_filter hv))]
  simp only [String.reduceBEq, Bool.false_eq_true, if_false, if_true, truthyTexts]
  split <;> rfl

/-- C10 (amended): for every visible, named `Core_MultipleSelectField` whose `values` is a list
without `null` elements, taken as the only field of the list, `processEventFields` assigns to
the field's column a value that is never an empty array: `null` when no element of `values`
has a non-empty (truthy) `text`, in particular when `values` is empty, and otherwise the
non-empty list of the truthy `text` values of the elements, in their original order; the
elements without a truthy `text` are left out. -/
theorem processEventFields_multiSelect (field : JSVal) (result : Props) (n : String)
    (vs : List JSVal) (hnn : field.isNullish = false) (hname : field.getOpt "name" = .str n)
    (hn : n ≠ "") (hvis : (field.getOpt "isVisible").truthy = true)
    (ht : field.getOpt "__typename" = .str "Core_MultipleSelectField")
    (hvalues : field.getOpt "values" = .arr vs) (hvs : ∀ v ∈ vs, v.isNullish = false) :
    ∃ v, processEventFields (.arr [field]) result =
        ⟨Props.assign (cleanFieldNameText n) v result, none⟩ ∧
      v ≠ .arr [] ∧
      ((∀ x ∈ vs, (x.getOpt "text").truthy = false) → v = .null) ∧
      ((∃ x ∈ vs, (x.getOpt "text").truthy = true) →
        v = .arr (truthyTexts vs) ∧ truthyTexts vs ≠ []) ∧
      (∀ t ∈ truthyTexts vs, t.truthy = true) := by
  refine ⟨_, processEventFields_single field result n _ hnn hname hn hvis
    (extractFieldValue_multiSelect field hnn ht vs hvalues hvs), ?_, ?_, ?_, ?_⟩
  · split
    · intro h; cases h
    · rename_i hlen
      intro h
      injection h with h
      exact hlen (by rw [h]; rfl)
  · intro hall
    have : truthyTexts vs = [] := by
      simp only [truthyTexts, List.map_eq_nil_iff, List.filter_eq_nil_iff]
      intro x hx
      simp [hall x hx]
    simp [this]
  · rintro ⟨x, hx, hxt⟩
    have hne : truthyTexts vs ≠ [] := by
      simp only [truthyTexts, ne_eq, List.map_eq_nil_iff, List.filter_eq_nil_iff, not_forall]
      exact ⟨x, hx, by simp [hxt]⟩
    refine ⟨?_, hne⟩
    rw [if_neg]
    intro hlen
    exact hne (List.length_eq_zero.mp hlen)
  · intro t htm
    simp only [truthyTexts, List.mem_map, List.mem_filter] at htm
    obtain ⟨x, ⟨_, hxt⟩, rfl⟩ := htm
    exact hxt

/-- C10 (amended), at a field with the values `[{text: 'a'}, {text: ''}, {text: 'b'}]`. -/
theorem processEventFields_multiSelect_witness :
    ∃ v, processEventFields (.arr [.obj [("name", .str "Tags"), ("isVisible", .bool true),
          ("__typename", .str "Core_MultipleSelectField"),
          ("values", .arr [.obj [("text", .str "a")], .obj [("text", .str "")],
            .obj [("text", .str "b")]])]]) [] =
        ⟨Props.assign (cleanFieldNameText "Tags") v [], none⟩ ∧
      v ≠ .arr [] := by
  obtain ⟨v, hrun, hne, _⟩ := processEventFields_multiSelect
    (.obj [("name", .str "Tags"), ("isVisible", .bool true),
      ("__typename", .str "Core_MultipleSelectField"),
      ("values", .arr [.obj [("text", .str "a")], .obj [("text", .str "")],
        .obj [("text", .str "b")]])]) [] "Tags"
    [.obj [("text", .str "a")], .obj [("text", .str "")], .obj [("text", .str "b")]]
    rfl rfl (by decide) rfl rfl rfl
    (by intro v hv
        simp only [List.mem_cons, List.mem_singleton, List.not_mem_nil, or_false] at hv
        rcases hv with rfl | rfl | rfl <;> rfl)
  exact ⟨v, hrun, hne⟩

/-! ## C11: `cleanFieldName` -/

theorem collapseWhitespace_eq_collapseRuns (cs : List Char) :
    collapseWhitespace false cs = collapseRuns cs ∧
    collapseWhitespace true cs = collapseRuns (cs.dropWhile isJsWhitespace) := by
  induction cs with
  | nil => constructor <;> simp [collapseWhitespace, collapseRuns]
  | cons c t ih =>
    by_cases hc : isJsWhitespace c = true
    · constructor
      · rw [collapseRuns]
        simp [collapseWhitespace, hc, ih.2]
      · simp [collapseWhitespace, hc, ih.2, List.dropWhile]
    · have hc' : isJsWhitespace c = false := by simpa using hc
      constructor
      · rw [collapseRuns]
        simp [collapseWhitespace, hc', ih.1]
      · rw [List.dropWhile_cons_of_neg (by simp [hc']), collapseRuns]
        simp [collapseWhitespace, hc', ih.1]

theorem isJsWhitespace_space : isJsWhitespace ' ' = true := by decide

theorem head_collapseWhitespace_true (cs : List Char) :
    ∀ x ∈ (collapseWhitespace true cs).head?, isJsWhitespace x = false := by
  induction cs with
  | nil => simp [collapseWhitespace]
  | cons c t ih =>
    by_cases hc : isJsWhitespace c = true
    · simpa [collapseWhitespace, hc] using ih
    · simp [collapseWhitespace, hc]

theorem chain_collapseWhitespace (inRun : Bool) (cs : List Char) :
    List.Chain' (fun a b : Char => ¬(a = ' ' ∧ b = ' ')) (collapseWhitespace inRun cs) := by
  induction cs generalizing inRun with
  | nil => simp [collapseWhitespace]
  | cons c t ih =>
    by_cases hc : isJsWhitespace c = true
    · cases inRun
      · simp only [collapseWhitespace, hc, if_true, Bool.false_eq_true, if_false]
        refine List.Chain'.cons' (ih true) (fun y hy => ?_)
        intro h
        have := head_collapseWhitespace_true t y hy
        rw [h.2, isJsWhitespace_space] at this
        exact Bool.noConfusion this
      · simpa [collapseWhitespace, hc] using ih true
    · simp only [collapseWhitespace, hc, Bool.false_eq_true, if_false]
      refine List.Chain'.cons' (ih false) (fun y _ h => ?_)
      rw [h.1, isJsWhitespace_space] at hc
      exact hc rfl

theorem mem_collapseWhitespace (inRun : Bool) (cs : List Char) :
    ∀ x ∈ collapseWhitespace inRun cs, x = ' ' ∨ (x ∈ cs ∧ isJsWhitespace x = false) := by
  induction cs generalizing inRun with
  | nil => simp [collapseWhitespace]
  | cons c t ih =>
    intro x hx
    by_cases hc : isJsWhitespace c = true
    · cases inRun
      · simp only [collapseWhitespace, hc, if_true, Bool.false_eq_true, if_false,
          List.mem_cons] at hx
        rcases hx with rfl | hx
        · exact Or.inl rfl
        · rcases ih true x hx with h | ⟨h1, h2⟩
          · exact Or.inl h
          · exact Or.inr ⟨List.mem_cons_of_mem _ h1, h2⟩
      · simp only [collapseWhitespace, hc, if_true] at hx
        rcases ih true x hx with h | ⟨h1, h2⟩
        · exact Or.inl h
        · exact Or.inr ⟨List.mem_cons_of_mem _ h1, h2⟩
    · simp only [collapseWhitespace, hc, Bool.false_eq_true, if_false, List.mem_cons] at hx
      rcases hx with rfl | hx
      · exact Or.inr ⟨List.mem_cons_self _ _, by simpa using hc⟩
      · rcases ih false x hx with h | ⟨h1, h2⟩
        · exact Or.inl h
        · exact Or.inr ⟨List.mem_cons_of_mem _ h1, h2⟩

theorem trim_eq (cs : List Char) :
    trim cs = List.rdropWhile isJsWhitespace (List.dropWhile isJsWhitespace cs) := rfl

theorem trim_within (cs : List Char) : trim cs <:+: cs :=
  List.IsInfix.trans ( List.rdropWhile_prefix isJsWhitespace _).isInfix
    (List.dropWhile_suffix isJsWhitespace).isInfix

theorem head_trim (cs : List Char) : ∀ x ∈ (trim cs).head?, isJsWhitespace x = false := by
  intro x hx
  have hp : trim cs <+: List.dropWhile isJsWhitespace cs :=
    List.rdropWhile_prefix isJsWhitespace _
  obtain ⟨t, ht⟩ := hp
  have hne : trim cs ≠ [] := by
    intro h; rw [h] at hx; simp at hx
  have hh : (List.dropWhile isJsWhitespace cs).head? = some x := by
    rw [← ht]
    cases htc : trim cs with
    | nil => exact absurd htc hne
    | cons a l =>
      rw [htc] at hx
      simpa using hx
  have := List.head?_dropWhile_not isJsWhitespace cs
  rw [hh] at this
  simpa using this

theorem getLast_trim (cs : List Char) : ∀ x ∈ (trim cs).getLast?, isJsWhitespace x = false := by
  intro x hx
  have hne : trim cs ≠ [] := by
    intro h; rw [h] at hx; simp at hx
  rw [trim_eq] at hne hx
  have := List.rdropWhile_last_not isJsWhitespace (List.dropWhile isJsWhitespace cs) hne
  rw [List.getLast?_eq_getLast _ hne] at hx
  simp only [Option.mem_def, Option.some.injEq] at hx
  rw [hx] at this
  simpa using this

/-- C11: for every string `s`, `cleanFieldName(s)` is `s` with every character other than
word characters, whitespace and hyphens removed, then every maximal whitespace run replaced by
one space, then trimmed; the result holds only word characters, hyphens and spaces, neither
starts nor ends with a space, and has no two adjacent spaces. -/
theorem cleanFieldName_spec (s : String) :
    cleanFieldName (.str s) = .ok (cleanFieldNameSpec s) ∧
    (∀ c ∈ (cleanFieldNameSpec s).data, isWordChar c = true ∨ c = '-' ∨ c = ' ') ∧
    (cleanFieldNameSpec s).data.head? ≠ some ' ' ∧
    (cleanFieldNameSpec s).data.getLast? ≠ some ' ' ∧
    List.Chain' (fun a b : Char => ¬(a = ' ' ∧ b = ' ')) (cleanFieldNameSpec s).data := by
  have heq : cleanFieldNameText s = cleanFieldNameSpec s := by
    simp only [cleanFieldNameText, cleanFieldNameSpec, trim_eq, stripSpecial,
      (collapseWhitespace_eq_collapseRuns _).1]
  have hdata : (cleanFieldNameSpec s).data =
      trim (collapseWhitespace false (stripSpecial s.data)) := by
    rw [← heq]; rfl
  refine ⟨by simp [cleanFieldName, heq], ?_, ?_, ?_, ?_⟩
  · intro c hc
    rw [hdata] at hc
    have hmem := (trim_within _).subset hc
    rcases mem_collapseWhitespace false _ c hmem with h | ⟨h1, h2⟩
    · exact Or.inr (Or.inr h)
    · simp only [stripSpecial, List.mem_filter, Bool.or_eq_true, beq_iff_eq] at h1
      rcases h1.2 with (h | h) | h
      · exact Or.inl h
      · rw [h2] at h; exact Bool.noConfusion h
      · exact Or.inr (Or.inl h)
  · rw [hdata]
    intro h
    have := head_trim (collapseWhitespace false (stripSpecial s.data)) ' ' (by simp [h])
    rw [isJsWhitespace_space] at this
    exact Bool.noConfusion this
  · rw [hdata]
    intro h
    have := getLast_trim (collapseWhitespace false (stripSpecial s.data)) ' ' (by simp [h])
    rw [isJsWhitespace_space] at this
    exact Bool.noConfusion this
  · rw [hdata]
    exact List.Chain'.infix (chain_collapseWhitespace false _) (trim_within _)

/-! ## C12: the REST projection and the copy of additional keys -/

theorem lookup_restCore (apiData userProfile id : JSVal) :
    ∀ c ∈ restCoreFields,
      Props.lookup c.1 (("id", id) :: restCoreFields.map (fun c =>
        (c.1, ((userProfile.getOpt c.2.1).or (apiData.getOpt c.2.2)).or .null))) =
      some (((userProfile.getOpt c.2.1).or (apiData.getOpt c.2.2)).or .null) := by
  intro c hc
  simp only [restCoreFields, List.mem_cons, List.mem_singleton, List.not_mem_nil,
    or_false] at hc
  rcases hc with rfl | rfl | rfl | rfl | rfl | rfl | rfl | rfl <;>
    simp [restCoreFields, Props.lookup]

/-- The REST branch on a truthy payload: the projection, then the copy loop where `userProfile`
is truthy. -/
theorem processApiResponse_rest_run (apiData : JSVal) (ht : apiData.truthy = true) :
    processApiResponse apiData (.str "REST") =
      if (apiData.getOpt "userProfile").truthy then
        copyAdditional (apiData.getOpt "userProfile") (objectKeys (apiData.getOpt "userProfile"))
          (("id", ((apiData.getOpt "userId").or (apiData.getOpt "id")).or .null) ::
            restCoreFields.map (fun c => (c.1,
              (((apiData.getOpt "userProfile").getOpt c.2.1).or
                (apiData.getOpt c.2.2)).or .null)))
      else
        .ok (("id", ((apiData.getOpt "userId").or (apiData.getOpt "id")).or .null) ::
            restCoreFields.map (fun c => (c.1,
              (((apiData.getOpt "userProfile").getOpt c.2.1).or
                (apiData.getOpt c.2.2)).or .null))) := by
  have hnn := JSVal.not_nullish_of_truthy ht
  have hstrict : (JSVal.str "REST").strictEqStr "GraphQL" = false := by decide
  have hstrict' : (JSVal.str "REST").strictEqStr "REST" = true := by decide
  simp only [processApiResponse, hstrict, hstrict', ht, Bool.false_and, Bool.and_self,
    Bool.false_eq_true, if_false, if_true, JSVal.get_of_not_nullish hnn,
    projectRest_core apiData _ hnn, bind, Except.bind, pure, Except.pure]

/-- C12: for every truthy REST payload, each projected core field of the record that
`processApiResponse` returns (`firstName`, `lastName`, `jobTitle`, `email` from the same-named
key of `userProfile`; `organization`, `websiteUrl`, `mobilePhone`, `photoUrl` from `company`,
`website`, `phone`, `avatar`) equals the `userProfile` value whenever that value is truthy,
whatever the top-level field holds; the copy of the additional scalar keys of `userProfile`
never changes the value of a key that the record already has; and the record is returned
whenever `userProfile` has no key `hasOwnProperty`. -/
theorem processApiResponse_rest_nested (apiData : JSVal) (ht : apiData.truthy = true) :
    restCoreFields =
      [("firstName", "firstName", "firstName"), ("lastName", "lastName", "lastName"),
       ("jobTitle", "jobTitle", "jobTitle"), ("organization", "company", "organization"),
       ("email", "email", "email"), ("websiteUrl", "website", "websiteUrl"),
       ("mobilePhone", "phone", "mobilePhone"), ("photoUrl", "avatar", "photoUrl")] ∧
    (∀ r, processApiResponse apiData (.str "REST") = .ok r →
      ∀ c ∈ restCoreFields, ((apiData.getOpt "userProfile").getOpt c.2.1).truthy = true →
        Props.lookup c.1 r = some ((apiData.getOpt "userProfile").getOpt c.2.1)) ∧
    (∀ userProfile keys projected r, copyAdditional userProfile keys projected = .ok r →
      ∀ k v, Props.lookup k projected = some v → Props.lookup k r = some v) ∧
    ("hasOwnProperty" ∉ objectKeys (apiData.getOpt "userProfile") →
      ∃ r, processApiResponse apiData (.str "REST") = .ok r) := by
  refine ⟨rfl, fun r hr c hc hnested => ?_, copyAdditional_keeps, fun hkeys => ?_⟩
  · rw [processApiResponse_rest_run apiData ht] at hr
    have hcore := lookup_restCore apiData (apiData.getOpt "userProfile")
      (((apiData.getOpt "userId").or (apiData.getOpt "id")).or .null) c hc
    have hval : (((apiData.getOpt "userProfile").getOpt c.2.1).or (apiData.getOpt c.2.2)).or
        .null = (apiData.getOpt "userProfile").getOpt c.2.1 := by
      simp [JSVal.or, hnested]
    rw [hval] at hcore
    split at hr
    · exact copyAdditional_keeps _ _ _ _ hr _ _ hcore
    · cases hr
      exact hcore
  · rw [processApiResponse_rest_run apiData ht]
    split
    · rename_i hu
      obtain ⟨r, hrun, _⟩ := copyAdditional_ok (apiData.getOpt "userProfile") hu _ hkeys
        (("id", ((apiData.getOpt "userId").or (apiData.getOpt "id")).or .null) ::
          restCoreFields.map (fun c => (c.1,
            (((apiData.getOpt "userProfile").getOpt c.2.1).or (apiData.getOpt c.2.2)).or .null)))
        (by simp [restCoreFields, Props.lookup])
      exact ⟨r, hrun⟩
    · exact ⟨_, rfl⟩

/-- C12, at a payload whose `userProfile` and top level both give a first name and a company,
and whose `userProfile` has the additional scalar key `city`. -/
theorem processApiResponse_rest_nested_witness :
    ∃ r, processApiResponse
        (.obj [("firstName", .str "Flat"), ("organization", .str "FlatCo"),
               ("userProfile", .obj [("firstName", .str "Ann"), ("company", .str "Acme"),
                 ("city", .str "Rome")])])
        (.str "REST") = .ok r ∧
      Props.lookup "firstName" r = some (.str "Ann") ∧
      Props.lookup "organization" r = some (.str "Acme") := by
  have h := processApiResponse_rest_nested
    (.obj [("firstName", .str "Flat"), ("organization", .str "FlatCo"),
           ("userProfile", .obj [("firstName", .str "Ann"), ("company", .str "Acme"),
             ("city", .str "Rome")])]) rfl
  obtain ⟨r, hr⟩ := h.2.2.2 (by decide)
  exact ⟨r, hr, h.2.1 r hr ("firstName", "firstName", "firstName") (by decide) rfl,
    h.2.1 r hr ("organization", "company", "organization") (by decide) rfl⟩

/-! ## The retries of `scrapeProfile` -/

theorem scrapeProfile_success (s : UniversalProfileScraper) (now : Int) (profileData : JSVal)
    (attempt : Attempt) (rest : List Attempt) (retryCount : Nat) (cleanedData : Props)
    (h : attemptVerdict s.apiConfig attempt = .success cleanedData) :
    scrapeProfile s now profileData (attempt :: rest) retryCount =
      some ⟨successResult cleanedData now s.currentIndex, 1, [], rest⟩ := by
  simp [scrapeProfile, h]

/-- A failed attempt with a retry left: the sleep, then the call with the next count. -/
theorem scrapeProfile_retry (s : UniversalProfileScraper) (now : Int) (profileData : JSVal)
    (attempt : Attempt) (rest : List Attempt) (retryCount : Nat)
    (h : (attemptVerdict s.apiConfig attempt).isSuccess = false)
    (hk : retryCount < s.maxRetries) :
    scrapeProfile s now profileData (attempt :: rest) retryCount =
      (scrapeProfile s now profileData rest (retryCount + 1)).map
        (ScrapeRun.after ((attemptVerdict s.apiConfig attempt).retryDelay s)) := by
  cases hv : attemptVerdict s.apiConfig attempt with
  | success c => simp [hv, Verdict.isSuccess] at h
  | rateLimited m => simp [scrapeProfile, hv, hk, Verdict.retryDelay]
  | failed m => simp [scrapeProfile, hv, hk, Verdict.retryDelay]

/-- A failed attempt with no retry left: the terminal-error result. -/
theorem scrapeProfile_exhausted (s : UniversalProfileScraper) (now : Int) (profileData : JSVal)
    (attempt : Attempt) (rest : List Attempt) (retryCount : Nat)
    (h : (attemptVerdict s.apiConfig attempt).isSuccess = false)
    (hk : ¬ retryCount < s.maxRetries) :
    scrapeProfile s now profileData (attempt :: rest) retryCount =
      some ⟨errorResult profileData (attemptVerdict s.apiConfig attempt).message now
        s.currentIndex, 1, [], rest⟩ := by
  cases hv : attemptVerdict s.apiConfig attempt with
  | success c => simp [hv, Verdict.isSuccess] at h
  | rateLimited m => simp [scrapeProfile, hv, hk, Verdict.message]
  | failed m => simp [scrapeProfile, hv, hk, Verdict.message]

/-- Failed attempts within the budget are all retried. -/
theorem scrapeProfile_failures (s : UniversalProfileScraper) (now : Int) (profileData : JSVal)
    (fails rest : List Attempt) (retryCount : Nat)
    (hf : ∀ f ∈ fails, (attemptVerdict s.apiConfig f).isSuccess = false)
    (hk : retryCount + fails.length ≤ s.maxRetries) :
    scrapeProfile s now profileData (fails ++ rest) retryCount =
      (scrapeProfile s now profileData rest (retryCount + fails.length)).map (fun run =>
        { run with
          attempts := run.attempts + fails.length
          sleeps := fails.map (fun f => (attemptVerdict s.apiConfig f).retryDelay s) ++
            run.sleeps }) := by
  induction fails generalizing retryCount with
  | nil =>
    simp only [List.nil_append, List.length_nil, Nat.add_zero, List.map_nil]
    cases scrapeProfile s now profileData rest retryCount <;> rfl
  | cons f fs ih =>
    have hlen : retryCount + 1 + fs.length ≤ s.maxRetries := by
      simp only [List.length_cons] at hk; omega
    rw [List.cons_append, scrapeProfile_retry s now profileData f _ retryCount
      (hf f (List.mem_cons_self _ _)) (by simp only [List.length_cons] at hk; omega),
      ih (retryCount + 1) (fun g hg => hf g (List.mem_cons_of_mem _ hg)) hlen]
    have hidx : retryCount + 1 + fs.length = retryCount + (f :: fs).length := by
      simp only [List.length_cons]; omega
    rw [hidx]
    cases scrapeProfile s now profileData rest (retryCount + (f :: fs).length) with
    | none => rfl
    | some run =>
      simp only [Option.map_some', ScrapeRun.after, List.length_cons, List.map_cons,
        List.cons_append, Option.some.injEq]
      congr 1

/-! ## C13: success within the retry budget -/

/-- C13 (counterexample): with `maxRetries = 2`, HTTP 429 twice and then a success on the
third attempt whose REST payload has the scalar keys `inputData` and `error` in `userProfile`:
`scrapeProfile` makes three attempts and resolves with the flattened record plus `timestamp`
and `index`, and that result has both an `inputData` and an `error` field, the copied
columns. -/
theorem scrapeProfile_success_with_error_column :
    (scrapeProfile (UniversalProfileScraper.constructor ⟨none, .undefined, .undefined⟩)
        1700000000000 (.obj [("profileId", .str "b")])
        [rateLimitedAttempt, rateLimitedAttempt,
         successAttempt (.obj [("userId", .num 7),
           ("userProfile", .obj [("firstName", .str "Ada"), ("inputData", .str "form"),
             ("error", .str "bounced")])])]
        0).map (fun run => (run.attempts, run.sleeps, run.result)) =
      some (3, [5000, 5000],
        .obj [("id", .num 7), ("firstName", .str "Ada"), ("lastName", .null),
          ("jobTitle", .null), ("organization", .null), ("email", .null),
          ("websiteUrl", .null), ("mobilePhone", .null), ("photoUrl", .null),
          ("inputData", .str "form"), ("error", .str "bounced"),
          ("timestamp", .num 1700000000000), ("index", .num 0)]) := by
  rfl

/-- C13 (amended): for every `maxRetries` and every script of attempts in which the first `k`
attempts (`k <= maxRetries`) each end with a rate-limit signal or another error and the next
attempt succeeds, `scrapeProfile` makes exactly `k + 1` attempts and resolves with the
success-shaped result: the flattened record with `timestamp` and `index`.  That result has an
`error` or `inputData` field only if the flattened record itself has such a column. -/
theorem scrapeProfile_success_after_failures (s : UniversalProfileScraper) (now : Int)
    (profileData : JSVal) (fails : List Attempt) (attempt : Attempt) (rest : List Attempt)
    (cleanedData : Props) (hk : fails.length ≤ s.maxRetries)
    (hf : ∀ f ∈ fails, (attemptVerdict s.apiConfig f).isSuccess = false)
    (ha : attemptVerdict s.apiConfig attempt = .success cleanedData) :
    ∃ run, scrapeProfile s now profileData (fails ++ attempt :: rest) 0 = some run ∧
      run.attempts = fails.length + 1 ∧
      run.rest = rest ∧
      run.sleeps = fails.map (fun f => (attemptVerdict s.apiConfig f).retryDelay s) ∧
      run.result = successResult cleanedData now s.currentIndex ∧
      run.result.getOpt "index" = .num s.currentIndex ∧
      run.result.getOpt "timestamp" = .num now ∧
      (Props.lookup "error" cleanedData = none → run.result.getOpt "error" = .undefined) ∧
      (Props.lookup "inputData" cleanedData = none →
        run.result.getOpt "inputData" = .undefined) := by
  have hrun := scrapeProfile_failures s now profileData fails (attempt :: rest) 0 hf
    (by omega)
  rw [Nat.zero_add, scrapeProfile_success s now profileData attempt rest _ cleanedData ha]
    at hrun
  refine ⟨_, hrun, ?_, rfl, by simp, rfl, ?_, ?_, ?_, ?_⟩
  · simp [Nat.add_comm]
  · simp [successResult, JSVal.getOpt, JSVal.get, Props.lookup_define_self]
  · simp [successResult, JSVal.getOpt, JSVal.get, Props.lookup_define]
  · intro hnone
    simp [successResult, JSVal.getOpt, JSVal.get, Props.lookup_define, hnone,
      objectPrototypeGet, objectPrototypeNames]
  · intro hnone
    simp [successResult, JSVal.getOpt, JSVal.get, Props.lookup_define, hnone,
      objectPrototypeGet, objectPrototypeNames]

/-- C13 (amended), with `maxRetries = 2`: HTTP 429 twice, then a success on the third
attempt, whose payload has no `error` column. -/
theorem scrapeProfile_success_after_failures_witness :
    ∃ run, scrapeProfile
        (UniversalProfileScraper.constructor ⟨none, .undefined, .undefined⟩) 1700000000000
        (.obj [("profileId", .str "b")])
        ([rateLimitedAttempt, rateLimitedAttempt] ++
          successAttempt (.obj [("userId", .num 7)]) :: []) 0 = some run ∧
      run.attempts = 3 ∧ run.sleeps = [5000, 5000] ∧
      run.result.getOpt "error" = .undefined := by
  obtain ⟨run, hrun, hattempts, _, hsleeps, _, _, _, herror, _⟩ :=
    scrapeProfile_success_after_failures
      (UniversalProfileScraper.constructor ⟨none, .undefined, .undefined⟩) 1700000000000
      (.obj [("profileId", .str "b")]) [rateLimitedAttempt, rateLimitedAttempt]
      (successAttempt (.obj [("userId", .num 7)])) []
      [("id", .num 7), ("firstName", .null), ("lastName", .null), ("jobTitle", .null),
       ("organization", .null), ("email", .null), ("websiteUrl", .null),
       ("mobilePhone", .null), ("photoUrl", .null)]
      (by decide)
      (by intro f hf
          simp only [List.mem_cons, List.mem_singleton, List.not_mem_nil, or_false,
            or_self] at hf
          subst hf
          rfl)
      rfl
  exact ⟨run, hrun, hattempts, hsleeps, herror rfl⟩

/-! ## C14: the retry budget is used up -/

/-- As many failed attempts as the budget allows, plus one: the terminal-error result, with
the message of the last failure. -/
theorem scrapeProfile_all_fail (s : UniversalProfileScraper) (now : Int) (profileData : JSVal)
    (fails rest : List Attempt) (hlen : fails.length = s.maxRetries + 1)
    (hf : ∀ f ∈ fails, (attemptVerdict s.apiConfig f).isSuccess = false) :
    ∃ last, fails.getLast? = some last ∧
      scrapeProfile s now profileData (fails ++ rest) 0 =
        some ⟨errorResult profileData (attemptVerdict s.apiConfig last).message now
            s.currentIndex,
          s.maxRetries + 1,
          fails.dropLast.map (fun f => (attemptVerdict s.apiConfig f).retryDelay s), rest⟩ := by
  have hne : fails ≠ [] := by
    intro h; rw [h] at hlen; simp at hlen
  refine ⟨fails.getLast hne, List.getLast?_eq_getLast _ hne, ?_⟩
  have hsplit : fails = fails.dropLast ++ [fails.getLast hne] :=
    (List.dropLast_append_getLast hne).symm
  have hdl : fails.dropLast.length = s.maxRetries := by
    rw [List.length_dropLast, hlen]; rfl
  have hrun := scrapeProfile_failures s now profileData fails.dropLast
    (fails.getLast hne :: rest) 0
    (fun f hm => hf f (List.mem_of_mem_dropLast hm)) (by omega)
  rw [Nat.zero_add, hdl, scrapeProfile_exhausted s now profileData _ rest s.maxRetries
    (hf _ (List.getLast_mem hne)) (Nat.lt_irrefl _)] at hrun
  have happ : fails ++ rest = fails.dropLast ++ fails.getLast hne :: rest := by
    conv_lhs => rw [hsplit]
    simp
  rw [happ, hrun]
  simp [Nat.add_comm]

theorem mainLoop_unroll (clock : Nat → Int) (fuel : Nat) (s : UniversalProfileScraper)
    (attempts : List Attempt) (run : ScrapeRun) (hc : loopCondition s = true)
    (hrun : scrapeProfile s (clock s.currentIndex) (currentProfile s) attempts 0 = some run) :
    mainLoop clock (fuel + 1) s attempts = mainLoop clock fuel (advance s run.result) run.rest := by
  simp [mainLoop, hc, hrun]

theorem advance_results (s : UniversalProfileScraper) (r : JSVal) :
    (advance s r).results = s.results ++ [r] ∧ (advance s r).currentIndex = s.currentIndex + 1 ∧
    (advance s r).profileData = s.profileData ∧ (advance s r).isRunning = s.isRunning ∧
    (advance s r).isPaused = s.isPaused ∧ (advance s r).maxRetries = s.maxRetries ∧
    (advance s r).apiConfig = s.apiConfig := by
  unfold advance
  simp only [pushResult]
  split <;> simp [saveState]

/-- C14: for every `maxRetries` and every item whose first `maxRetries + 1` attempts all fail,
in any mix of rate-limit signals and other errors, `scrapeProfile` makes exactly
`maxRetries + 1` attempts and resolves (it does not throw) with a result whose `error` is set
and whose `inputData` is the person record; the loop appends that result, increments
`currentIndex` and goes on with the remaining iterations from there. -/
theorem scrapeProfile_terminal_error (s : UniversalProfileScraper) (now : Int)
    (profileData : JSVal) (fails rest : List Attempt)
    (hlen : fails.length = s.maxRetries + 1)
    (hf : ∀ f ∈ fails, (attemptVerdict s.apiConfig f).isSuccess = false) :
    ∃ run message, scrapeProfile s now profileData (fails ++ rest) 0 = some run ∧
      run.attempts = s.maxRetries + 1 ∧
      run.rest = rest ∧
      run.result = errorResult profileData message now s.currentIndex ∧
      run.result.getOpt "error" = .str message ∧
      run.result.getOpt "inputData" = profileData ∧
      (advance s run.result).results = s.results ++ [run.result] ∧
      (advance s run.result).currentIndex = s.currentIndex + 1 ∧
      (∀ clock fuel, loopCondition s = true → profileData = currentProfile s →
        now = clock s.currentIndex →
        mainLoop clock (fuel + 1) s (fails ++ rest) =
          mainLoop clock fuel (advance s run.result) rest) := by
  obtain ⟨last, _, hrun⟩ := scrapeProfile_all_fail s now profileData fails rest hlen hf
  refine ⟨_, _, hrun, rfl, rfl, rfl, rfl, rfl, (advance_results s _).1, (advance_results s _).2.1,
    ?_⟩
  intro clock fuel hc hp hn
  subst hp; subst hn
  exact mainLoop_unroll clock fuel s _ _ hc hrun

/-- C14, with `maxRetries = 2`: a rate-limit signal, a rejected call and an HTTP error. -/
theorem scrapeProfile_terminal_error_witness :
    ∃ run message, scrapeProfile
        (UniversalProfileScraper.constructor ⟨none, .undefined, .undefined⟩) 1700000000000
        (.obj [("profileId", .str "b")])
        ([rateLimitedAttempt, .rejected "Could not establish connection",
          .injected (.obj [("result", .obj [("success", .bool false),
            ("error", .str "HTTP_500")])])] ++ [successAttempt (.obj [])]) 0 = some run ∧
      run.attempts = 3 ∧
      run.rest = [successAttempt (.obj [])] ∧
      run.result.getOpt "error" = .str message ∧
      run.result.getOpt "inputData" = .obj [("profileId", .str "b")] := by
  obtain ⟨run, message, hrun, hattempts, hrest, _, herror, hinput, _⟩ :=
    scrapeProfile_terminal_error
      (UniversalProfileScraper.constructor ⟨none, .undefined, .undefined⟩) 1700000000000
      (.obj [("profileId", .str "b")])
      [rateLimitedAttempt, .rejected "Could not establish connection",
        .injected (.obj [("result", .obj [("success", .bool false),
          ("error", .str "HTTP_500")])])]
      [successAttempt (.obj [])] rfl
      (by intro f hf
          simp only [List.mem_cons, List.mem_singleton, List.not_mem_nil, or_false] at hf
          rcases hf with rfl | rfl | rfl <;> rfl)
  exact ⟨run, message, hrun, hattempts, hrest, herror, hinput⟩

/-! ## C15: an invalid response structure -/

/-- C15 (counterexample): with the constructor's `maxRetries = 2`, an item whose transport call
keeps resolving with `{success: false, error: 'Invalid response structure'}` is attempted
three times, with two sleeps of 2000 ms, before the terminal error is recorded. -/
theorem scrapeProfile_invalid_response_retried :
    scrapeProfile (UniversalProfileScraper.constructor ⟨none, .undefined, .undefined⟩)
        1700000000000 (.obj [("profileId", .str "b")])
        [invalidResponseAttempt, invalidResponseAttempt, invalidResponseAttempt] 0 =
      some ⟨errorResult (.obj [("profileId", .str "b")]) "Invalid response structure"
        1700000000000 0, 3, [2000, 2000], []⟩ := by
  rfl

theorem attemptVerdict_invalidResponse (apiConfig : JSVal) (targetDomain : String)
    (h : toStr (apiConfig.getOpt "targetDomain") = .ok targetDomain) :
    attemptVerdict apiConfig invalidResponseAttempt = .failed "Invalid response structure" := by
  simp only [attemptVerdict, h, invalidResponseAttempt]
  rfl

/-- C15 (amended): when the transport call for an item keeps resolving with
`{success: false, error: 'Invalid response structure'}`, `scrapeProfile` treats it like any
other error that is not a rate-limit signal: it retries after 2000 ms while retries are left,
and records the terminal per-item error after `maxRetries + 1` attempts - after the single
attempt only when `maxRetries = 0`. -/
theorem scrapeProfile_invalid_response (s : UniversalProfileScraper) (now : Int)
    (profileData : JSVal) (rest : List Attempt) (targetDomain : String)
    (h : toStr (s.apiConfig.getOpt "targetDomain") = .ok targetDomain) :
    scrapeProfile s now profileData
        (List.replicate (s.maxRetries + 1) invalidResponseAttempt ++ rest) 0 =
      some ⟨errorResult profileData "Invalid response structure" now s.currentIndex,
        s.maxRetries + 1, List.replicate s.maxRetries 2000, rest⟩ := by
  have hv := attemptVerdict_invalidResponse s.apiConfig targetDomain h
  obtain ⟨last, hlast, hrun⟩ := scrapeProfile_all_fail s now profileData
    (List.replicate (s.maxRetries + 1) invalidResponseAttempt) rest (by simp)
    (by intro f hf
        rw [List.eq_of_mem_replicate hf, hv]
        rfl)
  have hl : last = invalidResponseAttempt := by
    have := List.mem_of_getLast?_eq_some hlast
    exact List.eq_of_mem_replicate this
  rw [hrun, hl, hv]
  have hsleeps : (List.replicate (s.maxRetries + 1) invalidResponseAttempt).dropLast.map
      (fun f => (attemptVerdict s.apiConfig f).retryDelay s) =
      List.replicate s.maxRetries 2000 := by
    rw [List.dropLast_eq_take, List.length_replicate, List.take_replicate]
    simp [hv, Verdict.retryDelay]
  rw [hsleeps]
  rfl

/-- C15 (amended), for the constructor's configuration. -/
theorem scrapeProfile_invalid_response_witness :
    scrapeProfile (UniversalProfileScraper.constructor ⟨none, .undefined, .undefined⟩)
        1700000000000 (.obj [("profileId", .str "b")])
        (List.replicate (2 + 1) invalidResponseAttempt ++ []) 0 =
      some ⟨errorResult (.obj [("profileId", .str "b")]) "Invalid response structure"
        1700000000000 0, 2 + 1, List.replicate 2 2000, []⟩ :=
  scrapeProfile_invalid_response
    (UniversalProfileScraper.constructor ⟨none, .undefined, .undefined⟩) 1700000000000
    (.obj [("profileId", .str "b")]) [] "sbcconnect.com" rfl

/-! ## C20: `loadProfileData` -/

/-- C20: for every input that is neither an array nor an object whose `profiles` property is
an array, `loadProfileData` throws and leaves the instance and the storage exactly as they
were; for every accepted input it does not throw, sets `profileData` to the supplied list,
`currentIndex` to 0 and `results` to the empty list, and saves that state. -/
theorem loadProfileData_spec (data : JSVal) (s : UniversalProfileScraper) :
    (isAcceptedProfileInput data = false → ∃ e, loadProfileData data s = (s, some e)) ∧
    (isAcceptedProfileInput data = true →
      (loadProfileData data s).2 = none ∧
      (loadProfileData data s).1.profileData = suppliedProfiles data ∧
      (loadProfileData data s).1.currentIndex = 0 ∧
      (loadProfileData data s).1.results = [] ∧
      (loadProfileData data s).1.storage.run = some ⟨suppliedProfiles data, 0, []⟩ ∧
      (loadProfileData data s).1.isRunning = s.isRunning ∧
      (loadProfileData data s).1.isPaused = s.isPaused) := by
  constructor
  · intro h
    cases data with
    | arr xs => simp [isAcceptedProfileInput] at h
    | obj ps =>
      simp only [isAcceptedProfileInput] at h
      simp only [loadProfileData, JSVal.get]
      cases hl : Props.lookup "profiles" ps with
      | none => exact ⟨_, rfl⟩
      | some v =>
        cases v with
        | arr ys => simp [hl] at h
        | _ => exact ⟨_, rfl⟩
    | undefined => exact ⟨_, rfl⟩
    | null => exact ⟨_, rfl⟩
    | bool b => exact ⟨_, rfl⟩
    | num n => exact ⟨_, rfl⟩
    | native n =>
      simp only [loadProfileData, JSVal.get]
      exact ⟨_, rfl⟩
    | str t =>
      simp only [loadProfileData, JSVal.get]
      have hp : arrayIndex "profiles" = none := by decide
      simp only [hp]
      exact ⟨_, rfl⟩
  · intro h
    cases data with
    | arr xs => simp [loadProfileData, suppliedProfiles, saveState]
    | obj ps =>
      simp only [isAcceptedProfileInput] at h
      cases hl : Props.lookup "profiles" ps with
      | none => simp [hl] at h
      | some v =>
        cases v with
        | arr ys => simp [loadProfileData, suppliedProfiles, saveState, JSVal.get, hl]
        | _ => simp [hl] at h
    | _ => simp [isAcceptedProfileInput] at h

/-- C20, at the rejected input `{profiles: 'a,b'}` and the accepted input
`{profiles: [{profileId: 'a'}]}`. -/
theorem loadProfileData_spec_witness :
    (∃ e, loadProfileData (.obj [("profiles", .str "a,b")])
        (UniversalProfileScraper.constructor ⟨none, .undefined, .undefined⟩) =
      (UniversalProfileScraper.constructor ⟨none, .undefined, .undefined⟩, some e)) ∧
    (loadProfileData (.obj [("profiles", .arr [.obj [("profileId", .str "a")]])])
        (UniversalProfileScraper.constructor ⟨none, .undefined, .undefined⟩)).1.profileData =
      [.obj [("profileId", .str "a")]] :=
  ⟨(loadProfileData_spec (.obj [("profiles", .str "a,b")])
      (UniversalProfileScraper.constructor ⟨none, .undefined, .undefined⟩)).1 rfl,
   ((loadProfileData_spec (.obj [("profiles", .arr [.obj [("profileId", .str "a")]])])
      (UniversalProfileScraper.constructor ⟨none, .undefined, .undefined⟩)).2 rfl).2.1⟩

/-! ## C16: the predicate of the run state -/

theorem runInvariant_advance (s : UniversalProfileScraper) (r : JSVal) (h : runInvariant s)
    (hc : loopCondition s = true) : runInvariant (advance s r) := by
  obtain ⟨h1, h2, h3, _⟩ := advance_results s r
  simp only [loopCondition, Bool.and_eq_true, decide_eq_true_eq] at hc
  refine ⟨?_, ?_⟩
  · rw [h1, h2, h.1]; simp
  · rw [h2, h3]; exact hc.1.1

theorem storedInvariant_saveState (s : UniversalProfileScraper) (h : runInvariant s) :
    storedInvariant (saveState s).storage := by
  intro snap hs
  simp only [saveState, Option.some.injEq] at hs
  subst hs
  exact h

theorem runInvariant_saveState (s : UniversalProfileScraper) :
    runInvariant (saveState s) ↔ runInvariant s := Iff.rfl

theorem storedInvariant_advance (s : UniversalProfileScraper) (r : JSVal) (h : runInvariant s)
    (hc : loopCondition s = true) (hs : storedInvariant s.storage) :
    storedInvariant (advance s r).storage := by
  have hinv := runInvariant_advance s r h hc
  unfold advance at hinv ⊢
  simp only at hinv ⊢
  split
  · rename_i hb
    rw [if_pos hb] at hinv
    exact storedInvariant_saveState _ hinv
  · exact hs

theorem runInvariant_initializeState (s : UniversalProfileScraper)
    (hs : storedInvariant s.storage) :
    runInvariant (initializeState s) ∧ (initializeState s).storage = s.storage := by
  refine ⟨?_, rfl⟩
  unfold runInvariant initializeState
  cases hrun : s.storage.run with
  | none => simp
  | some snap => simpa using hs snap hrun

/-- The uninterrupted loop keeps the invariant, of the instance and of the stored snapshot. -/
theorem mainLoop_invariant (clock : Nat → Int) (fuel : Nat) (s : UniversalProfileScraper)
    (attempts : List Attempt) (s' : UniversalProfileScraper) (rest : List Attempt)
    (h : runInvariant s) (hs : storedInvariant s.storage)
    (hrun : mainLoop clock fuel s attempts = some (s', rest)) :
    runInvariant s' ∧ storedInvariant s'.storage := by
  induction fuel generalizing s attempts with
  | zero =>
    simp only [mainLoop] at hrun
    split at hrun
    · exact Option.noConfusion hrun
    · simp only [Option.some.injEq, Prod.mk.injEq] at hrun
      rw [← hrun.1]
      exact ⟨h, hs⟩
  | succ fuel ih =>
    simp only [mainLoop] at hrun
    split at hrun
    · rename_i hc
      cases hsp : scrapeProfile s (clock s.currentIndex) (currentProfile s) attempts 0 with
      | none => simp [hsp] at hrun
      | some run =>
        simp only [hsp] at hrun
        exact ih _ _ (runInvariant_advance s _ h hc) (storedInvariant_advance s _ h hc hs) hrun
    · simp only [Option.some.injEq, Prod.mk.injEq] at hrun
      rw [← hrun.1]
      exact ⟨h, hs⟩

theorem startScraping_invariant (clock : Nat → Int) (s : UniversalProfileScraper)
    (attempts : List Attempt) (s' : UniversalProfileScraper) (rest : List Attempt)
    (h : runInvariant s) (hs : storedInvariant s.storage)
    (hrun : startScraping clock s attempts = some (s', rest)) :
    runInvariant s' ∧ storedInvariant s'.storage := by
  unfold startScraping at hrun
  split at hrun
  · simp only [Option.some.injEq, Prod.mk.injEq] at hrun
    rw [← hrun.1]
    exact ⟨h, hs⟩
  · obtain ⟨hi, hst⟩ := runInvariant_initializeState s hs
    simp only at hrun
    split at hrun
    · simp only [Option.some.injEq, Prod.mk.injEq] at hrun
      rw [← hrun.1]
      exact ⟨hi, by rw [hst]; exact hs⟩
    · split at hrun
      · exact Option.noConfusion hrun
      · rename_i s2 rest2 hloop
        simp only [Option.some.injEq, Prod.mk.injEq] at hrun
        rw [← hrun.1]
        obtain ⟨h2, _⟩ := mainLoop_invariant clock _
          { initializeState s with isRunning := true, isPaused := false } attempts s2 rest2 hi
          (by rw [← hst] at hs; exact hs) hloop
        exact ⟨h2, storedInvariant_saveState s2 h2⟩

/-- Each operation taken alone, that is with no other call under way and none made during its
awaits: the predicate holds after construction and after every `loadProfileData` that does not
throw; an iteration of the loop entered with the `while` condition true preserves it, and so do
`pauseScraping`, `stopScraping` and a call of `startScraping` (which reloads the saved
snapshot: every `saveState` stores a state that satisfies the predicate). -/
theorem runInvariant_alone :
    (∀ storage, runInvariant (UniversalProfileScraper.constructor storage)) ∧
    (∀ data s, (loadProfileData data s).2 = none →
      runInvariant (loadProfileData data s).1 ∧
      storedInvariant (loadProfileData data s).1.storage) ∧
    (∀ s r, runInvariant s → loopCondition s = true →
      runInvariant (advance s r) ∧
      (advance s r).results = s.results ++ [r] ∧
      (advance s r).currentIndex = s.currentIndex + 1 ∧
      (storedInvariant s.storage → storedInvariant (advance s r).storage)) ∧
    (∀ s, runInvariant s →
      runInvariant (pauseScraping s) ∧ storedInvariant (pauseScraping s).storage) ∧
    (∀ s, runInvariant s →
      runInvariant (stopScraping s) ∧ storedInvariant (stopScraping s).storage) ∧
    (∀ clock s attempts s' rest, runInvariant s → storedInvariant s.storage →
      startScraping clock s attempts = some (s', rest) →
      runInvariant s' ∧ storedInvariant s'.storage) := by
  refine ⟨fun storage => ⟨rfl, Nat.le_refl _⟩, ?_, ?_, ?_, ?_, ?_⟩
  · intro data s hok
    have hload : ∃ (profiles : List JSVal) (s0 : UniversalProfileScraper), loadProfileData data s =
        (saveState { s0 with profileData := profiles, currentIndex := 0, results := [] },
          none) := by
      unfold loadProfileData at hok ⊢
      split
      · exact ⟨_, _, rfl⟩
      · split
        · rename_i e he
          simp [he] at hok
        · split
          · exact ⟨_, _, rfl⟩
          · rename_i hget _ hna
            simp only [hget] at hok
            exact Option.noConfusion hok
    obtain ⟨profiles, s0, hl⟩ := hload
    rw [hl]
    have hinv : runInvariant
        { s0 with profileData := profiles, currentIndex := 0, results := [] } :=
      ⟨rfl, Nat.zero_le _⟩
    exact ⟨hinv, storedInvariant_saveState _ hinv⟩
  · intro s r h hc
    exact ⟨runInvariant_advance s r h hc, (advance_results s r).1, (advance_results s r).2.1,
      storedInvariant_advance s r h hc⟩
  · intro s h
    have hinv : runInvariant { s with isPaused := true } := h
    exact ⟨hinv, storedInvariant_saveState _ hinv⟩
  · intro s h
    have hinv : runInvariant { s with isRunning := false, isPaused := false } := h
    exact ⟨hinv, storedInvariant_saveState _ hinv⟩
  · intro clock s attempts s' rest h hs hrun
    exact startScraping_invariant clock s attempts s' rest h hs hrun

/-- C16: the predicate `currentIndex == results.length` and
`currentIndex <= profileData.length` is not an invariant of the code.  The list `[a, b]` is
loaded and `startScraping` is called; `a` is done and the loop sleeps; `stopScraping` is called
and then `resumeScraping`.  Up to there the predicate holds (`currentIndex = 1`, one result,
two items), and one call is in its sleep while the call that `resumeScraping` made awaits
`initialize`.  When the storage has answered, the sleep has completed and the two requests for
`b` have ended, `currentIndex = 3` and `results.length = 3` with `profileData.length = 2`.
Each operation taken alone keeps the predicate: in the second part, `startScraping` is the
call made while no earlier call is under way. -/
theorem runInvariant_second_loop :
    ((Machine.loaded [.obj [("profileId", .str "a")], .obj [("profileId", .str "b")]]).run
      eventsStopThenResume).map (fun m => (m.runState, m.tasks.length)) =
      some ((1, 1, 2), 2) ∧
    ((Machine.loaded [.obj [("profileId", .str "a")], .obj [("profileId", .str "b")]]).run
      (eventsStopThenResume ++ eventsAfterResume)).map Machine.runState = some (3, 3, 2) ∧
    ((∀ storage, runInvariant (UniversalProfileScraper.constructor storage)) ∧
      (∀ data s, (loadProfileData data s).2 = none →
        runInvariant (loadProfileData data s).1 ∧
        storedInvariant (loadProfileData data s).1.storage) ∧
      (∀ s r, runInvariant s → loopCondition s = true →
        runInvariant (advance s r) ∧
        (advance s r).results = s.results ++ [r] ∧
        (advance s r).currentIndex = s.currentIndex + 1 ∧
        (storedInvariant s.storage → storedInvariant (advance s r).storage)) ∧
      (∀ s, runInvariant s →
        runInvariant (pauseScraping s) ∧ storedInvariant (pauseScraping s).storage) ∧
      (∀ s, runInvariant s →
        runInvariant (stopScraping s) ∧ storedInvariant (stopScraping s).storage) ∧
      (∀ clock s attempts s' rest, runInvariant s → storedInvariant s.storage →
        startScraping clock s attempts = some (s', rest) →
        runInvariant s' ∧ storedInvariant s'.storage)) :=
  ⟨rfl, rfl, runInvariant_alone⟩

/-! ## C17: the order of the results -/

/-- With enough attempts in the script for the retries that are left, `scrapeProfile` resolves,
with one of its two results, and uses no more attempts than that. -/
theorem scrapeProfile_resolves (s : UniversalProfileScraper) (now : Int) (profileData : JSVal)
    (attempts : List Attempt) (retryCount : Nat)
    (h : s.maxRetries - retryCount + 1 ≤ attempts.length) :
    ∃ run, scrapeProfile s now profileData attempts retryCount = some run ∧
      attempts.length ≤ run.rest.length + (s.maxRetries - retryCount + 1) ∧
      ((∃ cleanedData, run.result = successResult cleanedData now s.currentIndex) ∨
       (∃ message, run.result = errorResult profileData message now s.currentIndex)) := by
  induction attempts generalizing retryCount with
  | nil => simp at h
  | cons attempt rest ih =>
    simp only [List.length_cons] at h ⊢
    cases hv : attemptVerdict s.apiConfig attempt with
    | success cleanedData =>
      refine ⟨_, scrapeProfile_success s now profileData attempt rest retryCount cleanedData hv,
        by simp only; omega, Or.inl ⟨cleanedData, rfl⟩⟩
    | rateLimited message =>
      have hfail : (attemptVerdict s.apiConfig attempt).isSuccess = false := by rw [hv]; rfl
      by_cases hk : retryCount < s.maxRetries
      · obtain ⟨run, hrun, hrest, hshape⟩ := ih (retryCount + 1) (by omega)
        refine ⟨ScrapeRun.after ((attemptVerdict s.apiConfig attempt).retryDelay s) run, ?_, ?_,
          hshape⟩
        · rw [scrapeProfile_retry s now profileData attempt rest retryCount hfail hk, hrun]
          rfl
        · simp only [ScrapeRun.after]; omega
      · refine ⟨_, scrapeProfile_exhausted s now profileData attempt rest retryCount hfail hk,
          by simp only; omega, Or.inr ⟨_, rfl⟩⟩
    | failed message =>
      have hfail : (attemptVerdict s.apiConfig attempt).isSuccess = false := by rw [hv]; rfl
      by_cases hk : retryCount < s.maxRetries
      · obtain ⟨run, hrun, hrest, hshape⟩ := ih (retryCount + 1) (by omega)
        refine ⟨ScrapeRun.after ((attemptVerdict s.apiConfig attempt).retryDelay s) run, ?_, ?_,
          hshape⟩
        · rw [scrapeProfile_retry s now profileData attempt rest retryCount hfail hk, hrun]
          rfl
        · simp only [ScrapeRun.after]; omega
      · refine ⟨_, scrapeProfile_exhausted s now profileData attempt rest retryCount hfail hk,
          by simp only; omega, Or.inr ⟨_, rfl⟩⟩

theorem getOpt_index_successResult (cleanedData : Props) (now : Int) (index : Nat) :
    (successResult cleanedData now index).getOpt "index" = .num index := by
  simp [successResult, JSVal.getOpt, JSVal.get, Props.lookup_define_self]

/-- The loop that nothing interrupts runs to the end of the list: it appends one result per
remaining item, in the order of the list. -/
theorem mainLoop_complete (clock : Nat → Int) (cfg : UniversalProfileScraper) (fuel : Nat)
    (s : UniversalProfileScraper) (attempts : List Attempt)
    (hrunning : s.isRunning = true) (hpaused : s.isPaused = false)
    (hfuel : s.currentIndex + fuel = s.profileData.length)
    (hcfg : s.apiConfig = cfg.apiConfig) (hmax : s.maxRetries = cfg.maxRetries)
    (hlen : fuel * (s.maxRetries + 1) ≤ attempts.length) :
    ∃ s' rest tail, mainLoop clock fuel s attempts = some (s', rest) ∧
      s'.profileData = s.profileData ∧ s'.currentIndex = s.profileData.length ∧
      s'.results = s.results ++ tail ∧ tail.length = fuel ∧
      ∀ j profile, s.profileData.get? (s.currentIndex + j) = some profile →
        ∃ r, tail.get? j = some r ∧
          IsOutcomeOf cfg profile (s.currentIndex + j) r ∧
          IsResultFor (clock (s.currentIndex + j)) profile (s.currentIndex + j) r := by
  induction fuel generalizing s attempts with
  | zero =>
    have hc : loopCondition s = false := by
      simp only [loopCondition, Bool.and_eq_false_imp, Bool.and_eq_true, decide_eq_true_eq]
      intro h; omega
    refine ⟨s, attempts, [], by simp [mainLoop, hc], rfl, by omega, by simp, rfl, ?_⟩
    intro j profile hj
    have := List.get?_eq_some.mp hj
    obtain ⟨hlt, _⟩ := this
    omega
  | succ fuel ih =>
    have hc : loopCondition s = true := by
      simp only [loopCondition, hrunning, hpaused, Bool.and_eq_true, decide_eq_true_eq,
        Bool.not_false, and_true]
      omega
    have hmul : (fuel + 1) * (s.maxRetries + 1) = fuel * (s.maxRetries + 1) + (s.maxRetries + 1) :=
      Nat.succ_mul _ _
    obtain ⟨run, hrun, hrest, hshape⟩ := scrapeProfile_resolves s (clock s.currentIndex)
      (currentProfile s) attempts 0 (by omega)
    obtain ⟨h1, h2, h3, h4, h5, h6, h7⟩ := advance_results s run.result
    obtain ⟨s', rest, tail, hloop, hpd, hci, hres, htl, hall⟩ := ih (advance s run.result) run.rest
      (by rw [h4]; exact hrunning) (by rw [h5]; exact hpaused) (by rw [h2, h3]; omega)
      (by rw [h7]; exact hcfg) (by rw [h6]; exact hmax) (by rw [h6]; omega)
    refine ⟨s', rest, run.result :: tail, ?_, by rw [hpd, h3], by rw [hci, h3],
      by rw [hres, h1]; simp, by simp [htl], ?_⟩
    · rw [mainLoop_unroll clock fuel s attempts run hc hrun]
      exact hloop
    · intro j profile hj
      cases j with
      | zero =>
        have hp : currentProfile s = profile := by
          simp only [Nat.add_zero] at hj
          show (s.profileData.get? s.currentIndex).getD .undefined = profile
          rw [hj]
          rfl
        refine ⟨run.result, rfl, ?_, ?_⟩
        · exact ⟨s, clock s.currentIndex, attempts, run, hcfg, hmax, rfl, by rw [← hp]; exact hrun,
            rfl⟩
        · rw [← hp]
          rcases hshape with ⟨cleanedData, hr⟩ | ⟨message, hr⟩
          · exact ⟨by rw [hr]; exact getOpt_index_successResult _ _ _,
              Or.inl ⟨cleanedData, hr⟩⟩
          · exact ⟨by rw [hr]; rfl, Or.inr ⟨message, hr, by rw [hr]; rfl⟩⟩
      | succ j =>
        have hidx : s.currentIndex + (j + 1) = (advance s run.result).currentIndex + j := by
          rw [h2]; omega
        rw [hidx] at hj ⊢
        rw [← h3] at hj
        obtain ⟨r, hr, hout, hshape'⟩ := hall j profile hj
        exact ⟨r, by simpa using hr, hout, hshape'⟩

theorem loadProfileData_accepted (data : JSVal) (s : UniversalProfileScraper)
    (h : isAcceptedProfileInput data = true) :
    loadProfileData data s =
      (saveState { s with profileData := suppliedProfiles data, currentIndex := 0,
                          results := [] }, none) := by
  cases data with
  | arr xs => rfl
  | obj ps =>
    simp only [isAcceptedProfileInput] at h
    simp only [loadProfileData, JSVal.get, suppliedProfiles]
    cases hl : Props.lookup "profiles" ps with
    | none => simp [hl] at h
    | some v =>
      cases v with
      | arr ys => rfl
      | _ => simp [hl] at h
  | _ => simp [isAcceptedProfileInput] at h

/-- The run of `startScraping` on an idle instance whose stored snapshot is a fresh load. -/
theorem startScraping_loaded (clock : Nat → Int) (s1 : UniversalProfileScraper)
    (profiles : List JSVal) (attempts : List Attempt) (hidle : s1.isRunning = false)
    (hst : s1.storage.run = some ⟨profiles, 0, []⟩)
    (hlen : profiles.length * (s1.maxRetries + 1) ≤ attempts.length) :
    ∃ s' rest, startScraping clock s1 attempts = some (s', rest) ∧
      s'.profileData = profiles ∧ s'.results.length = profiles.length ∧
      s'.currentIndex = profiles.length ∧ s'.isRunning = false ∧
      ∀ i profile, profiles.get? i = some profile →
        ∃ r, s'.results.get? i = some r ∧
          IsOutcomeOf (initializeState s1) profile i r ∧ IsResultFor (clock i) profile i r := by
  have hpd : (initializeState s1).profileData = profiles := by simp [initializeState, hst]
  have hci : (initializeState s1).currentIndex = 0 := by simp [initializeState, hst]
  have hres : (initializeState s1).results = [] := by simp [initializeState, hst]
  have hidle2 : (initializeState s1).isRunning = false := hidle
  unfold startScraping
  rw [hidle]
  simp only [Bool.false_eq_true, if_false]
  have hfuel : (initializeState s1).profileData.length - (initializeState s1).currentIndex =
      profiles.length := by rw [hpd, hci]; rfl
  by_cases hn : (initializeState s1).profileData.length = 0
  · rw [if_pos hn]
    rw [hpd] at hn
    refine ⟨_, _, rfl, hpd, by rw [hres, hn]; rfl, by rw [hci, hn], hidle2, ?_⟩
    intro i profile hi
    have := (List.get?_eq_some.mp hi).1
    omega
  · rw [if_neg hn]
    obtain ⟨s', rest, tail, hloop, hpd', hci', hres', htl, hall⟩ :=
      mainLoop_complete clock (initializeState s1)
        ((initializeState s1).profileData.length - (initializeState s1).currentIndex)
        { initializeState s1 with isRunning := true, isPaused := false }
        attempts rfl rfl (by rw [hfuel]; simp only [hci, hpd, Nat.zero_add]) rfl rfl
        (by rw [hfuel]; exact hlen)
    dsimp only at hloop hpd' hci' hres' hall
    rw [hloop]
    simp only [hres, List.nil_append, hpd, hci, Nat.zero_add, hfuel] at hpd' hci' hres' hall htl
    refine ⟨_, _, rfl, hpd', ?_, hci', rfl, ?_⟩
    · show s'.results.length = _
      rw [hres']
      exact htl
    · intro i profile hi
      obtain ⟨r, hr, hout, hshape⟩ := hall i profile hi
      refine ⟨r, ?_, hout, hshape⟩
      show s'.results.get? i = some r
      rw [hres']
      exact hr

/-- The call of `startScraping` on a freshly loaded instance, with no other call under way and
none made during its awaits: for every accepted input of `loadProfileData` that supplies `n`
items and every script of transport outcomes (long enough for `maxRetries + 1` attempts per
item) it resolves with `results.length = n` and `currentIndex = n`, and for every `i < n` the
result at position `i` is what `scrapeProfile` resolved with for `profileData[i]` while
`currentIndex` was `i`. -/
theorem startScraping_alone_complete (clock : Nat → Int) (s0 : UniversalProfileScraper)
    (data : JSVal) (attempts : List Attempt)
    (hacc : isAcceptedProfileInput data = true) (hidle : s0.isRunning = false)
    (hlen : (suppliedProfiles data).length * (s0.maxRetries + 1) ≤ attempts.length) :
    ∃ s' rest, startScraping clock (loadProfileData data s0).1 attempts = some (s', rest) ∧
      s'.profileData = suppliedProfiles data ∧
      s'.results.length = (suppliedProfiles data).length ∧
      s'.currentIndex = (suppliedProfiles data).length ∧
      s'.isRunning = false ∧
      ∀ i profile, (suppliedProfiles data).get? i = some profile →
        ∃ r, s'.results.get? i = some r ∧
          IsOutcomeOf (initializeState (loadProfileData data s0).1) profile i r ∧
          IsResultFor (clock i) profile i r := by
  have hload := loadProfileData_accepted data s0 hacc
  exact startScraping_loaded clock (loadProfileData data s0).1 (suppliedProfiles data) attempts
    (by rw [hload]; exact hidle) (by rw [hload]; rfl) (by rw [hload]; exact hlen)

/-- C17: the claim fails for a run that is neither paused nor stopped.  The list `[a, b]` is
freshly loaded and `startScraping` is called twice before the storage has answered the first
call's `initialize`; every request fails three times.  When both calls have returned,
`isRunning` is false, `results.length = 2` and `currentIndex = 2`, but the result at
position 1 is a terminal error whose `inputData` is `a`, not `profileData[1] = b`: both results
are outcomes of scraping `a`, and `b` was never requested.  The second part is the run of one
call of `startScraping` with no other call under way, for which the claim holds. -/
theorem startScraping_twice_repeats_item :
    ((Machine.loaded [.obj [("profileId", .str "a")], .obj [("profileId", .str "b")]]).run
      (eventsTwoStarts ++ eventsToTheEnd)).map
      (fun m => (m.scraper.isRunning, m.scraper.currentIndex, m.scraper.profileData,
        m.scraper.results.map (fun r => (r.getOpt "inputData", r.getOpt "index")))) =
      some (false, 2, [.obj [("profileId", .str "a")], .obj [("profileId", .str "b")]],
        [(.obj [("profileId", .str "a")], .num 0), (.obj [("profileId", .str "a")], .num 1)]) ∧
    (∀ (clock : Nat → Int) (s0 : UniversalProfileScraper) (data : JSVal)
      (attempts : List Attempt), isAcceptedProfileInput data = true → s0.isRunning = false →
      (suppliedProfiles data).length * (s0.maxRetries + 1) ≤ attempts.length →
      ∃ s' rest, startScraping clock (loadProfileData data s0).1 attempts = some (s', rest) ∧
        s'.profileData = suppliedProfiles data ∧
        s'.results.length = (suppliedProfiles data).length ∧
        s'.currentIndex = (suppliedProfiles data).length ∧
        s'.isRunning = false ∧
        ∀ i profile, (suppliedProfiles data).get? i = some profile →
          ∃ r, s'.results.get? i = some r ∧
            IsOutcomeOf (initializeState (loadProfileData data s0).1) profile i r ∧
            IsResultFor (clock i) profile i r) :=
  ⟨rfl, startScraping_alone_complete⟩

/-! ## C18: a pause during the sleep -/

theorem loopCondition_of_held (m : Machine) (h : m.held) : loopCondition m.scraper = false := by
  rcases h.1 with hp | hr
  · simp [loopCondition, hp]
  · simp [loopCondition, hr]

theorem held_set (m : Machine) (s : UniversalProfileScraper) (task : Nat) (point : LoopPoint)
    (k : Nat) (h : m.held) (hs : s.isPaused = m.scraper.isPaused ∧ s.isRunning = m.scraper.isRunning)
    (hp : point.isBeforePush = false) :
    Machine.held { scraper := s, tasks := m.tasks.set task point, scrapeCalls := k } := by
  refine ⟨by rw [hs.1, hs.2]; exact h.1, ?_⟩
  intro t ht
  rcases List.mem_or_eq_of_mem_set ht with hmem | heq
  · exact h.2 t hmem
  · rw [heq]; exact hp

theorem held_atLoopHead (m : Machine) (task : Nat) (h : m.held) :
    (m.atLoopHead task).held ∧
    (m.atLoopHead task).tasks = m.tasks.set task .awaitFinalSave ∧
    (m.atLoopHead task).scraper.results = m.scraper.results ∧
    (m.atLoopHead task).scraper.currentIndex = m.scraper.currentIndex ∧
    (m.atLoopHead task).scrapeCalls = m.scrapeCalls ∧
    (m.atLoopHead task).scraper.isPaused = m.scraper.isPaused := by
  have hc := loopCondition_of_held m h
  have heq : m.atLoopHead task =
      { m with scraper := saveState m.scraper, tasks := m.tasks.set task .awaitFinalSave } := by
    unfold Machine.atLoopHead
    rw [hc]
    rfl
  rw [heq]
  exact ⟨held_set m _ task _ _ h ⟨rfl, rfl⟩ rfl, rfl, rfl, rfl, rfl, rfl⟩

theorem held_atDelay (m : Machine) (task : Nat) (h : m.held) :
    (m.atDelay task).held ∧
    (m.atDelay task).scraper.results = m.scraper.results ∧
    (m.atDelay task).scraper.currentIndex = m.scraper.currentIndex ∧
    (m.atDelay task).scrapeCalls = m.scrapeCalls ∧
    (m.atDelay task).scraper.isPaused = m.scraper.isPaused := by
  unfold Machine.atDelay
  split
  · exact ⟨held_set m _ task _ _ h ⟨rfl, rfl⟩ rfl, rfl, rfl, rfl, rfl⟩
  · obtain ⟨h1, _, h2, h3, h4, h5⟩ := held_atLoopHead m task h
    exact ⟨h1, h2, h3, h4, h5⟩

theorem held_resumeTask (m m' : Machine) (task : Nat) (now : Int) (attempts : List Attempt)
    (h : m.held) (hrun : m.resumeTask task now attempts = some m') :
    m'.held ∧ m'.scraper.results = m.scraper.results ∧
    m'.scraper.currentIndex = m.scraper.currentIndex ∧ m'.scrapeCalls = m.scrapeCalls ∧
    m'.scraper.isPaused = m.scraper.isPaused := by
  unfold Machine.resumeTask at hrun
  cases hget : m.tasks.get? task with
  | none =>
    rw [hget] at hrun
    exact Option.noConfusion hrun
  | some point =>
    have hmem : point ∈ m.tasks := List.get?_mem hget
    have hpoint := h.2 point hmem
    rw [hget] at hrun
    cases point with
    | awaitInit => exact Bool.noConfusion hpoint
    | awaitScrape p => exact Bool.noConfusion hpoint
    | awaitBatchSave =>
      have hm : m.atDelay task = m' := Option.some.inj hrun
      rw [← hm]
      exact held_atDelay m task h
    | awaitSleep =>
      have hm : m.atLoopHead task = m' := Option.some.inj hrun
      rw [← hm]
      obtain ⟨h1, _, h2, h3, h4, h5⟩ := held_atLoopHead m task h
      exact ⟨h1, h2, h3, h4, h5⟩
    | awaitFinalSave =>
      have hm : ({ m with scraper := { m.scraper with isRunning := false },
                          tasks := m.tasks.set task .awaitExport } : Machine) = m' :=
        Option.some.inj hrun
      rw [← hm]
      refine ⟨⟨Or.inr rfl, ?_⟩, rfl, rfl, rfl, rfl⟩
      intro t ht
      rcases List.mem_or_eq_of_mem_set ht with hmem | heq
      · exact h.2 t hmem
      · rw [heq]; rfl
    | awaitExport =>
      have hm : ({ m with tasks := m.tasks.set task .finished } : Machine) = m' :=
        Option.some.inj hrun
      rw [← hm]
      exact ⟨held_set m _ task _ _ h ⟨rfl, rfl⟩ rfl, rfl, rfl, rfl, rfl⟩
    | finished => exact Option.noConfusion hrun

theorem held_step (m m' : Machine) (e : Event) (h : m.held) (he : e.startsRun = false)
    (hstep : m.step e = some m') :
    m'.held ∧ m'.scraper.results = m.scraper.results ∧
    m'.scraper.currentIndex = m.scraper.currentIndex ∧ m'.scrapeCalls = m.scrapeCalls ∧
    (e.isStop = false → m.scraper.isPaused = true → m'.scraper.isPaused = true) := by
  cases e with
  | startScraping => exact Bool.noConfusion he
  | resumeScraping => exact Bool.noConfusion he
  | pauseScraping =>
    simp only [Machine.step, Option.some.injEq] at hstep
    rw [← hstep]
    exact ⟨⟨Or.inl rfl, h.2⟩, rfl, rfl, rfl, fun _ _ => rfl⟩
  | stopScraping =>
    simp only [Machine.step, Option.some.injEq] at hstep
    rw [← hstep]
    exact ⟨⟨Or.inr rfl, h.2⟩, rfl, rfl, rfl, fun hs => Bool.noConfusion hs⟩
  | completes task now attempts =>
    simp only [Machine.step] at hstep
    obtain ⟨h1, h2, h3, h4, h5⟩ := held_resumeTask m m' task now attempts h hstep
    exact ⟨h1, h2, h3, h4, fun _ hp => by rw [h5]; exact hp⟩

theorem held_run (events : List Event) (m m' : Machine) (h : m.held)
    (hev : ∀ e ∈ events, e.startsRun = false) (hrun : m.run events = some m') :
    m'.held ∧ m'.scraper.results = m.scraper.results ∧
    m'.scraper.currentIndex = m.scraper.currentIndex ∧ m'.scrapeCalls = m.scrapeCalls ∧
    ((∀ e ∈ events, e.isStop = false) → m.scraper.isPaused = true →
      m'.scraper.isPaused = true) := by
  induction events generalizing m with
  | nil =>
    simp only [Machine.run, Option.some.injEq] at hrun
    rw [← hrun]
    exact ⟨h, rfl, rfl, rfl, fun _ hp => hp⟩
  | cons e es ih =>
    simp only [Machine.run] at hrun
    cases hstep : m.step e with
    | none => simp [hstep] at hrun
    | some m1 =>
      simp only [hstep] at hrun
      obtain ⟨h1, h2, h3, h4, h5⟩ := held_step m m1 e h (hev e (List.mem_cons_self _ _)) hstep
      obtain ⟨k1, k2, k3, k4, k5⟩ := ih m1 h1
        (fun x hx => hev x (List.mem_cons_of_mem _ hx)) hrun
      refine ⟨k1, by rw [k2, h2], by rw [k3, h3], by rw [k4, h4], ?_⟩
      intro hns hp
      exact k5 (fun x hx => hns x (List.mem_cons_of_mem _ hx))
        (h5 (hns e (List.mem_cons_self _ _)) hp)

/-- The events of `eventsUntilSleep` leave the only loop in its sleep. -/
theorem run_eventsUntilSleep :
    ((Machine.loaded [.obj [("profileId", .str "a")], .obj [("profileId", .str "b")]]).run
      eventsUntilSleep).map (fun m => (m.tasks.get? 0, m.tasks.length, m.scraper.isRunning,
        m.scraper.isPaused, m.scraper.currentIndex, m.scraper.results.length, m.scrapeCalls)) =
      some (some .awaitSleep, 1, true, false, 1, 1, 1) := by
  rfl

/-- C18 (counterexample): the loop is in the sleep between the first and the second item;
`pauseScraping` is called, then `stopScraping`, and no `resumeScraping` or `startScraping`.
The state after the pause has `isPaused = true`, the state after the stop has
`isPaused = false`, and so has the state after the sleep has completed. -/
theorem pause_then_stop_clears_isPaused :
    ((Machine.loaded [.obj [("profileId", .str "a")], .obj [("profileId", .str "b")]]).run
      (eventsUntilSleep ++ [.pauseScraping])).map (fun m => m.scraper.isPaused) = some true ∧
    ((Machine.loaded [.obj [("profileId", .str "a")], .obj [("profileId", .str "b")]]).run
      (eventsUntilSleep ++ [.pauseScraping, .stopScraping])).map
        (fun m => m.scraper.isPaused) = some false ∧
    ((Machine.loaded [.obj [("profileId", .str "a")], .obj [("profileId", .str "b")]]).run
      (eventsUntilSleep ++ [.pauseScraping, .stopScraping, .completes 0 0 []])).map
        (fun m => (m.scraper.isPaused, m.scrapeCalls)) = some (false, 1) := by
  refine ⟨rfl, rfl, rfl⟩

/-- C18 (amended): a call of `startScraping` is in the sleep between two items and no call is
awaiting `initialize` or a request.  After `pauseScraping`, whatever awaits complete and
whatever calls of `pauseScraping` and `stopScraping` follow, as long as neither
`resumeScraping` nor `startScraping` is called: the completion of the sleep takes the loop to
the `saveState` after the loop, no further call of `scrapeProfile` is made, none is in flight,
and `results` and `currentIndex` stay as they were; and `isPaused` is true in every later
state as long as `stopScraping` is not called either. -/
theorem pause_during_sleep (m : Machine) (task : Nat) (events : List Event) (m' : Machine)
    (hsleep : m.tasks.get? task = some .awaitSleep)
    (hothers : ∀ t ∈ m.tasks, t.isBeforePush = false)
    (hev : ∀ e ∈ events, e.startsRun = false)
    (hrun : Machine.run { m with scraper := pauseScraping m.scraper } events = some m') :
    (∀ now attempts, ∃ m1,
      Machine.step { m with scraper := pauseScraping m.scraper } (.completes task now attempts) =
        some m1 ∧
      m1.tasks.get? task = some .awaitFinalSave ∧ m1.scrapeCalls = m.scrapeCalls) ∧
    m'.scrapeCalls = m.scrapeCalls ∧ m'.inFlight = 0 ∧
    m'.scraper.results = m.scraper.results ∧
    m'.scraper.currentIndex = m.scraper.currentIndex ∧
    ((∀ e ∈ events, e.isStop = false) → m'.scraper.isPaused = true) := by
  have hheld : Machine.held { m with scraper := pauseScraping m.scraper } :=
    ⟨Or.inl rfl, hothers⟩
  obtain ⟨h1, h2, h3, h4, h5⟩ := held_run events _ m' hheld hev hrun
  refine ⟨?_, h4, ?_, h2, h3, fun hns => h5 hns rfl⟩
  · intro now attempts
    obtain ⟨_, k2, _, _, k5, _⟩ :=
      held_atLoopHead { m with scraper := pauseScraping m.scraper } task hheld
    refine ⟨Machine.atLoopHead { m with scraper := pauseScraping m.scraper } task, ?_, ?_, k5⟩
    · simp only [Machine.step, Machine.resumeTask, hsleep]
    · rw [k2]
      have hlt : task < m.tasks.length := (List.get?_eq_some.mp hsleep).1
      simp [List.get?_eq_getElem?, hlt]
  · unfold Machine.inFlight
    rw [List.length_eq_zero, List.filter_eq_nil_iff]
    intro t ht
    have := h1.2 t ht
    cases t <;> simp_all [LoopPoint.isBeforePush]

/-- C18 (amended), for the loop that sleeps between the first and the second of two items:
the sleep completes, `pauseScraping` is called once more, the save after the loop completes. -/
theorem pause_during_sleep_witness :
    ∃ m', Machine.run { sleepingMachine with scraper := pauseScraping sleepingMachine.scraper }
        [.completes 0 0 [], .pauseScraping, .completes 0 0 []] = some m' ∧
      m'.scrapeCalls = 1 ∧ m'.inFlight = 0 ∧ m'.scraper.results.length = 1 ∧
      m'.scraper.currentIndex = 1 ∧ m'.scraper.isPaused = true := by
  obtain ⟨m', hrun⟩ := Option.isSome_iff_exists.mp
    (show (Machine.run { sleepingMachine with scraper := pauseScraping sleepingMachine.scraper }
      [.completes 0 0 [], .pauseScraping, .completes 0 0 []]).isSome = true from rfl)
  obtain ⟨_, h1, h2, h3, h4, h5⟩ := pause_during_sleep sleepingMachine 0
    [.completes 0 0 [], .pauseScraping, .completes 0 0 []] m' rfl
    (by intro t ht
        simp only [sleepingMachine] at ht
        have hts : t ∈ [LoopPoint.awaitSleep] := ht
        rw [List.mem_singleton] at hts
        rw [hts]
        rfl)
    (by intro e he
        simp only [List.mem_cons, List.mem_singleton, List.not_mem_nil, or_false] at he
        rcases he with rfl | rfl | rfl <;> rfl)
    hrun
  refine ⟨m', hrun, h1, h2, by rw [h3]; rfl, h4, h5 ?_⟩
  intro e he
  simp only [List.mem_cons, List.mem_singleton, List.not_mem_nil, or_false] at he
  rcases he with rfl | rfl | rfl <;> rfl

/-! ## C19: two loops -/

/-- C19: the claim fails on two traces over a freshly loaded list of the two items `a` and
`b`.  After two calls of `startScraping` made before the first `initialize` has completed, two
calls are inside the loop and two requests for `a` are in flight; when both have answered, both
loops have appended a result for `a`, `currentIndex` is 2 and `b` is never requested.  After
`stopScraping` and `startScraping` during the sleep of the running loop, the new loop and the
old one, which finds `isRunning` true again when its sleep completes, both request `b`, and
both append: three results for two items, `currentIndex = 3`. -/
theorem startScraping_two_loops :
    ((Machine.loaded [.obj [("profileId", .str "a")], .obj [("profileId", .str "b")]]).run
      eventsTwoStarts).map Machine.summary = some (2, 2, 2, 0, []) ∧
    ((Machine.loaded [.obj [("profileId", .str "a")], .obj [("profileId", .str "b")]]).run
      (eventsTwoStarts ++ [.completes 0 1700000000000 failedRequest,
        .completes 1 1700000000001 failedRequest, .completes 0 0 []])).map Machine.summary =
      some (0, 0, 2, 2, [(.obj [("profileId", .str "a")], .num 0),
        (.obj [("profileId", .str "a")], .num 1)]) ∧
    ((Machine.loaded [.obj [("profileId", .str "a")], .obj [("profileId", .str "b")]]).run
      eventsStopThenStart).map Machine.summary =
      some (2, 2, 3, 1, [(.obj [("profileId", .str "a")], .num 0)]) ∧
    ((Machine.loaded [.obj [("profileId", .str "a")], .obj [("profileId", .str "b")]]).run
      (eventsStopThenStart ++ [.completes 1 1700000000002 failedRequest,
        .completes 0 1700000000003 failedRequest])).map Machine.summary =
      some (0, 0, 3, 3, [(.obj [("profileId", .str "a")], .num 0),
        (.obj [("profileId", .str "b")], .num 1), (.obj [("profileId", .str "b")], .num 2)]) := by
  refine ⟨rfl, rfl, rfl, rfl⟩

/-! ## C21: `updateApiConfig` -/

theorem siteConfigs_get (key : String) :
    siteConfigs.getOpt key =
      if key = "sbcconnect.com" then (siteConfigs.getOpt "sbcconnect.com")
      else if key = "event.igblive.com" then (siteConfigs.getOpt "event.igblive.com")
      else objectPrototypeGet key := by
  by_cases h1 : key = "sbcconnect.com"
  · rw [if_pos h1, h1]
  · by_cases h2 : key = "event.igblive.com"
    · rw [if_neg h1, if_pos h2, h2]
    · rw [if_neg h1, if_neg h2]
      have h1' : ¬ "sbcconnect.com" = key := fun h => h1 h.symm
      have h2' : ¬ "event.igblive.com" = key := fun h => h2 h.symm
      simp [siteConfigs, JSVal.getOpt, JSVal.get, Props.lookup, h1', h2']

theorem objectPrototypeGet_of_mem (key : String) (h : key ∈ objectPrototypeNames) :
    ∃ name, objectPrototypeGet key = .native name := by
  unfold objectPrototypeGet
  split
  · exact ⟨_, rfl⟩
  · split
    · exact ⟨_, rfl⟩
    · exact ⟨_, rfl⟩

theorem objectPrototypeGet_of_not_mem (key : String) (h : key ∉ objectPrototypeNames) :
    objectPrototypeGet key = .undefined := by
  have h1 : key ≠ "constructor" := by
    intro he; apply h; rw [he]; decide
  have h2 : key ≠ "__proto__" := by
    intro he; apply h; rw [he]; decide
  simp [objectPrototypeGet, h1, h2, h]

/-- What `this.siteConfigs[key]` selects: the keys of `mergeBase`, taken from the preset when
the read is truthy, and from the previous `apiConfig` when it is not. -/
theorem siteConfigs_base (previous : JSVal) (key : String) :
    mergeBase previous key =
      if (siteConfigs.getOpt key).truthy then spreadProps (siteConfigs.getOpt key)
      else spreadProps previous := by
  unfold mergeBase knownDomains
  by_cases h1 : key = "sbcconnect.com"
  · subst h1; rfl
  · by_cases h2 : key = "event.igblive.com"
    · subst h2; rfl
    · have hk : key ∉ ["sbcconnect.com", "event.igblive.com"] := by simp [h1, h2]
      rw [if_neg hk, siteConfigs_get, if_neg h1, if_neg h2]
      by_cases hp : key ∈ objectPrototypeNames
      · obtain ⟨name, hn⟩ := objectPrototypeGet_of_mem key hp
        rw [if_pos hp, hn]
        rfl
      · rw [if_neg hp, objectPrototypeGet_of_not_mem key hp]
        rfl

/-- The effect of `updateApiConfig` for a configuration object. -/
theorem updateApiConfig_effect (s : UniversalProfileScraper) (c : Props)
    (hc : (c.map Prod.fst).Nodup) :
    (((JSVal.obj c).getOpt "targetDomain").truthy = false →
      ∃ ps, updateApiConfig (.obj c) s = (storeApiConfig (.obj ps) s, none) ∧
        ∀ k, Props.lookup k ps =
          match Props.lookup k c with
          | some v => some v
          | none => Props.lookup k (spreadProps s.apiConfig)) ∧
    (∀ key, ((JSVal.obj c).getOpt "targetDomain").truthy = true →
      toStr ((JSVal.obj c).getOpt "targetDomain") = .ok key →
      ∃ ps, updateApiConfig (.obj c) s = (storeApiConfig (.obj ps) s, none) ∧
        ∀ k, Props.lookup k ps =
          match Props.lookup k c with
          | some v => some v
          | none => Props.lookup k (mergeBase s.apiConfig key)) := by
  have hget : (JSVal.obj c).get "targetDomain" = .ok ((JSVal.obj c).getOpt "targetDomain") := by
    simp only [JSVal.getOpt, JSVal.get]
    split <;> rfl
  constructor
  · intro hf
    refine ⟨Props.defineAll c (spreadProps s.apiConfig), ?_, fun k =>
      Props.lookup_defineAll k c _ hc⟩
    simp only [updateApiConfig, hget, hf, Bool.false_eq_true, if_false, spreadProps]
  · intro key ht hkey
    refine ⟨Props.defineAll c (mergeBase s.apiConfig key), ?_, fun k =>
      Props.lookup_defineAll k c _ hc⟩
    rw [siteConfigs_base]
    simp only [updateApiConfig, hget, ht, if_true, hkey, spreadProps]
    split <;> rfl

/-- C21: the claim fails for a `targetDomain` that names a property of `Object.prototype`.
On the constructor's configuration, `updateApiConfig({eventPath: 'summit-2026',
targetDomain: 'constructor'})` leaves an `apiConfig` with the two keys of the argument only:
`apiType`, `endpoint` and `headers` of the previous configuration are gone, although
`constructor` is not a known domain.  (For `example.com` the previous values are kept.)  In
general, for every configuration object: each of its keys has its value afterwards; a key it
lacks has the value of the previous `apiConfig` when `targetDomain` is falsy, and otherwise the
value of `mergeBase`: of the preset for a known domain, none for a property name of
`Object.prototype`, of the previous `apiConfig` for any other key. -/
theorem updateApiConfig_prototype_key :
    (updateApiConfig
        (.obj [("eventPath", .str "summit-2026"), ("targetDomain", .str "constructor")])
        (UniversalProfileScraper.constructor ⟨none, .undefined, .undefined⟩)).1.apiConfig =
      .obj [("eventPath", .str "summit-2026"), ("targetDomain", .str "constructor")] ∧
    (updateApiConfig
        (.obj [("eventPath", .str "summit-2026"), ("targetDomain", .str "example.com")])
        (UniversalProfileScraper.constructor ⟨none, .undefined, .undefined⟩)).1.apiConfig =
      .obj [("apiType", .str "REST"),
        ("endpoint", .str "https://sbcconnect.com/api/user/getById"),
        ("eventPath", .str "summit-2026"), ("headers", .obj []),
        ("targetDomain", .str "example.com")] ∧
    (∀ (s : UniversalProfileScraper) (c : Props), (c.map Prod.fst).Nodup →
      (((JSVal.obj c).getOpt "targetDomain").truthy = false →
        ∃ ps, updateApiConfig (.obj c) s = (storeApiConfig (.obj ps) s, none) ∧
          ∀ k, Props.lookup k ps =
            match Props.lookup k c with
            | some v => some v
            | none => Props.lookup k (spreadProps s.apiConfig)) ∧
      (∀ key, ((JSVal.obj c).getOpt "targetDomain").truthy = true →
        toStr ((JSVal.obj c).getOpt "targetDomain") = .ok key →
        ∃ ps, updateApiConfig (.obj c) s = (storeApiConfig (.obj ps) s, none) ∧
          ∀ k, Props.lookup k ps =
            match Props.lookup k c with
            | some v => some v
            | none => Props.lookup k (mergeBase s.apiConfig key))) := by
  refine ⟨rfl, rfl, ?_⟩
  intro s c hc
  exact updateApiConfig_effect s c hc

/-! ## C22: the counts of the status -/

theorem countResults_total (results : List JSVal) (h : ∀ r ∈ results, r.isNullish = false) :
    ∃ successCount errorCount,
      countResults (fun e => !e) results = .ok successCount ∧
      countResults (fun e => e) results = .ok errorCount ∧
      successCount + errorCount = results.length := by
  induction results with
  | nil => exact ⟨0, 0, rfl, rfl, rfl⟩
  | cons r rest ih =>
    obtain ⟨a, b, ha, hb, hab⟩ := ih (fun x hx => h x (List.mem_cons_of_mem _ hx))
    have hr := JSVal.get_of_not_nullish (h r (List.mem_cons_self _ _)) "error"
    cases ht : (r.getOpt "error").truthy with
    | true =>
      refine ⟨a, b + 1, ?_, ?_, ?_⟩
      · simp [countResults, hr, ha, ht]
      · simp [countResults, hr, hb, ht]
      · simp only [List.length_cons]; omega
    | false =>
      refine ⟨a + 1, b, ?_, ?_, ?_⟩
      · simp [countResults, hr, ha, ht]
      · simp [countResults, hr, hb, ht]
      · simp only [List.length_cons]; omega

theorem Ending.result_not_nullish (e : Ending) : e.result.isNullish = false := by
  cases e <;> rfl

/-- The test `r.error` on the result of a plain ending tells a terminal failure. -/
theorem Ending.error_truthy (e : Ending) (h : e.isPlain = true) :
    (e.result.getOpt "error").truthy = e.isFailure := by
  cases e with
  | succeeded cleanedData now index =>
    simp only [Ending.isPlain] at h
    simp only [Ending.result, successResult, Ending.isFailure, JSVal.getOpt, JSVal.get,
      Props.lookup_define]
    cases hl : Props.lookup "error" cleanedData with
    | none => simp [objectPrototypeGet, objectPrototypeNames, JSVal.truthy]
    | some v =>
      rw [hl] at h
      simpa using h
  | failedTerminally profileData message now index =>
    simp only [Ending.isPlain] at h
    simp only [Ending.result, errorResult, Ending.isFailure, JSVal.getOpt, JSVal.get,
      Props.lookup]
    simpa [JSVal.truthy] using h

theorem countResults_plain (endings : List Ending) (h : ∀ e ∈ endings, e.isPlain = true) :
    countResults (fun e => !e) (endings.map Ending.result) =
      .ok (endings.filter (fun e => !e.isFailure)).length ∧
    countResults (fun e => e) (endings.map Ending.result) =
      .ok (endings.filter (fun e => e.isFailure)).length := by
  induction endings with
  | nil => exact ⟨rfl, rfl⟩
  | cons e rest ih =>
    obtain ⟨ha, hb⟩ := ih (fun x hx => h x (List.mem_cons_of_mem _ hx))
    have hr := JSVal.get_of_not_nullish (Ending.result_not_nullish e) "error"
    have ht := Ending.error_truthy e (h e (List.mem_cons_self _ _))
    cases hf : e.isFailure with
    | true =>
      rw [hf] at ht
      simp [countResults, hr, ha, hb, ht, List.filter, hf]
    | false =>
      rw [hf] at ht
      simp [countResults, hr, ha, hb, ht, List.filter, hf]

/-- C22: the claim fails for a success whose flattened record has a truthy column `error`.
One item is loaded and its only attempt succeeds.  With the REST payload
`{userId: 7, userProfile: {firstName: 'Ada', error: 'bounced'}}` the status has
`totalResults = 1`, `successCount = 0` and `errorCount = 1`; so it has, under the preset of
`event.igblive.com`, with a GraphQL payload whose visible text field `error` has the text
`none`.  The sum `successCount + errorCount = totalResults` holds for every list of results;
and `errorCount` is the number of terminal failures whenever no flattened record has a truthy
column `error` and no terminal error has an empty message. -/
theorem broadcastStatus_counts_error_column :
    (startScraping (fun _ => 1700000000000)
        (loadProfileData (.arr [.obj [("profileId", .str "a")]])
          (UniversalProfileScraper.constructor ⟨none, .undefined, .undefined⟩)).1
        [successAttempt (.obj [("userId", .num 7),
          ("userProfile", .obj [("firstName", .str "Ada"), ("error", .str "bounced")])])]).map
      (fun p => (broadcastStatus p.1).toOption.map
        (fun st => (st.totalResults, st.successCount, st.errorCount))) =
      some (some (1, 0, 1)) ∧
    (startScraping (fun _ => 1700000000000)
        (loadProfileData (.arr [.obj [("profileId", .str "a")]])
          (updateApiConfig (.obj [("targetDomain", .str "event.igblive.com")])
            (UniversalProfileScraper.constructor ⟨none, .undefined, .undefined⟩)).1).1
        [successAttempt (.obj [("id", .str "p1"), ("socialNetworks", .arr []),
          ("withEvent", .obj [("fields", .arr [.obj [("name", .str "error"),
            ("isVisible", .bool true), ("__typename", .str "Core_TextField"),
            ("value", .obj [("text", .str "none")])]])])])]).map
      (fun p => (broadcastStatus p.1).toOption.map
        (fun st => (st.totalResults, st.successCount, st.errorCount))) =
      some (some (1, 0, 1)) ∧
    (∀ s : UniversalProfileScraper, (∀ r ∈ s.results, r.isNullish = false) →
      ∃ st, broadcastStatus s = .ok st ∧ st.totalResults = s.results.length ∧
        st.successCount + st.errorCount = st.totalResults) ∧
    (∀ (s : UniversalProfileScraper) (endings : List Ending),
      s.results = endings.map Ending.result → (∀ e ∈ endings, e.isPlain = true) →
      ∃ st, broadcastStatus s = .ok st ∧
        st.errorCount = (endings.filter (fun e => e.isFailure)).length ∧
        st.successCount = (endings.filter (fun e => !e.isFailure)).length) := by
  refine ⟨rfl, rfl, ?_, ?_⟩
  · intro s h
    obtain ⟨a, b, ha, hb, hab⟩ := countResults_total s.results h
    exact ⟨⟨s.isRunning, s.isPaused, s.currentIndex, s.profileData.length, s.results.length,
      a, b, s.apiConfig⟩, by simp only [broadcastStatus, ha, hb], rfl, hab⟩
  · intro s endings hres h
    obtain ⟨ha, hb⟩ := countResults_plain endings h
    rw [← hres] at ha hb
    exact ⟨⟨s.isRunning, s.isPaused, s.currentIndex, s.profileData.length, s.results.length,
      _, _, s.apiConfig⟩, by simp only [broadcastStatus, ha, hb], rfl, rfl⟩

end Scraper
